import Mathlib

/-!
# Verification development for the memory scanner and the entity reader

Shallow embedding of `scanner.cpp`, `mc_process.h`, `entity.cpp` and of
`esp.cpp` (the projection and the drawing loop).

Conventions of the embedding:

* a byte (`uint8_t`) is a `Fin 256`;
* an address (`uintptr_t`) is a `Nat` below `2 ^ 64`; every address computation
  of the source is followed by `% 2 ^ 64` (`wrap64`);
* an `int` is an `Int`; converting it to `uintptr_t` is `toU64`; the `int` product
  `i * refSize` of the element address is reduced to 32 bits (`mulInt32`);
* a buffer passed as pointer plus size is a `List Byte` (the size is its length);
* the target process is a record of the operating-system primitives the code
  calls (`ReadProcessMemory`, `VirtualQueryEx`, `GetSystemInfo`);
* code that reads remote memory returns, next to its value, the list of
  `ReadProcessMemory` calls it made, in order;
* a `double` read from the target is its IEEE-754 bit pattern, with
  `Double.value` for the number it stands for;
* the `float` arithmetic of the matrix code and the projection of `esp.cpp` is
  exact arithmetic in an ordered field, the functions of the C mathematics
  library being parameters (`Libm`); the conversions from `double`, the
  distance and the box of `DrawEntityESP` are rounded to single precision
  (`fl32`), with infinities and NaNs (`F32`).
-/

namespace Trolling

/-! ## Machine arithmetic -/

/-- A `uint8_t`. -/
abbrev Byte := Fin 256

/-- Reduction of an address computation to 64 bits (`uintptr_t` arithmetic). -/
def wrap64 (n : Nat) : Nat := n % 2 ^ 64

/-- Conversion of a signed `int` to `uintptr_t` (sign extension, modulo `2 ^ 64`). -/
def toU64 (x : Int) : Nat := (x % 2 ^ 64).toNat

/-! ## scanner.h / scanner.cpp -/

/-- The largest `unsigned long`. The program is built for Windows (it includes
`Windows.h`), where `unsigned long` has 32 bits. -/
def ULONG_MAX : Nat := 2 ^ 32 - 1

deriving instance DecidableEq for Except

/-- The two exceptions `std::stoul` can raise. -/
inductive StoulError where
  | invalid_argument
  | out_of_range
deriving DecidableEq, Repr

/-- The classification `isspace` of the classic locale, which stream extraction
uses to delimit tokens: space, `\t`, `\n`, `\v`, `\f`, `\r`. -/
def isspace (c : Char) : Bool :=
  c.toNat == 32 || (9 ≤ c.toNat && c.toNat ≤ 13)

/-- Value of a hexadecimal digit, `none` for any other character. -/
def hexDigit (c : Char) : Option Nat :=
  if 48 ≤ c.toNat ∧ c.toNat ≤ 57 then some (c.toNat - 48)
  else if 97 ≤ c.toNat ∧ c.toNat ≤ 102 then some (c.toNat - 87)
  else if 65 ≤ c.toNat ∧ c.toNat ≤ 70 then some (c.toNat - 55)
  else none

/-- Digit loop of `strtoul`: consumes the longest run of hexadecimal digits and
accumulates its value; `none` while no digit has been read. -/
def readHex : List Char → Option Nat → Option Nat
  | [], acc => acc
  | c :: cs, acc =>
    match hexDigit c with
    | none => acc
    | some d => readHex cs (some (16 * acc.getD 0 + d))

/-- Removal of the optional `0x` / `0X` prefix that `strtoul` accepts in base 16
(ISO C: the prefix counts only when a hexadecimal digit follows it). -/
def strip0x : List Char → List Char
  | '0' :: x :: h :: r =>
    if (x = 'x' ∨ x = 'X') ∧ (hexDigit h).isSome then h :: r else '0' :: x :: h :: r
  | cs => cs

/-- The call `std::stoul(token, nullptr, 16)` on a token without leading white
space: optional sign, optional `0x`, then hexadecimal digits up to the first
other character. No digit raises `invalid_argument`, a value above `ULONG_MAX`
raises `out_of_range`, a minus sign negates in `unsigned long`. -/
def stoul16 (token : List Char) : Except StoulError Nat :=
  let signed : Bool × List Char :=
    match token with
    | '-' :: r => (true, r)
    | '+' :: r => (false, r)
    | r => (false, r)
  match readHex (strip0x signed.2) none with
  | none => .error .invalid_argument
  | some v =>
    if v > ULONG_MAX then .error .out_of_range
    else .ok (if signed.1 then (ULONG_MAX + 1 - v) % (ULONG_MAX + 1) else v)

/-- Worker of `istreamTokens`: `cur` is the token being read. -/
def istreamTokens.go : List Char → List Char → List (List Char)
  | [], cur => if cur.isEmpty then [] else [cur]
  | c :: cs, cur =>
    if isspace c then
      if cur.isEmpty then istreamTokens.go cs [] else cur :: istreamTokens.go cs []
    else istreamTokens.go cs (cur ++ [c])

/-- The successive values of `token` produced by `while (ss >> token)`: the
maximal runs of non-white-space characters of the string, in order. -/
def istreamTokens (s : List Char) : List (List Char) :=
  istreamTokens.go s []

/-- The struct `ParsedPattern`: `mask[i] = true` means `bytes[i]` must match exactly. -/
structure ParsedPattern where
  bytes : List Byte
  mask : List Bool
deriving DecidableEq, Repr

/-- Body of the `while (ss >> token)` loop of `ParsePattern`, run over the tokens
still in the stream; an exception of `std::stoul` leaves the loop and the function. -/
def parseLoop : List (List Char) → ParsedPattern → Except StoulError ParsedPattern
  | [], p => .ok p
  | token :: rest, p =>
    if token = ['?'] ∨ token = ['?', '?'] then
      parseLoop rest ⟨p.bytes ++ [0], p.mask ++ [false]⟩
    else
      match stoul16 token with
      | .error e => .error e
      | .ok v => parseLoop rest ⟨p.bytes ++ [Fin.ofNat v], p.mask ++ [true]⟩

/-- The function `ParsePattern` of scanner.cpp. `Except.error` is an exception
that leaves the function (nothing in it catches one). Only the ASCII
characters matter to it (white space, sign, `0x`, hexadecimal digits, `?`); every
other character is neither white space nor a digit. -/
def ParsePattern (pattern : String) : Except StoulError ParsedPattern :=
  parseLoop (istreamTokens pattern.toList) ⟨[], []⟩

/-- Inner loop of `ScanBuffer`: `for (j = ...; j < patLen; ++j)` with the early
`break`; `todo` is the number of positions still to visit (`patLen - j`).
The value is the final `match` flag. -/
def matchLoop (buf : List Byte) (pat : ParsedPattern) (i : Nat) : Nat → Nat → Bool
  | 0, _ => true
  | todo + 1, j =>
    if pat.mask.getD j false && buf.getD (i + j) 0 != pat.bytes.getD j 0 then
      false
    else
      matchLoop buf pat i todo (j + 1)

/-- Outer loop of `ScanBuffer`: `for (i = ...; i <= limit; ++i)`; `todo` is the
number of start offsets still to visit (`limit + 1 - i`). -/
def scanLoop (buf : List Byte) (baseAddr : Nat) (pat : ParsedPattern) :
    Nat → Nat → List Nat → List Nat
  | 0, _, results => results
  | todo + 1, i, results =>
    let patLen := pat.bytes.length
    let results :=
      if matchLoop buf pat i patLen 0 then results ++ [wrap64 (baseAddr + i)] else results
    scanLoop buf baseAddr pat todo (i + 1) results

/-- The function `ScanBuffer` of scanner.cpp. `buf` with its length stands for the
pair `(buf, bufSize)`; `results` is the vector the matches are appended to. -/
def ScanBuffer (buf : List Byte) (baseAddr : Nat) (pat : ParsedPattern)
    (results : List Nat) : List Nat :=
  let bufSize := buf.length
  if bufSize < pat.bytes.length then results
  else
    let patLen := pat.bytes.length
    let limit := bufSize - patLen
    scanLoop buf baseAddr pat (limit + 1) 0 results

/-! ### The operating-system primitives -/

/-- Outcome of a call of `ReadProcessMemory`: the returned flag and the bytes
written to the buffer (`bytesRead` is the length of `data`). -/
structure RpmResult where
  ok : Bool
  data : List Byte
deriving DecidableEq, Repr

/-- The fields of `MEMORY_BASIC_INFORMATION` the scanner looks at. -/
structure MEMORY_BASIC_INFORMATION where
  State : Nat
  Protect : Nat
  RegionSize : Nat
deriving DecidableEq, Repr

/-- What a process `HANDLE` gives access to: the address range reported by
`GetSystemInfo`, the region query `VirtualQueryEx` (`none` when it returns 0)
and `ReadProcessMemory address size`. -/
structure HANDLE where
  lpMinimumApplicationAddress : Nat
  lpMaximumApplicationAddress : Nat
  VirtualQueryEx : Nat → Option MEMORY_BASIC_INFORMATION
  ReadProcessMemory : Nat → Nat → RpmResult

/-- The handle `nullptr`: every primitive fails on it. -/
def HANDLE.null : HANDLE :=
  ⟨0, 0, fun _ => none, fun _ _ => ⟨false, []⟩⟩

/-- Windows constant `MEM_COMMIT`. -/
def MEM_COMMIT : Nat := 0x1000
/-- Windows constant `PAGE_READONLY`. -/
def PAGE_READONLY : Nat := 0x02
/-- Windows constant `PAGE_READWRITE`. -/
def PAGE_READWRITE : Nat := 0x04
/-- Windows constant `PAGE_WRITECOPY`. -/
def PAGE_WRITECOPY : Nat := 0x08
/-- Windows constant `PAGE_EXECUTE_READ`. -/
def PAGE_EXECUTE_READ : Nat := 0x20
/-- Windows constant `PAGE_EXECUTE_READWRITE`. -/
def PAGE_EXECUTE_READWRITE : Nat := 0x40
/-- Windows constant `PAGE_EXECUTE_WRITECOPY`. -/
def PAGE_EXECUTE_WRITECOPY : Nat := 0x80

/-- The region filter of `PatternScan`: committed and one of the six readable
protections. -/
def scannable (mbi : MEMORY_BASIC_INFORMATION) : Bool :=
  mbi.State == MEM_COMMIT &&
    (mbi.Protect == PAGE_READWRITE || mbi.Protect == PAGE_READONLY ||
     mbi.Protect == PAGE_EXECUTE_READ || mbi.Protect == PAGE_EXECUTE_READWRITE ||
     mbi.Protect == PAGE_WRITECOPY || mbi.Protect == PAGE_EXECUTE_WRITECOPY)

/-- The region loop `while (addr < end)` of `PatternScan`. The loop has no bound
of its own, so the embedding counts iterations: `none` means that `fuel`
iterations did not reach the end of the loop. -/
def PatternScan.loop (process : HANDLE) (pattern : ParsedPattern) (endAddr : Nat) :
    Nat → Nat → List Nat → Option (List Nat)
  | 0, addr, results => if addr < endAddr then none else some results
  | fuel + 1, addr, results =>
    if addr < endAddr then
      match process.VirtualQueryEx addr with
      | none => some results
      | some mbi =>
        let results :=
          if scannable mbi then
            let r := process.ReadProcessMemory addr mbi.RegionSize
            if r.ok && r.data.length > 0 then ScanBuffer r.data addr pattern results
            else results
          else results
        PatternScan.loop process pattern endAddr fuel (wrap64 (addr + mbi.RegionSize)) results
    else some results

/-- The function `PatternScan` of scanner.cpp, with the iteration bound `fuel`
of `PatternScan.loop`. -/
def PatternScan (fuel : Nat) (process : HANDLE) (pattern : ParsedPattern) :
    Option (List Nat) :=
  if pattern.bytes.isEmpty then some []
  else
    PatternScan.loop process pattern process.lpMaximumApplicationAddress fuel
      process.lpMinimumApplicationAddress []

/-- The function `PatternScanRange` of scanner.cpp. -/
def PatternScanRange (process : HANDLE) (pattern : ParsedPattern) (start size : Nat) :
    List Nat :=
  if pattern.bytes.isEmpty || size == 0 then []
  else
    let r := process.ReadProcessMemory start size
    if r.ok && r.data.length > 0 then ScanBuffer r.data start pattern [] else []

/-! ## mc_process.h -/

/-- Little-endian value of a byte sequence (the target is x64). -/
def leValue : List Byte → Nat
  | [] => 0
  | b :: bs => b.val + 256 * leValue bs

/-- The template `ReadMemory<T>` for an unsigned integer type `T` of `size`
bytes: the value read, or `none` (`std::nullopt`) unless `ReadProcessMemory`
succeeds with `bytesRead == sizeof(T)`. -/
def ReadMemory (size : Nat) (process : HANDLE) (address : Nat) : Option Nat :=
  let r := process.ReadProcessMemory address size
  if r.ok && r.data.length == size then some (leValue r.data) else none

/-- Reinterpretation of a 32-bit pattern as `int32_t` (two's complement). -/
def toInt32 (v : Nat) : Int :=
  if v % 2 ^ 32 < 2 ^ 31 then (v % 2 ^ 32 : Nat) else (v % 2 ^ 32 : Nat) - 2 ^ 32

/-- The instance `ReadMemory<int32_t>`. -/
def ReadMemoryInt32 (process : HANDLE) (address : Nat) : Option Int :=
  (ReadMemory 4 process address).map toInt32

/-! ## entity.h / entity.cpp -/

/-- A `double`, kept as its IEEE-754 binary64 bit pattern. -/
abbrev Double := Nat

/-- Whether a bit pattern is a NaN. -/
def Double.isNaN (x : Double) : Bool :=
  (x / 2 ^ 52) % 2 ^ 11 == 2047 && x % 2 ^ 52 != 0

/-- Sign-magnitude key of a non-NaN `double`: the order of the keys is the IEEE
order of the values (both zeros have key 0). -/
def Double.key (x : Double) : Int :=
  if x % 2 ^ 64 < 2 ^ 63 then (x % 2 ^ 64 : Nat) else -((x % 2 ^ 64 - 2 ^ 63 : Nat) : Int)

/-- The comparison `a < b` of two `double`s; false when either is a NaN. -/
def Double.lt (a b : Double) : Bool :=
  !a.isNaN && !b.isNaN && decide (a.key < b.key)

/-- Bit pattern of the literal `3.0e7`. -/
def dbl_3e7 : Double := 0x417C9C3800000000
/-- Bit pattern of `-3.0e7`. -/
def dbl_neg3e7 : Double := 0xC17C9C3800000000
/-- Bit pattern of `1000` converted to `double`. -/
def dbl_1000 : Double := 0x408F400000000000
/-- Bit pattern of `-1000` converted to `double`. -/
def dbl_neg1000 : Double := 0xC08F400000000000

/-- The struct `EntityData`. -/
structure EntityData where
  index : Int := 0
  posX : Double := 0
  posY : Double := 0
  posZ : Double := 0
  bbMinX : Double := 0
  bbMinY : Double := 0
  bbMinZ : Double := 0
  bbMaxX : Double := 0
  bbMaxY : Double := 0
  bbMaxZ : Double := 0
  valid : Bool := false
deriving DecidableEq, Repr

/-- The struct `StringFind`. -/
structure StringFind where
  address : Nat := 0
  text : String := ""
deriving DecidableEq, Repr

/-- The struct `OopConfig`. -/
structure OopConfig where
  compressed : Bool := true
  shift : Int := 3
  heapBase : Nat := 0
deriving DecidableEq, Repr

/-- The struct `EntityOffsets`. -/
structure EntityOffsets where
  chainBase : Nat := 0
  chainOffsets : List Int := []
  listSizeOffset : Int := 0x10
  listArrayOffset : Int := 0x14
  arrayDataOffset : Int := 0x10
  posXOffset : Int := 0x98
  posYOffset : Int := 0xA0
  posZOffset : Int := 0xA8
  bbRefOffset : Int := 0xB0
  bbMinXOffset : Int := 0x10
  bbMinYOffset : Int := 0x18
  bbMinZOffset : Int := 0x20
  bbMaxXOffset : Int := 0x28
  bbMaxYOffset : Int := 0x30
  bbMaxZOffset : Int := 0x38
  maxEntities : Int := 256
deriving DecidableEq, Repr

/-- The data members of the class `EntityReader`. `workerJoinable` stands for
the `std::thread worker` (whether a thread is attached to it); `printCooldown`
is the function-local `static int` of `DoEntityRead`. -/
structure EntityReader where
  oops : OopConfig := {}
  offsets : EntityOffsets := {}
  readIntervalMs : Int := 50
  entityReadEnabled : Bool := false
  hProcess : HANDLE := HANDLE.null
  workerJoinable : Bool := false
  running : Bool := false
  stringScanRequested : Bool := false
  entities : List EntityData := []
  stringFinds : List StringFind := []
  status : String := "idle"
  printCooldown : Int := 0

/-- One call of `ReadProcessMemory`, as recorded in the read log. -/
structure RpmCall where
  address : Nat
  size : Nat
deriving DecidableEq, Repr

/-- The member function `EntityReader::ReadOop`: the decoded address and the
reads performed. A shift outside `0 ≤ shift < 64` is undefined in the source. -/
def EntityReader.ReadOop (self : EntityReader) (addr : Nat) : Nat × List RpmCall :=
  if self.oops.compressed then
    match ReadMemory 4 self.hProcess addr with
    | none => (0, [⟨addr, 4⟩])
    | some ref =>
      if ref = 0 then (0, [⟨addr, 4⟩])
      else (wrap64 (wrap64 (ref <<< self.oops.shift.toNat) + self.oops.heapBase), [⟨addr, 4⟩])
  else
    match ReadMemory 8 self.hProcess addr with
    | none => (0, [⟨addr, 8⟩])
    | some ptr =>
      if ptr = 0 then (0, [⟨addr, 8⟩])
      else (ptr, [⟨addr, 8⟩])

/-- The loop of `EntityReader::FollowChain` over the offsets still to apply. -/
def EntityReader.FollowChain.loop (self : EntityReader) : List Int → Nat → Nat × List RpmCall
  | [], addr => (addr, [])
  | off :: rest, addr =>
    match ReadMemory 8 self.hProcess addr with
    | none => (0, [⟨addr, 8⟩])
    | some ptr =>
      if ptr = 0 then (0, [⟨addr, 8⟩])
      else
        let r := EntityReader.FollowChain.loop self rest (wrap64 (ptr + toU64 off))
        (r.1, ⟨addr, 8⟩ :: r.2)

/-- The member function `EntityReader::FollowChain`. -/
def EntityReader.FollowChain (self : EntityReader) : Nat × List RpmCall :=
  let addr := self.offsets.chainBase
  if addr = 0 then (0, [])
  else EntityReader.FollowChain.loop self self.offsets.chainOffsets addr

/-- The plausibility test of `DoEntityRead` on the three position values. -/
def positionInBounds (x y z : Double) : Bool :=
  Double.lt dbl_neg3e7 x && Double.lt x dbl_3e7 &&
  Double.lt dbl_neg1000 y && Double.lt y dbl_1000 &&
  Double.lt dbl_neg3e7 z && Double.lt z dbl_3e7

/-- Assignment `if (b) field = *b;` of one bounding-box value. -/
def storeIfRead (b : Option Nat) (old : Double) : Double :=
  match b with
  | some v => v
  | none => old

/-- The product `a * b` of two `int`s as the x64 code computes it: the low 32
bits of the product, read as `int32_t`. (A product outside the range of `int`
is an overflow, which C++ leaves undefined.) -/
def mulInt32 (a b : Int) : Int := toInt32 (toU64 (a * b))

/-- Body of the array loop of `DoEntityRead` for slot `i`: `none` when the
element decodes to null (`continue`), else the record pushed to the snapshot;
next to it the reads performed. The product `i * refSize` is a product of two
`int`s (`mulInt32`), converted to `uintptr_t` for the sum. -/
def EntityReader.readEntity (self : EntityReader) (arrayRef : Nat) (refSize : Int) (i : Int) :
    Option EntityData × List RpmCall :=
  let o := self.offsets
  let elemAddr := wrap64 (arrayRef + toU64 o.arrayDataOffset + toU64 (mulInt32 i refSize))
  let entity := self.ReadOop elemAddr
  let entityAddr := entity.1
  if entityAddr = 0 then (none, entity.2)
  else
    let ed : EntityData := { index := i }
    let pxAddr := wrap64 (entityAddr + toU64 o.posXOffset)
    let pyAddr := wrap64 (entityAddr + toU64 o.posYOffset)
    let pzAddr := wrap64 (entityAddr + toU64 o.posZOffset)
    let px := ReadMemory 8 self.hProcess pxAddr
    let py := ReadMemory 8 self.hProcess pyAddr
    let pz := ReadMemory 8 self.hProcess pzAddr
    let posReads : List RpmCall := [⟨pxAddr, 8⟩, ⟨pyAddr, 8⟩, ⟨pzAddr, 8⟩]
    let ed : EntityData :=
      match px, py, pz with
      | some x, some y, some z =>
        { ed with posX := x, posY := y, posZ := z, valid := positionInBounds x y z }
      | _, _, _ => ed
    let bb := self.ReadOop (wrap64 (entityAddr + toU64 o.bbRefOffset))
    let bbAddr := bb.1
    if bbAddr ≠ 0 then
      let a0 := wrap64 (bbAddr + toU64 o.bbMinXOffset)
      let a1 := wrap64 (bbAddr + toU64 o.bbMinYOffset)
      let a2 := wrap64 (bbAddr + toU64 o.bbMinZOffset)
      let a3 := wrap64 (bbAddr + toU64 o.bbMaxXOffset)
      let a4 := wrap64 (bbAddr + toU64 o.bbMaxYOffset)
      let a5 := wrap64 (bbAddr + toU64 o.bbMaxZOffset)
      let ed : EntityData :=
        { ed with
          bbMinX := storeIfRead (ReadMemory 8 self.hProcess a0) ed.bbMinX
          bbMinY := storeIfRead (ReadMemory 8 self.hProcess a1) ed.bbMinY
          bbMinZ := storeIfRead (ReadMemory 8 self.hProcess a2) ed.bbMinZ
          bbMaxX := storeIfRead (ReadMemory 8 self.hProcess a3) ed.bbMaxX
          bbMaxY := storeIfRead (ReadMemory 8 self.hProcess a4) ed.bbMaxY
          bbMaxZ := storeIfRead (ReadMemory 8 self.hProcess a5) ed.bbMaxZ }
      (some ed, entity.2 ++ posReads ++ bb.2 ++
        [⟨a0, 8⟩, ⟨a1, 8⟩, ⟨a2, 8⟩, ⟨a3, 8⟩, ⟨a4, 8⟩, ⟨a5, 8⟩])
    else (some ed, entity.2 ++ posReads ++ bb.2)

/-- Result of the array loop of `DoEntityRead`. -/
structure LoopResult where
  snapshot : List EntityData
  validCount : Int
  reads : List RpmCall
deriving DecidableEq, Repr

/-- The loop `for (int i = ...; i < count; ++i)` of `DoEntityRead`; `todo` is the
number of slots still to visit (`count - i`). -/
def EntityReader.entityLoop (self : EntityReader) (arrayRef : Nat) (refSize : Int) :
    Nat → Int → List EntityData → Int → LoopResult
  | 0, _, snapshot, validCount => ⟨snapshot, validCount, []⟩
  | todo + 1, i, snapshot, validCount =>
    let e := self.readEntity arrayRef refSize i
    match e.1 with
    | none =>
      let r := EntityReader.entityLoop self arrayRef refSize todo (i + 1) snapshot validCount
      { r with reads := e.2 ++ r.reads }
    | some ed =>
      let r := EntityReader.entityLoop self arrayRef refSize todo (i + 1) (snapshot ++ [ed])
        (if ed.valid then validCount + 1 else validCount)
      { r with reads := e.2 ++ r.reads }

/-- The clamp of the count in `DoEntityRead`:
`if (count < 0 || count > maxEntities) count = (count < 0) ? 0 : maxEntities;`. -/
def clampCount (count maxEntities : Int) : Int :=
  if count < 0 ∨ count > maxEntities then (if count < 0 then 0 else maxEntities) else count

/-- Upper-case hexadecimal digits of a number (`%llX`). -/
def fmtHex (n : Nat) : String :=
  String.mk ((Nat.toDigits 16 n).map Char.toUpper)

/-- The status text `"Reading %d entities (%d valid) @ 0x%llX"` of a completed cycle. -/
def readingStatus (count validCount : Int) (listAddr : Nat) : String :=
  "Reading " ++ toString count ++ " entities (" ++ toString validCount ++ " valid) @ 0x" ++
    fmtHex listAddr

/-- Exceptions of the standard library that `DoEntityRead` can raise. -/
inductive StdError where
  | length_error
deriving DecidableEq, Repr

/-- Result of one call of `DoEntityRead`: the reader afterwards and the reads
performed, in order. -/
structure CycleResult where
  reader : EntityReader
  reads : List RpmCall

/-- The member function `EntityReader::DoEntityRead`. `snapshot.reserve(count)`
converts `count` to `size_t`, so a negative `count` raises `std::length_error`.
The text printed to the console in step 5 is not part of the model; the
counter `printCooldown` is. -/
def EntityReader.DoEntityRead (self : EntityReader) : Except StdError CycleResult :=
  -- 1. Follow pointer chain to reach the entity list object
  let chain := self.FollowChain
  let listAddr := chain.1
  if listAddr = 0 then
    .ok ⟨{ self with status := "Chain resolved to NULL", entities := [] }, chain.2⟩
  else
    -- 2. Read entity count from the list
    let countAddr := wrap64 (listAddr + toU64 self.offsets.listSizeOffset)
    match ReadMemoryInt32 self.hProcess countAddr with
    | none =>
      .ok ⟨{ self with status := "Failed to read entity count", entities := [] },
        chain.2 ++ [⟨countAddr, 4⟩]⟩
    | some raw =>
      let count := clampCount raw self.offsets.maxEntities
      -- 3. Read the internal array reference
      let array := self.ReadOop (wrap64 (listAddr + toU64 self.offsets.listArrayOffset))
      let arrayRef := array.1
      if arrayRef = 0 then
        .ok ⟨{ self with status := "Entity array ref is NULL", entities := [] },
          chain.2 ++ [⟨countAddr, 4⟩] ++ array.2⟩
      else if count < 0 then .error .length_error
      else
        -- 4. Walk the array and read each entity
        let refSize : Int := if self.oops.compressed then 4 else 8
        let r := self.entityLoop arrayRef refSize count.toNat 0 [] 0
        -- 5. Console output cooldown
        let cooldown := if self.printCooldown + 1 ≥ 20 then 0 else self.printCooldown + 1
        -- 6. Publish snapshot
        .ok ⟨{ self with
                entities := r.snapshot
                status := readingStatus count r.validCount listAddr
                printCooldown := cooldown },
          chain.2 ++ [⟨countAddr, 4⟩] ++ array.2 ++ r.reads⟩

/-! ## Reference definitions and simulated processes -/

/-- Reference definition of the decoder as the specification words it
(OopDecoder `Decode`), for a shift count `shift`: in compressed mode read
4 bytes as an unsigned reference `r`, null if the read fails or `r = 0`, else
`(r << shift) + heapBase` in 64-bit arithmetic; otherwise read 8 bytes `p`, null
if the read fails or `p = 0`, else `p`. -/
def OopDecoder.Decode (process : HANDLE) (compressed : Bool) (shift heapBase : Nat)
    (rawFieldAddress : Nat) : Nat :=
  if compressed then
    match ReadMemory 4 process rawFieldAddress with
    | none => 0
    | some r => if r = 0 then 0 else (r * 2 ^ shift % 2 ^ 64 + heapBase) % 2 ^ 64
  else
    match ReadMemory 8 process rawFieldAddress with
    | none => 0
    | some p => if p = 0 then 0 else p

/-- The byte at address `a` of a memory image given as segments (start address
and contents); `none` where no segment covers `a`. -/
def imageByte : List (Nat × List Byte) → Nat → Option Byte
  | [], _ => none
  | (base, bytes) :: rest, a =>
    if base ≤ a ∧ a < base + bytes.length then bytes[a - base]? else imageByte rest a

/-- A simulated process over a memory image: `ReadProcessMemory` succeeds, with
all the bytes asked for, exactly when every byte of the range is covered by
the image; no region is reported by `VirtualQueryEx`. -/
def HANDLE.ofImage (segments : List (Nat × List Byte)) : HANDLE where
  lpMinimumApplicationAddress := 0x10000
  lpMaximumApplicationAddress := 0x7FFFFFFEFFFF
  VirtualQueryEx := fun _ => none
  ReadProcessMemory := fun address size =>
    let cells := (List.range size).map (fun k => imageByte segments (address + k))
    if cells.all Option.isSome then ⟨true, cells.filterMap id⟩ else ⟨false, []⟩

/-- Whether a step of the pointer chain at address `a` succeeds: the 8-byte
read succeeds and does not yield 0. -/
def chainStepOk (process : HANDLE) (a : Nat) : Prop :=
  (ReadMemory 8 process a).isSome = true ∧ ReadMemory 8 process a ≠ some 0

instance (process : HANDLE) (a : Nat) : Decidable (chainStepOk process a) := by
  unfold chainStepOk
  infer_instance

/-- The addresses of a pointer chain as the specification defines them:
`a_0 = base` and `a_(i+1) = read64(a_i) + o_i` with 64-bit wrap-around, the
offset sign-extended. (Where a read fails the value 0 stands in; the
properties below use `a_(i+1)` only when step `i` succeeds.) -/
def chainAddr (process : HANDLE) (base : Nat) (offsets : List Int) : Nat → Nat
  | 0 => base
  | i + 1 =>
    wrap64 ((ReadMemory 8 process (chainAddr process base offsets i)).getD 0 +
      toU64 (offsets.getD i 0))

/-- A token the claim C4 speaks of: `?`, `??` or exactly two hexadecimal digits. -/
def plainToken (t : List Char) : Prop :=
  t = ['?'] ∨ t = ['?', '?'] ∨ (t.length = 2 ∧ ∀ c, c ∈ t → (hexDigit c).isSome = true)

instance : DecidablePred plainToken := fun t => by
  unfold plainToken
  infer_instance

/-- The pattern position a token stands for when `std::stoul` accepts it:
a wild card gives byte 0, any other token the low byte of its value. -/
def tokenByte (t : List Char) : Byte :=
  if t = ['?'] ∨ t = ['?', '?'] then 0
  else
    match stoul16 t with
    | .ok v => Fin.ofNat v
    | .error _ => 0

/-- The mask entry a token stands for: false for a wild card only. -/
def tokenMask (t : List Char) : Bool :=
  if t = ['?'] ∨ t = ['?', '?'] then false else true

/-- A token that does not make `ParsePattern` raise: a wild card or a token
`std::stoul` accepts. -/
def acceptedToken (t : List Char) : Prop :=
  t = ['?'] ∨ t = ['?', '?'] ∨ (stoul16 t).isOk = true

instance : DecidablePred acceptedToken := fun t => by
  unfold acceptedToken
  infer_instance

/-- The scenario of C9 as a concrete reader: default configuration apart from
the chain, memory holding the pointer `0x2000` at `0x1000`, the size 1 at
`0x2010` and the compressed reference 16 at `0x2014`. -/
def scenarioReader : EntityReader :=
  { hProcess := HANDLE.ofImage
      [(0x1000, [0, 0x20, 0, 0, 0, 0, 0, 0]), (0x2010, [1, 0, 0, 0, 16, 0, 0, 0])],
    offsets := { chainBase := 0x1000, chainOffsets := [0x10] } }

/-- The scenario of C9 with the list offsets that place the size at `0x2010`
and the array reference at `0x2014`. -/
def scenarioReaderAt0 : EntityReader :=
  { hProcess := HANDLE.ofImage
      [(0x1000, [0, 0x20, 0, 0, 0, 0, 0, 0]), (0x2010, [1, 0, 0, 0, 16, 0, 0, 0])],
    offsets := { chainBase := 0x1000, chainOffsets := [0x10],
                 listSizeOffset := 0, listArrayOffset := 4 } }

/-- A reader with a stale snapshot and earlier string finds, for the witness
of C10: chain base `0x1000`, default list offsets, the given chain offsets
and the given memory image. -/
def staleReader (chainOffsets : List Int) (image : List (Nat × List Byte)) : EntityReader :=
  { hProcess := HANDLE.ofImage image,
    offsets := { chainBase := 0x1000, chainOffsets := chainOffsets },
    entities := [{ index := 7, valid := true }],
    stringFinds := [{ address := 0x5000, text := "net/minecraft/entity/Entity" }],
    status := "Reading 1 entities (1 valid) @ 0x2010" }

/-- The clamp as the specification words it: negative gives 0, above the
configured maximum gives the maximum, anything else is kept. -/
def clampSpec (c maxEntities : Int) : Int :=
  if c < 0 then 0 else if c > maxEntities then maxEntities else c

/-- The address of the element field of slot `i` as `DoEntityRead` computes it:
`arrayRef + arrayDataOffset + (i * refSize)`, with `refSize` 4 for compressed
references and 8 otherwise, the product taken in `int`. -/
def EntityReader.elemAddr (self : EntityReader) (arrayRef : Nat) (i : Int) : Nat :=
  wrap64 (arrayRef + toU64 self.offsets.arrayDataOffset +
    toU64 (mulInt32 i (if self.oops.compressed then 4 else 8)))

/-- A simulated reader whose chain (base `0x1000` holding the pointer `0x2000`,
one offset `0x10`) resolves to a list object at `0x2010`: with the default
list offsets the count is the 4 bytes `countBytes` at `0x2020` and the
compressed array reference at `0x2024` is 16, so the array is at `0x80` and
its element fields start at `0x90`. `heap` is the rest of the memory image. -/
def arrayReader (countBytes : List Byte) (maxEntities : Int)
    (heap : List (Nat × List Byte)) : EntityReader :=
  { hProcess := HANDLE.ofImage
      ([(0x1000, [0, 0x20, 0, 0, 0, 0, 0, 0]), (0x2020, countBytes ++ [16, 0, 0, 0])] ++ heap),
    offsets := { chainBase := 0x1000, chainOffsets := [0x10], maxEntities := maxEntities } }

/-- A heap for `arrayReader` with three non-null slots: the element fields at
`0x90` hold the compressed references `0x20`, `0x40`, `0x60` (objects at
`0x100`, `0x200`, `0x300`). The first object has the position
(100.5, 64.0, -200.25), the second (100.5, 5000.0, -200.25), each followed by
a null bounding-box reference; nothing of the third object is readable. -/
def sampleHeap : List (Nat × List Byte) :=
  [(0x90, [0x20, 0, 0, 0, 0x40, 0, 0, 0, 0x60, 0, 0, 0]),
   (0x198, [0, 0, 0, 0, 0, 0x20, 0x59, 0x40, 0, 0, 0, 0, 0, 0, 0x50, 0x40,
            0, 0, 0, 0, 0, 0x08, 0x69, 0xC0, 0, 0, 0, 0]),
   (0x298, [0, 0, 0, 0, 0, 0x20, 0x59, 0x40, 0, 0, 0, 0, 0, 0x88, 0xB3, 0x40,
            0, 0, 0, 0, 0, 0x08, 0x69, 0xC0, 0, 0, 0, 0])]

/-- Whether a bit pattern is a finite `double` (exponent field below 2047). -/
def Double.isFinite (x : Double) : Bool :=
  (x / 2 ^ 52) % 2 ^ 11 != 2047

/-- The magnitude of a `double` with the magnitude bits `m` (exponent field
`e = m / 2 ^ 52`, fraction `f = m % 2 ^ 52`), in units of `2 ^ (-1074)`: `f` for
a subnormal (`e = 0`), `(2 ^ 52 + f) * 2 ^ (e - 1)` otherwise. -/
def Double.scaled (m : Nat) : Nat :=
  if m / 2 ^ 52 = 0 then m % 2 ^ 52 else (2 ^ 52 + m % 2 ^ 52) * 2 ^ (m / 2 ^ 52 - 1)

/-- The number a finite `double` stands for (IEEE-754 binary64): sign bit 63,
magnitude `Double.scaled` of the low 63 bits times `2 ^ (-1074)`. -/
def Double.value (x : Double) : ℚ :=
  if x % 2 ^ 64 < 2 ^ 63 then (Double.scaled (x % 2 ^ 64) : ℚ) / 2 ^ 1074
  else -((Double.scaled (x % 2 ^ 64 - 2 ^ 63) : ℚ) / 2 ^ 1074)

/-- The three position reads of the loop body of `DoEntityRead` for the entity
object at `entityAddr`: the 8-byte reads at the x, y and z offsets. -/
def EntityReader.readPosition (self : EntityReader) (entityAddr : Nat) :
    Option Nat × Option Nat × Option Nat :=
  (ReadMemory 8 self.hProcess (wrap64 (entityAddr + toU64 self.offsets.posXOffset)),
   ReadMemory 8 self.hProcess (wrap64 (entityAddr + toU64 self.offsets.posYOffset)),
   ReadMemory 8 self.hProcess (wrap64 (entityAddr + toU64 self.offsets.posZOffset)))

/-- The function `ResolveRIP` of scanner.cpp: the displacement is the `int32_t`
read at `instrAddr + dispOffset`; the sum `instrAddr + instrLen + disp` is
taken in `uintptr_t`. -/
def ResolveRIP (process : HANDLE) (instrAddr : Nat) (dispOffset instrLen : Int) : Nat :=
  let r := process.ReadProcessMemory (wrap64 (instrAddr + toU64 dispOffset)) 4
  if !r.ok || r.data.length != 4 then 0
  else
    let disp := toInt32 (leValue r.data)
    wrap64 (instrAddr + toU64 instrLen + toU64 disp)

/-- One region of a simulated address space: its size, what the region query
answers for it (`none` when the query fails, else state and protection) and
what reading the whole region returns. -/
structure Region where
  size : Nat
  query : Option (Nat × Nat)
  read : RpmResult

/-- What one region contributes to a scan when its query succeeds: the matches
of `ScanBuffer` in the bytes read, if the region is committed with a readable
protection and the read succeeds with at least one byte; nothing otherwise. -/
def Region.matches (r : Region) (state protect : Nat) (addr : Nat)
    (pattern : ParsedPattern) : List Nat :=
  if scannable ⟨state, protect, r.size⟩ && (r.read.ok && r.read.data.length > 0) then
    ScanBuffer r.read.data addr pattern []
  else []

/-- Reference definition of the scan as the claim C15 words it: the regions are
taken in ascending order from `addr`; each contributes its matches, and a
region whose query or read fails is skipped without stopping the scan. -/
def PatternScan.reference (pattern : ParsedPattern) : Nat → List Region → List Nat
  | _, [] => []
  | addr, r :: rest =>
    (match r.query with
      | none => []
      | some q => r.matches q.1 q.2 addr pattern) ++
    PatternScan.reference pattern (addr + r.size) rest

/-- The scan up to the first failed query: as `PatternScan.reference`, but the
regions from the first one whose query fails on contribute nothing. -/
def PatternScan.upToFailedQuery (pattern : ParsedPattern) : Nat → List Region → List Nat
  | _, [] => []
  | addr, r :: rest =>
    match r.query with
    | none => []
    | some q =>
      r.matches q.1 q.2 addr pattern ++
        PatternScan.upToFailedQuery pattern (addr + r.size) rest

/-- The primitives of `process` present the address space as the consecutive
regions `regions` starting at `addr`: each region starts below the maximum
application address and ends below `2 ^ 64`, the query at its start answers
as the region says (with its size), reading it whole returns its bytes, and
the last region ends at or above the maximum application address. -/
def HANDLE.laidOut (process : HANDLE) : Nat → List Region → Prop
  | addr, [] => process.lpMaximumApplicationAddress ≤ addr
  | addr, r :: rest =>
    addr < process.lpMaximumApplicationAddress ∧ addr + r.size < 2 ^ 64 ∧
    process.VirtualQueryEx addr = r.query.map (fun q => ⟨q.1, q.2, r.size⟩) ∧
    process.ReadProcessMemory addr r.size = r.read ∧
    HANDLE.laidOut process (addr + r.size) rest

/-- Whether a process presents given regions can be checked by evaluation. -/
def HANDLE.decLaidOut (process : HANDLE) :
    (addr : Nat) → (regions : List Region) → Decidable (process.laidOut addr regions)
  | addr, [] => by
    unfold HANDLE.laidOut
    infer_instance
  | addr, r :: rest => by
    unfold HANDLE.laidOut
    have := HANDLE.decLaidOut process (addr + r.size) rest
    infer_instance

instance (process : HANDLE) (addr : Nat) (regions : List Region) :
    Decidable (process.laidOut addr regions) :=
  HANDLE.decLaidOut process addr regions

/-- The region that starts at `addr` in the consecutive regions from `base`. -/
def regionAt : Nat → List Region → Nat → Option Region
  | _, [], _ => none
  | base, r :: rest, addr => if addr = base then some r else regionAt (base + r.size) rest addr

/-- A simulated process whose address space is the consecutive regions
`regions` from `start` to `stop`. -/
def HANDLE.ofRegions (start stop : Nat) (regions : List Region) : HANDLE where
  lpMinimumApplicationAddress := start
  lpMaximumApplicationAddress := stop
  VirtualQueryEx := fun addr =>
    (regionAt start regions addr).bind (fun r => r.query.map (fun q => ⟨q.1, q.2, r.size⟩))
  ReadProcessMemory := fun addr _ =>
    match regionAt start regions addr with
    | some r => r.read
    | none => ⟨false, []⟩

/-- Two regions of `0x1000` bytes from `0x10000`: the query of the first fails;
the second is committed, read-write and its read returns the bytes 1, 2, 3. -/
def failedQueryRegions : List Region :=
  [⟨0x1000, none, ⟨false, []⟩⟩,
   ⟨0x1000, some (MEM_COMMIT, PAGE_READWRITE), ⟨true, [1, 2, 3]⟩⟩]

/-- Three regions of `0x1000` bytes from `0x10000`: committed read-write with the
bytes 1, 2, 3; committed read-only whose read fails; committed execute-read
with the bytes 2, 2. -/
def failedReadRegions : List Region :=
  [⟨0x1000, some (MEM_COMMIT, PAGE_READWRITE), ⟨true, [1, 2, 3]⟩⟩,
   ⟨0x1000, some (MEM_COMMIT, PAGE_READONLY), ⟨false, []⟩⟩,
   ⟨0x1000, some (MEM_COMMIT, PAGE_EXECUTE_READ), ⟨true, [2, 2]⟩⟩]

/-- The eight class-name signatures `kClassSignatures` of entity.cpp. -/
def kClassSignatures : List String :=
  ["net/minecraft/client/MinecraftClient",
   "net/minecraft/client/Minecraft",
   "net/minecraft/entity/Entity",
   "net/minecraft/entity/player/PlayerEntity",
   "net/minecraft/entity/player/EntityPlayer",
   "net/minecraft/client/world/ClientWorld",
   "net/minecraft/world/entity/LivingEntity",
   "net/minecraft/world/level/Level"]

/-- The bytes of a string of ASCII characters. -/
def asciiBytes (s : String) : List Byte :=
  s.toList.map (fun c => Fin.ofNat c.toNat)

/-- An upper-case hexadecimal digit, as `%X` prints it. -/
def hexUpperDigit (n : Nat) : Char :=
  if n < 10 then Char.ofNat (48 + n) else Char.ofNat (55 + n)

/-- The text `snprintf(hex, sizeof(hex), "%02X ", (unsigned char)*p)` leaves in
`hex`: two upper-case hexadecimal digits and a space. -/
def fmt02X (b : Byte) : List Char :=
  [hexUpperDigit (b.val / 16), hexUpperDigit (b.val % 16), ' ']

/-- The loop `for (const char* p = sig; *p; ++p) patStr += hex;` of
`DoStringScan`: the signature is read up to its first NUL byte. -/
def signaturePatStr : List Byte → List Char
  | [] => []
  | b :: rest => if b = 0 then [] else fmt02X b ++ signaturePatStr rest

/-- The pattern `DoStringScan` builds for a signature:
`ParsePattern(patStr)`. -/
def signaturePattern (sig : List Byte) : Except StoulError ParsedPattern :=
  ParsePattern (String.mk (signaturePatStr sig))

/-- The member function `EntityReader::Start`. A running reader is left as it
is. Otherwise the handle is stored, `running` is set and a worker thread is
attached; `none` stands for `std::terminate`, which the assignment to
`worker` calls when a thread is still attached to it. -/
def EntityReader.Start (self : EntityReader) (process : HANDLE) : Option EntityReader :=
  if self.running then some self
  else if self.workerJoinable then none
  else some { self with hProcess := process, running := true, workerJoinable := true }

/-- The member function `EntityReader::Stop`: `running` is cleared; when a worker
is attached it is joined, which lets it leave its loop and publish the status
`"stopped"` as its last act. -/
def EntityReader.Stop (self : EntityReader) : EntityReader :=
  if self.workerJoinable then
    { self with running := false, workerJoinable := false, status := "stopped" }
  else { self with running := false }

/-- A reader that is running on a process, for the witness of C17. -/
def runningReader : EntityReader :=
  { hProcess := HANDLE.ofImage [(0x1000, [1, 2, 3])], running := true, workerJoinable := true,
    status := "Reading 0 entities (0 valid) @ 0x2010" }

/-! ## esp.h / esp.cpp

In the matrix code and the projection a finite `float` is modelled by an
element of an ordered field `K` (exact arithmetic); the functions of the C
mathematics library are parameters. The literal `0.001f` of `WorldToScreen` is
the binary32 number it denotes. The drawing loop further down rounds the
conversions from `double`, the distance and the box to single precision. -/

/-- The functions of `<cmath>` that esp.cpp calls. -/
structure Libm (K : Type) where
  sinf : K → K
  cosf : K → K
  tanf : K → K
  sqrtf : K → K

/-- The struct `Vec3`. -/
structure Vec3 (K : Type) where
  x : K
  y : K
  z : K

/-- The struct `Vec4`. -/
structure Vec4 (K : Type) where
  x : K
  y : K
  z : K
  w : K

/-- The struct `Mat4`: `m i j` is `m[i][j]`. -/
structure Mat4 (K : Type) where
  m : Fin 4 → Fin 4 → K

/-- The constant `DEG2RAD = 3.14159265f / 180.0f`. -/
def DEG2RAD (K : Type) [Field K] : K := (314159265 / 100000000) / 180

/-- The function `Mat4::PerspectiveFov`. -/
def Mat4.PerspectiveFov {K : Type} [Field K] (lm : Libm K) (fovYRad aspect zNear zFar : K) :
    Mat4 K :=
  let tanHalf := lm.tanf (fovYRad * (1 / 2))
  ⟨![![1 / (aspect * tanHalf), 0, 0, 0],
     ![0, 1 / tanHalf, 0, 0],
     ![0, 0, -(zFar + zNear) / (zFar - zNear), -1],
     ![0, 0, -(2 * zFar * zNear) / (zFar - zNear), 0]]⟩

/-- The function `Mat4::LookAt`. -/
def Mat4.LookAt {K : Type} [LinearOrderedField K] (lm : Libm K) (eye target up : Vec3 K) :
    Mat4 K :=
  -- Forward = normalize(target - eye)
  let fx := target.x - eye.x
  let fy := target.y - eye.y
  let fz := target.z - eye.z
  let flen := lm.sqrtf (fx * fx + fy * fy + fz * fz)
  let flen := if flen < 1 / 100000000 then 1 / 100000000 else flen
  let fx := fx / flen
  let fy := fy / flen
  let fz := fz / flen
  -- Right = normalize(forward x up)
  let rx := fy * up.z - fz * up.y
  let ry := fz * up.x - fx * up.z
  let rz := fx * up.y - fy * up.x
  let rlen := lm.sqrtf (rx * rx + ry * ry + rz * rz)
  let rlen := if rlen < 1 / 100000000 then 1 / 100000000 else rlen
  let rx := rx / rlen
  let ry := ry / rlen
  let rz := rz / rlen
  -- Up = right x forward
  let ux := ry * fz - rz * fy
  let uy := rz * fx - rx * fz
  let uz := rx * fy - ry * fx
  ⟨![![rx, ux, -fx, 0],
     ![ry, uy, -fy, 0],
     ![rz, uz, -fz, 0],
     ![-(rx * eye.x + ry * eye.y + rz * eye.z), -(ux * eye.x + uy * eye.y + uz * eye.z),
       fx * eye.x + fy * eye.y + fz * eye.z, 1]]⟩

/-- The function `Mul` of esp.cpp. -/
def Mul {K : Type} [Field K] (m : Mat4 K) (v : Vec4 K) : Vec4 K :=
  { x := m.m 0 0 * v.x + m.m 1 0 * v.y + m.m 2 0 * v.z + m.m 3 0 * v.w
    y := m.m 0 1 * v.x + m.m 1 1 * v.y + m.m 2 1 * v.z + m.m 3 1 * v.w
    z := m.m 0 2 * v.x + m.m 1 2 * v.y + m.m 2 2 * v.z + m.m 3 2 * v.w
    w := m.m 0 3 * v.x + m.m 1 3 * v.y + m.m 2 3 * v.z + m.m 3 3 * v.w }

/-- The function `Multiply` of esp.cpp: the three loops add the products
`a.m[i][k] * b.m[k][j]` for `k = 0 .. 3` to the zero-initialised `r.m[i][j]`. -/
def Multiply {K : Type} [Field K] (a b : Mat4 K) : Mat4 K :=
  ⟨fun i j => 0 + a.m i 0 * b.m 0 j + a.m i 1 * b.m 1 j + a.m i 2 * b.m 2 j +
    a.m i 3 * b.m 3 j⟩

/-- The struct `EspConfig`. -/
structure EspConfig (K : Type) [Field K] where
  enabled : Bool := true
  boxR : K := 1
  boxG : K := 15 / 100
  boxB : K := 15 / 100
  boxA : K := 1
  thickness : K := 2
  showLabels : Bool := true
  showDistance : Bool := true
  showSnaplines : Bool := false
  camPos : Vec3 K := ⟨0, 70, 0⟩
  camYaw : K := 0
  camPitch : K := 0
  fovY : K := 70
  zNear : K := 5 / 100
  zFar : K := 1000
  maxDrawDist : K := 256

/-- The forward direction `(fx, fy, fz)` that `BuildViewMatrix` derives from yaw
and pitch. -/
def cameraForward {K : Type} [Field K] (lm : Libm K) (cfg : EspConfig K) : Vec3 K :=
  let yawRad := cfg.camYaw * DEG2RAD K
  let pitchRad := cfg.camPitch * DEG2RAD K
  { x := -lm.sinf yawRad * lm.cosf pitchRad
    y := -lm.sinf pitchRad
    z := -lm.cosf yawRad * lm.cosf pitchRad }

/-- The function `BuildViewMatrix` of esp.cpp. -/
def BuildViewMatrix {K : Type} [LinearOrderedField K] (lm : Libm K) (cfg : EspConfig K) :
    Mat4 K :=
  let f := cameraForward lm cfg
  let target : Vec3 K :=
    { x := cfg.camPos.x + f.x, y := cfg.camPos.y + f.y, z := cfg.camPos.z + f.z }
  Mat4.LookAt lm cfg.camPos target ⟨0, 1, 0⟩

/-- The `float` literal `0.001f` of `WorldToScreen`: the binary32 number nearest
to 0.001, which is `8589935 / 2 ^ 33`, a little above 0.001. -/
def FLT_0_001 (K : Type) [Field K] : K := 8589935 / 8589934592

/-- The function `WorldToScreen`: `none` when it returns false (the outputs are
not written), else the pair `(outX, outY)`. -/
def WorldToScreen {K : Type} [LinearOrderedField K] (world : Vec3 K) (viewProj : Mat4 K)
    (screenW screenH : K) : Option (K × K) :=
  let clip := Mul viewProj ⟨world.x, world.y, world.z, 1⟩
  -- Behind camera
  if clip.w ≤ FLT_0_001 K then none
  else
    let ndcX := clip.x / clip.w
    let ndcY := clip.y / clip.w
    some ((ndcX * (1 / 2) + 1 / 2) * screenW, (-ndcY * (1 / 2) + 1 / 2) * screenH)

/-- The view-projection matrix `viewProj` that `DrawEntityESP` builds and passes
to `WorldToScreen` (its lines `aspect = ...` to `viewProj = Multiply(proj, view)`). -/
def DrawEntityESP.viewProj {K : Type} [LinearOrderedField K] (lm : Libm K) (cfg : EspConfig K)
    (screenW screenH : K) : Mat4 K :=
  let aspect := screenW / screenH
  let view := BuildViewMatrix lm cfg
  let proj := Mat4.PerspectiveFov lm (cfg.fovY * DEG2RAD K) aspect cfg.zNear cfg.zFar
  Multiply proj view

/-- A reader for the boundary case of the compressed decoding: shift 32, heap
base 0, memory holding the references `0xFFFFFFFF`, 1 and 0 from `0x500`. -/
def wideShiftReader : EntityReader :=
  { oops := { shift := 32 },
    hProcess := HANDLE.ofImage [(0x500, [0xFF, 0xFF, 0xFF, 0xFF, 1, 0, 0, 0, 0, 0, 0, 0])] }

/-- A heap for `arrayReader` with one slot whose object (at `0x100`) is only
partly readable: of the position only `posX` (100.5, at `0x198`) can be read;
the bounding-box reference at `0x1B0` is `0x80` (box object at `0x400`), and of
the box fields `bbMinY` (at `0x418`) cannot be read while `bbMinX` is 1.0,
`bbMinZ` 2.0, `bbMaxX` 3.0, `bbMaxY` 4.0 and `bbMaxZ` 5.0. -/
def partialHeap : List (Nat × List Byte) :=
  [(0x90, [0x20, 0, 0, 0]),
   (0x198, [0, 0, 0, 0, 0, 0x20, 0x59, 0x40]),
   (0x1B0, [0x80, 0, 0, 0]),
   (0x410, [0, 0, 0, 0, 0, 0, 0xF0, 0x3F]),
   (0x420, [0, 0, 0, 0, 0, 0, 0, 0x40, 0, 0, 0, 0, 0, 0, 0x08, 0x40,
            0, 0, 0, 0, 0, 0, 0x10, 0x40, 0, 0, 0, 0, 0, 0, 0x14, 0x40])]

/-- A model of the primitives whose region sizes are positive and whose scan
wraps around: the query at `0x10000` reports a free region of 1 byte, the query
at `0x10001` a free region of `2 ^ 64 - 1` bytes (the largest `SIZE_T`), every
other query fails. -/
def HANDLE.wrapping : HANDLE where
  lpMinimumApplicationAddress := 0x10000
  lpMaximumApplicationAddress := 0x7FFFFFFEFFFF
  VirtualQueryEx := fun addr =>
    if addr = 0x10000 then some ⟨0x10000, 0x01, 1⟩
    else if addr = 0x10001 then some ⟨0x10000, 0x01, 2 ^ 64 - 1⟩
    else none
  ReadProcessMemory := fun _ _ => ⟨false, []⟩

/-- The loop `for (const char* sig : kClassSignatures)` of `DoStringScan` over the
signatures still to scan, with the hits collected so far. `running k` is the
value that the `k`-th evaluation of `running.load()` returns (the flag is
cleared by another thread); `fuel` bounds each region scan. `none` means that a
region scan did not finish within `fuel`, `.error` that `ParsePattern` raised. -/
def EntityReader.DoStringScan.loop (self : EntityReader) (fuel : Nat) (running : Nat → Bool) :
    List String → Nat → List StringFind → Option (Except StoulError (List StringFind))
  | [], _, results => some (.ok results)
  | sig :: rest, k, results =>
    match signaturePattern (asciiBytes sig) with
    | .error e => some (.error e)
    | .ok pat =>
      match PatternScan fuel self.hProcess pat with
      | none => none
      | some hits =>
        let results := results ++ hits.map (fun h => ({ address := h, text := sig } : StringFind))
        if !running k then some (.ok results)
        else EntityReader.DoStringScan.loop self fuel running rest (k + 1) results

/-- The member function `EntityReader::DoStringScan`: the hits of all signatures
are published together with the status `"String scan done (n hits)"`. The
console output is not part of the model. -/
def EntityReader.DoStringScan (self : EntityReader) (fuel : Nat) (running : Nat → Bool) :
    Option (Except StoulError EntityReader) :=
  match EntityReader.DoStringScan.loop self fuel running kClassSignatures 0 [] with
  | none => none
  | some (.error e) => some (.error e)
  | some (.ok results) =>
    some (.ok { self with
      stringFinds := results
      status := "String scan done (" ++ toString results.length ++ " hits)" })

/-- The calls one iteration of the worker loop makes. -/
inductive WorkerCall where
  | DoStringScan
  | DoEntityRead
  | Sleep (ms : Nat)
deriving DecidableEq, Repr

/-- How the body of the worker loop ends: it reaches its end, an exception
leaves it (raised by `ParsePattern` or by the standard library), or a region
scan does not finish within the fuel. -/
inductive Completion where
  | returned
  | raisedStoul (e : StoulError)
  | raisedStd (e : StdError)
  | unfinished
deriving DecidableEq, Repr

/-- Result of one iteration of the worker loop: the reader afterwards, the
calls made in order, the outcome of the read cycle (`none` when `DoEntityRead`
was not called, else what the call gave), and how the body ended. -/
structure IterationResult where
  reader : EntityReader
  calls : List WorkerCall
  readCycle : Option (Except StdError CycleResult)
  completion : Completion

/-- The second half of the body of the worker loop: the test
`entityReadEnabled.load() && offsets.chainBase != 0` with the read cycle, and
`Sleep(static_cast<DWORD>(readIntervalMs))`. `calls` are the calls made before. -/
def EntityReader.WorkerLoop.readAndSleep (self : EntityReader) (calls : List WorkerCall) :
    IterationResult :=
  let ms := (self.readIntervalMs % 2 ^ 32).toNat
  if self.entityReadEnabled && self.offsets.chainBase != 0 then
    match self.DoEntityRead with
    | .error e => ⟨self, calls ++ [.DoEntityRead], some (.error e), .raisedStd e⟩
    | .ok r => ⟨r.reader, calls ++ [.DoEntityRead, .Sleep ms], some (.ok r), .returned⟩
  else ⟨self, calls ++ [.Sleep ms], none, .returned⟩

/-- The body of the loop `while (running.load())` of `EntityReader::WorkerLoop`,
one iteration: the one-shot string scan when `stringScanRequested.exchange(false)`
yields true, then the continuous entity read, then the sleep. -/
def EntityReader.WorkerLoop.iteration (self : EntityReader) (fuel : Nat) (running : Nat → Bool) :
    IterationResult :=
  let requested := self.stringScanRequested
  let s0 : EntityReader := { self with stringScanRequested := false }
  if requested then
    let s1 : EntityReader := { s0 with status := "Scanning for JVM class strings..." }
    match s1.DoStringScan fuel running with
    | none => ⟨s1, [.DoStringScan], none, .unfinished⟩
    | some (.error e) => ⟨s1, [.DoStringScan], none, .raisedStoul e⟩
    | some (.ok s2) => EntityReader.WorkerLoop.readAndSleep s2 [.DoStringScan]
  else EntityReader.WorkerLoop.readAndSleep s0 []

/-- The reader of `arrayReader` over `sampleHeap` with the continuous entity
read switched on. -/
def enabledReader : EntityReader :=
  { arrayReader [3, 0, 0, 0] 256 sampleHeap with entityReadEnabled := true }

/-- A reader with entity reading enabled, chain base `0x1000` and a pending
string-scan request, on the process `HANDLE.wrapping`, whose region scan does
not terminate. -/
def blockedReader : EntityReader :=
  { hProcess := HANDLE.wrapping, entityReadEnabled := true, stringScanRequested := true,
    offsets := { chainBase := 0x1000 } }

/-! ## esp.cpp: the drawing loop of `DrawEntityESP`

The draw list of ImGui is modelled by the list of the primitives added to
it, in order.

The conversions from `double`, the distance and the box of an entity are
computed in single precision, as an IEEE-754 implementation does: every
operation rounds its result to the nearest binary32 number (`fl32`, ties to
even, one rounding per operation, overflow to an infinity), and a `float` of
the loop is a number, an infinity or a NaN (`F32`). The projection of the
corners keeps the exact arithmetic of `WorldToScreen` on numbers and follows
the IEEE rules on infinities and NaNs. The two zeros are one number. -/

/-- The comparison `a != b` of two `double`s: true when either is a NaN, else
whether the values differ (the two zeros are equal). -/
def Double.ne (a b : Double) : Bool :=
  a.isNaN || b.isNaN || decide (a.key ≠ b.key)

/-- The constant `FLT_MAX` of `<cfloat>`. -/
def FLT_MAX (K : Type) [Field K] : K := 340282346638528859811704183484516925440

/-- The `float` literal `0.3f`: the binary32 number nearest to 0.3, which is
`10066330 / 2 ^ 25`. -/
def FLT_0_3 (K : Type) [Field K] : K := 10066330 / 33554432

/-- The `float` literal `0.9f`: the binary32 number nearest to 0.9, which is
`15099494 / 2 ^ 24`. -/
def FLT_0_9 (K : Type) [Field K] : K := 15099494 / 16777216

/-- The integer nearest to `y`, the even one of the two when `y` lies half-way
between two integers. -/
def roundHalfEven {K : Type} [LinearOrderedField K] [FloorRing K] (y : K) : ℤ :=
  if y - ⌊y⌋ < 1 / 2 then ⌊y⌋
  else if 1 / 2 < y - ⌊y⌋ then ⌊y⌋ + 1
  else if ⌊y⌋ % 2 = 0 then ⌊y⌋ else ⌊y⌋ + 1

/-- The rounding of a number to single precision (IEEE-754 binary32, round to
nearest, ties to even), before the test for overflow: for `x` in the binade
`2 ^ e <= |x| < 2 ^ (e + 1)` the nearest multiple of `2 ^ (e - 23)`, where the
exponent `e` is not taken below -126 (the subnormal numbers are the multiples
of `2 ^ (-149)`). -/
def fl32 {K : Type} [LinearOrderedField K] [FloorRing K] (x : K) : K :=
  if x = 0 then 0
  else (roundHalfEven (x / 2 ^ (max (Int.log 2 |x|) (-126) - 23)) : K) *
    2 ^ (max (Int.log 2 |x|) (-126) - 23)

/-- A `float`: a number, `+inf` or `-inf`, or a NaN. -/
inductive F32 (K : Type) where
  | fin (x : K)
  | inf (negative : Bool)
  | nan
deriving DecidableEq, Repr

/-- A numeral denotes the finite `float` of that value. -/
instance {K : Type} {n : Nat} [OfNat K n] : OfNat (F32 K) n := ⟨.fin (OfNat.ofNat n)⟩

/-- The negation `-a`. -/
def F32.neg {K : Type} [Neg K] : F32 K → F32 K
  | .fin x => .fin (-x)
  | .inf s => .inf (!s)
  | .nan => .nan

/-- The exact sum `a + b`: `inf + (-inf)` and every sum with a NaN is a NaN. -/
def F32.add {K : Type} [Add K] : F32 K → F32 K → F32 K
  | .fin x, .fin y => .fin (x + y)
  | .fin _, .inf s => .inf s
  | .inf s, .fin _ => .inf s
  | .inf s, .inf t => if s = t then .inf s else .nan
  | .nan, _ => .nan
  | _, .nan => .nan

/-- The exact difference `a - b`. -/
def F32.sub {K : Type} [Add K] [Neg K] (a b : F32 K) : F32 K :=
  F32.add a (F32.neg b)

/-- The exact product `a * b`: `0 * inf` and every product with a NaN is a
NaN. -/
def F32.mul {K : Type} [LinearOrderedField K] : F32 K → F32 K → F32 K
  | .fin x, .fin y => .fin (x * y)
  | .fin x, .inf s => if x = 0 then .nan else .inf (xor s (decide (x < 0)))
  | .inf s, .fin y => if y = 0 then .nan else .inf (xor s (decide (y < 0)))
  | .inf s, .inf t => .inf (xor s t)
  | .nan, _ => .nan
  | _, .nan => .nan

/-- The exact quotient `a / b`: `0 / 0`, `inf / inf` and every quotient with a
NaN is a NaN; a zero divisor counts as `+0`. -/
def F32.div {K : Type} [LinearOrderedField K] : F32 K → F32 K → F32 K
  | .fin x, .fin y =>
    if y = 0 then (if x = 0 then .nan else .inf (decide (x < 0))) else .fin (x / y)
  | .fin _, .inf _ => .fin 0
  | .inf s, .fin y => .inf (xor s (decide (y < 0)))
  | .inf _, .inf _ => .nan
  | .nan, _ => .nan
  | _, .nan => .nan

/-- The comparison `a < b`; false when either is a NaN. -/
def F32.lt {K : Type} [LinearOrderedField K] : F32 K → F32 K → Bool
  | .fin x, .fin y => decide (x < y)
  | .fin _, .inf s => !s
  | .inf s, .fin _ => s
  | .inf s, .inf t => s && !t
  | .nan, _ => false
  | _, .nan => false

/-- The comparison `a <= b`; false when either is a NaN. -/
def F32.le {K : Type} [LinearOrderedField K] : F32 K → F32 K → Bool
  | .fin x, .fin y => decide (x ≤ y)
  | .fin _, .inf s => !s
  | .inf s, .fin _ => s
  | .inf s, .inf t => s || !t
  | .nan, _ => false
  | _, .nan => false

/-- The rounding of an exact result to a `float`: the nearest binary32 number,
an infinity when that lies beyond `FLT_MAX`. -/
def F32.rnd {K : Type} [LinearOrderedField K] [FloorRing K] : F32 K → F32 K
  | .fin x =>
    if FLT_MAX K < fl32 x then .inf false
    else if fl32 x < -FLT_MAX K then .inf true
    else .fin (fl32 x)
  | .inf s => .inf s
  | .nan => .nan

/-- The function `sqrtf` on a `float`: the square root `lm.sqrtf` of the number,
rounded to single precision; a NaN for a negative number, for `-inf` and for a
NaN. -/
def F32.sqrtf {K : Type} [LinearOrderedField K] [FloorRing K] (lm : Libm K) : F32 K → F32 K
  | .fin x => if x < 0 then .nan else F32.rnd (.fin (lm.sqrtf x))
  | .inf s => if s then .nan else .inf false
  | .nan => .nan

/-- The conversion `static_cast<float>(x)` of a `double`: a NaN for a NaN, the
infinity of the same sign for an infinity, else the number the `double`
stands for, rounded to single precision. -/
def Double.toFloat {K : Type} [LinearOrderedField K] [FloorRing K] (x : Double) : F32 K :=
  if x.isNaN then .nan
  else if x.isFinite then F32.rnd (.fin ((Double.value x : ℚ) : K))
  else .inf (decide (2 ^ 63 ≤ x % 2 ^ 64))

/-- The struct `ImVec2` of ImGui. -/
structure ImVec2 (K : Type) where
  x : K
  y : K
deriving DecidableEq, Repr

/-- The colour `boxColor`, as the four arguments of `IM_COL32` before their
conversion to `int` (the packing into an `ImU32` is not modelled). -/
structure BoxColor (K : Type) where
  r : K
  g : K
  b : K
  a : K
deriving DecidableEq, Repr

/-- The text of a label, by the `snprintf` format that produces it:
`"#%d [%.0fm]"`, `"#%d"` or `"%.0fm"`, with its arguments. -/
inductive Label (K : Type) where
  | indexAndDistance (index : Int) (dist : F32 K)
  | index (index : Int)
  | distance (dist : F32 K)
deriving DecidableEq, Repr

/-- The primitives `DrawEntityESP` adds to the draw list, with the arguments of
the calls `AddRect`, `AddLine` and `AddText`. -/
inductive DrawCmd (K : Type) where
  | AddRect (pMin pMax : ImVec2 K) (col : BoxColor K) (rounding : K) (flags : Nat)
      (thickness : K)
  | AddLine (p1 p2 : ImVec2 K) (col : BoxColor K) (thickness : K)
  | AddText (pos : ImVec2 K) (col : BoxColor K) (text : Label K)
deriving DecidableEq, Repr

/-- The six local variables `minX, minY, minZ, maxX, maxY, maxZ` of the loop
body of `DrawEntityESP`. -/
structure Aabb (K : Type) where
  minX : K
  minY : K
  minZ : K
  maxX : K
  maxY : K
  maxZ : K
deriving DecidableEq, Repr

/-- A lower screen bound `sMinX` or `sMinY` during the corner loop: a number or
`-inf`. The bound starts at `FLT_MAX` and takes a coordinate only when that is
below it, so it is never `+inf` or a NaN. -/
inductive LowerBound (K : Type) where
  | fin (x : K)
  | negInf
deriving DecidableEq, Repr

/-- An upper screen bound `sMaxX` or `sMaxY` during the corner loop: a number or
`+inf`. The bound starts at `-FLT_MAX` and takes a coordinate only when that is
above it, so it is never `-inf` or a NaN. -/
inductive UpperBound (K : Type) where
  | fin (x : K)
  | posInf
deriving DecidableEq, Repr

/-- The local variables `sMinX, sMinY, sMaxX, sMaxY, projected` of the loop body
of `DrawEntityESP` during the corner loop. -/
structure ProjectedBounds (K : Type) where
  sMinX : LowerBound K
  sMinY : LowerBound K
  sMaxX : UpperBound K
  sMaxY : UpperBound K
  projected : Nat
deriving DecidableEq, Repr

/-- The local variables `sMinX, sMinY, sMaxX, sMaxY, projected` of the loop body
of `DrawEntityESP` after the clamp to the screen bounds. -/
structure ScreenBounds (K : Type) where
  sMinX : K
  sMinY : K
  sMaxX : K
  sMaxY : K
  projected : Nat
deriving DecidableEq, Repr

/-- The colour `boxColor` of `DrawEntityESP`. -/
def DrawEntityESP.boxColor {K : Type} [Field K] (cfg : EspConfig K) : BoxColor K :=
  ⟨cfg.boxR * 255, cfg.boxG * 255, cfg.boxB * 255, cfg.boxA * 255⟩

/-- The distance `dist` of the distance check of `DrawEntityESP`, in single
precision: the conversions, the three differences, the three products, the
two sums and the square root each round their result. -/
def DrawEntityESP.dist {K : Type} [LinearOrderedField K] [FloorRing K] (lm : Libm K)
    (cfg : EspConfig K) (ent : EntityData) : F32 K :=
  let dx := F32.rnd (F32.sub (Double.toFloat ent.posX) (.fin cfg.camPos.x))
  let dy := F32.rnd (F32.sub (Double.toFloat ent.posY) (.fin cfg.camPos.y))
  let dz := F32.rnd (F32.sub (Double.toFloat ent.posZ) (.fin cfg.camPos.z))
  F32.sqrtf lm
    (F32.rnd (F32.add
      (F32.rnd (F32.add (F32.rnd (F32.mul dx dx)) (F32.rnd (F32.mul dy dy))))
      (F32.rnd (F32.mul dz dz))))

/-- The flag `hasBB` of `DrawEntityESP`. -/
def DrawEntityESP.hasBB (ent : EntityData) : Bool :=
  Double.ne ent.bbMaxX ent.bbMinX || Double.ne ent.bbMaxY ent.bbMinY ||
    Double.ne ent.bbMaxZ ent.bbMinZ

/-- The box whose corners `DrawEntityESP` projects: the bounding box of the
entity when `hasBB`, else the box of `0.6 x 1.8 x 0.6` at the position, each
computed in single precision. -/
def DrawEntityESP.box {K : Type} [LinearOrderedField K] [FloorRing K] (ent : EntityData) :
    Aabb (F32 K) :=
  if DrawEntityESP.hasBB ent then
    { minX := Double.toFloat ent.bbMinX
      minY := Double.toFloat ent.bbMinY
      minZ := Double.toFloat ent.bbMinZ
      maxX := Double.toFloat ent.bbMaxX
      maxY := Double.toFloat ent.bbMaxY
      maxZ := Double.toFloat ent.bbMaxZ }
  else
    -- Default: 0.6 x 1.8 x 0.6 entity hitbox centered at pos
    let hw : F32 K := .fin (FLT_0_3 K)
    let hh : F32 K := .fin (FLT_0_9 K)
    let px : F32 K := Double.toFloat ent.posX
    let py : F32 K := Double.toFloat ent.posY
    let pz : F32 K := Double.toFloat ent.posZ
    { minX := F32.rnd (F32.sub px hw), maxX := F32.rnd (F32.add px hw)
      minY := py, maxY := F32.rnd (F32.add py (F32.rnd (F32.mul hh (.fin 2))))
      minZ := F32.rnd (F32.sub pz hw), maxZ := F32.rnd (F32.add pz hw) }

/-- The array `corners[8]` of `DrawEntityESP`. -/
def DrawEntityESP.corners {K : Type} (b : Aabb K) : List (Vec3 K) :=
  [⟨b.minX, b.minY, b.minZ⟩, ⟨b.maxX, b.minY, b.minZ⟩,
   ⟨b.minX, b.maxY, b.minZ⟩, ⟨b.maxX, b.maxY, b.minZ⟩,
   ⟨b.minX, b.minY, b.maxZ⟩, ⟨b.maxX, b.minY, b.maxZ⟩,
   ⟨b.minX, b.maxY, b.maxZ⟩, ⟨b.maxX, b.maxY, b.maxZ⟩]

/-- The function `Mul` of esp.cpp for a vector whose coordinates may be infinite
or NaN. -/
def F32.Mul {K : Type} [LinearOrderedField K] (m : Mat4 K) (v : Vec4 (F32 K)) : Vec4 (F32 K) :=
  { x := F32.add (F32.add (F32.add (F32.mul (.fin (m.m 0 0)) v.x)
      (F32.mul (.fin (m.m 1 0)) v.y)) (F32.mul (.fin (m.m 2 0)) v.z))
      (F32.mul (.fin (m.m 3 0)) v.w)
    y := F32.add (F32.add (F32.add (F32.mul (.fin (m.m 0 1)) v.x)
      (F32.mul (.fin (m.m 1 1)) v.y)) (F32.mul (.fin (m.m 2 1)) v.z))
      (F32.mul (.fin (m.m 3 1)) v.w)
    z := F32.add (F32.add (F32.add (F32.mul (.fin (m.m 0 2)) v.x)
      (F32.mul (.fin (m.m 1 2)) v.y)) (F32.mul (.fin (m.m 2 2)) v.z))
      (F32.mul (.fin (m.m 3 2)) v.w)
    w := F32.add (F32.add (F32.add (F32.mul (.fin (m.m 0 3)) v.x)
      (F32.mul (.fin (m.m 1 3)) v.y)) (F32.mul (.fin (m.m 2 3)) v.z))
      (F32.mul (.fin (m.m 3 3)) v.w) }

/-- The function `WorldToScreen` for a point whose coordinates may be infinite
or NaN: `none` when it returns false, else the pair `(outX, outY)`. A NaN
`clip.w` passes the test `clip.w <= 0.001f`. -/
def F32.WorldToScreen {K : Type} [LinearOrderedField K] (world : Vec3 (F32 K)) (viewProj : Mat4 K)
    (screenW screenH : K) : Option (F32 K × F32 K) :=
  let clip := F32.Mul viewProj ⟨world.x, world.y, world.z, .fin 1⟩
  -- Behind camera
  if F32.le clip.w (.fin (FLT_0_001 K)) then none
  else
    let ndcX := F32.div clip.x clip.w
    let ndcY := F32.div clip.y clip.w
    some (F32.mul (F32.add (F32.mul ndcX (.fin (1 / 2))) (.fin (1 / 2))) (.fin screenW),
      F32.mul (F32.add (F32.mul (F32.neg ndcY) (.fin (1 / 2))) (.fin (1 / 2))) (.fin screenH))

/-- The update `if (v < lo) lo = v;` of a lower bound: `-inf` is below every
number, `+inf` and a NaN are below nothing. -/
def F32.updateMin {K : Type} [LinearOrderedField K] : F32 K → LowerBound K → LowerBound K
  | .fin x, .fin m => if x < m then .fin x else .fin m
  | .fin _, .negInf => .negInf
  | .inf true, _ => .negInf
  | .inf false, lo => lo
  | .nan, lo => lo

/-- The update `if (v > hi) hi = v;` of an upper bound: `+inf` is above every
number, `-inf` and a NaN are above nothing. -/
def F32.updateMax {K : Type} [LinearOrderedField K] : F32 K → UpperBound K → UpperBound K
  | .fin x, .fin m => if x > m then .fin x else .fin m
  | .fin _, .posInf => .posInf
  | .inf false, _ => .posInf
  | .inf true, hi => hi
  | .nan, hi => hi

/-- The body of the loop `for (auto& c : corners)` of `DrawEntityESP`. -/
def DrawEntityESP.cornerStep {K : Type} [LinearOrderedField K] (viewProj : Mat4 K)
    (screenX screenY screenW screenH : K) (s : ProjectedBounds K) (c : Vec3 (F32 K)) :
    ProjectedBounds K :=
  match F32.WorldToScreen c viewProj screenW screenH with
  | none => s
  | some (sx, sy) =>
    -- Offset to overlay screen coords
    let sx := F32.add sx (.fin screenX)
    let sy := F32.add sy (.fin screenY)
    { sMinX := F32.updateMin sx s.sMinX
      sMinY := F32.updateMin sy s.sMinY
      sMaxX := F32.updateMax sx s.sMaxX
      sMaxY := F32.updateMax sy s.sMaxY
      projected := s.projected + 1 }

/-- The loop `for (auto& c : corners)` of `DrawEntityESP`, from the initial values
`FLT_MAX`, `-FLT_MAX` and `projected = 0`. -/
def DrawEntityESP.project {K : Type} [LinearOrderedField K] (viewProj : Mat4 K)
    (screenX screenY screenW screenH : K) (corners : List (Vec3 (F32 K))) : ProjectedBounds K :=
  corners.foldl (DrawEntityESP.cornerStep viewProj screenX screenY screenW screenH)
    ⟨.fin (FLT_MAX K), .fin (FLT_MAX K), .fin (-FLT_MAX K), .fin (-FLT_MAX K), 0⟩

/-- The step `Clamp to screen bounds` of `DrawEntityESP`: a bound of `-inf` or
`+inf` is beyond the edge it is compared with and takes its value. -/
def DrawEntityESP.clamp {K : Type} [LinearOrderedField K] (screenX screenY screenW screenH : K)
    (s : ProjectedBounds K) : ScreenBounds K :=
  let clampL := screenX
  let clampT := screenY
  let clampR := screenX + screenW
  let clampB := screenY + screenH
  { sMinX :=
      match s.sMinX with
      | .fin m => if m < clampL then clampL else m
      | .negInf => clampL
    sMinY :=
      match s.sMinY with
      | .fin m => if m < clampT then clampT else m
      | .negInf => clampT
    sMaxX :=
      match s.sMaxX with
      | .fin m => if m > clampR then clampR else m
      | .posInf => clampR
    sMaxY :=
      match s.sMaxY with
      | .fin m => if m > clampB then clampB else m
      | .posInf => clampB
    projected := s.projected }

/-- The rest of the loop body of `DrawEntityESP` once the corners are projected,
from `if (projected == 0) continue;` on: the clamp, the size test and the
primitives added for the entity (none where the source says `continue`). `s`
holds the screen bounds of the projected corners, `dist` the distance of the
entity. -/
def DrawEntityESP.emit {K : Type} [LinearOrderedField K] (cfg : EspConfig K)
    (screenX screenY screenW screenH : K) (ent : EntityData) (dist : F32 K)
    (s : ProjectedBounds K) : List (DrawCmd K) :=
  -- Need at least 1 corner visible
  if s.projected = 0 then []
  else
    let c := DrawEntityESP.clamp screenX screenY screenW screenH s
    let bw := c.sMaxX - c.sMinX
    let bh := c.sMaxY - c.sMinY
    if bw < 2 ∨ bh < 2 then []
    else
      let boxColor := DrawEntityESP.boxColor cfg
      let midX := screenX + screenW * (1 / 2)
      let midY := screenY + screenH
      [DrawCmd.AddRect ⟨c.sMinX, c.sMinY⟩ ⟨c.sMaxX, c.sMaxY⟩ boxColor 0 0 cfg.thickness] ++
      (if cfg.showSnaplines then
        [DrawCmd.AddLine ⟨midX, midY⟩ ⟨(c.sMinX + c.sMaxX) * (1 / 2), c.sMaxY⟩ boxColor 1]
       else []) ++
      (if cfg.showLabels || cfg.showDistance then
        [DrawCmd.AddText ⟨c.sMinX, c.sMinY - 14⟩ boxColor
          (if cfg.showLabels && cfg.showDistance then Label.indexAndDistance ent.index dist
           else if cfg.showLabels then Label.index ent.index
           else Label.distance dist)]
       else [])

/-- The body of the loop `for (auto& ent : entities)` of `DrawEntityESP`: the
primitives added for one entity (none where the source says `continue`). The
test `dist > cfg.maxDrawDist` is false for a NaN distance. -/
def DrawEntityESP.entity {K : Type} [LinearOrderedField K] [FloorRing K] (lm : Libm K)
    (cfg : EspConfig K) (screenX screenY screenW screenH : K) (viewProj : Mat4 K)
    (ent : EntityData) : List (DrawCmd K) :=
  if ent.valid = false then []
  else
    -- Distance check
    let dist := DrawEntityESP.dist lm cfg ent
    if F32.lt (.fin cfg.maxDrawDist) dist then []
    else
      DrawEntityESP.emit cfg screenX screenY screenW screenH ent dist
        (DrawEntityESP.project viewProj screenX screenY screenW screenH
          (DrawEntityESP.corners (DrawEntityESP.box ent)))

/-- The function `DrawEntityESP` of esp.cpp: the primitives added to the draw
list, in order. -/
def DrawEntityESP {K : Type} [LinearOrderedField K] [FloorRing K] (lm : Libm K)
    (entities : List EntityData) (cfg : EspConfig K) (screenX screenY screenW screenH : K) :
    List (DrawCmd K) :=
  if cfg.enabled = false ∨ screenW ≤ 0 ∨ screenH ≤ 0 then []
  else
    entities.flatMap
      (DrawEntityESP.entity lm cfg screenX screenY screenW screenH
        (DrawEntityESP.viewProj lm cfg screenW screenH))

/-- A valid entity at the origin whose bounding box reaches from
`(-1000, -1000, -2)` to `(1000, 1000, -1)`: seen from the origin along `-z` it
covers the whole view. -/
def wallEntity : EntityData :=
  { index := 5, valid := true,
    bbMinX := dbl_neg1000, bbMinY := dbl_neg1000, bbMinZ := 0xC000000000000000,
    bbMaxX := dbl_1000, bbMaxY := dbl_1000, bbMaxZ := 0xBFF0000000000000 }

/-- The entity `wallEntity` moved to the position `(0, 0, -256.00001)`: the bits
`0xC07000000A7C5AC4` are the `double` nearest to -256.00001, which is
`-1125899950823089 / 2 ^ 42`. -/
def nearEntity : EntityData :=
  { wallEntity with posZ := 0xC07000000A7C5AC4 }

/-- A valid entity at the position `(20000000, 0, 0)` with the all-zero default
bounding box: the bits `0x417312D000000000` are the `double` 20000000. -/
def farEastEntity : EntityData :=
  { index := 2, valid := true, posX := 0x417312D000000000 }

/-- The box of finite `float`s with the coordinates of `b`. -/
def Aabb.fin {K : Type} (b : Aabb K) : Aabb (F32 K) :=
  ⟨.fin b.minX, .fin b.minY, .fin b.minZ, .fin b.maxX, .fin b.maxY, .fin b.maxZ⟩

/-- The entity's own bounding box, as the claim C26 words it: the six box
fields of the record, as the numbers they stand for. -/
def ownBox {K : Type} [DivisionRing K] (ent : EntityData) : Aabb K :=
  ⟨((Double.value ent.bbMinX : ℚ) : K), ((Double.value ent.bbMinY : ℚ) : K),
   ((Double.value ent.bbMinZ : ℚ) : K), ((Double.value ent.bbMaxX : ℚ) : K),
   ((Double.value ent.bbMaxY : ℚ) : K), ((Double.value ent.bbMaxZ : ℚ) : K)⟩

/-- The synthesized default box, as the claim C26 words it: half-width 0.3
around the position in X and Z, and height 1.8 from the position upwards. -/
def defaultBox {K : Type} [DivisionRing K] (ent : EntityData) : Aabb K :=
  ⟨((Double.value ent.posX : ℚ) : K) - 3 / 10, ((Double.value ent.posY : ℚ) : K),
   ((Double.value ent.posZ : ℚ) : K) - 3 / 10, ((Double.value ent.posX : ℚ) : K) + 3 / 10,
   ((Double.value ent.posY : ℚ) : K) + 18 / 10, ((Double.value ent.posZ : ℚ) : K) + 3 / 10⟩

/-- The inner loop answers `true` exactly when every exact position it visits
agrees with the buffer. -/
theorem matchLoop_eq_true_iff (buf : List Byte) (pat : ParsedPattern) (i : Nat) :
    ∀ (todo j : Nat), matchLoop buf pat i todo j = true ↔
      ∀ k, k < todo → pat.mask.getD (j + k) false = true →
        buf.getD (i + (j + k)) 0 = pat.bytes.getD (j + k) 0 := by
  intro todo
  induction todo with
  | zero => intro j; simp [matchLoop]
  | succ n ih =>
    intro j
    rw [matchLoop]
    by_cases hc : (pat.mask.getD j false && buf.getD (i + j) 0 != pat.bytes.getD j 0) = true
    · rw [if_pos hc]
      simp only [Bool.and_eq_true, bne_iff_ne, ne_eq] at hc
      constructor
      · intro h; cases h
      · intro h
        exact absurd (h 0 (Nat.succ_pos n) (by simpa using hc.1)) (by simpa using hc.2)
    · rw [if_neg hc, ih (j + 1)]
      simp only [Bool.and_eq_true, bne_iff_ne, ne_eq, not_and, not_not] at hc
      constructor
      · intro h k hk hmask
        cases k with
        | zero => simpa using hc (by simpa using hmask)
        | succ k =>
          have := h k (by omega) (by rwa [show j + 1 + k = j + (k + 1) by omega])
          rwa [show j + 1 + k = j + (k + 1) by omega] at this
      · intro h k hk hmask
        have := h (k + 1) (by omega) (by rwa [show j + (k + 1) = j + 1 + k by omega])
        rwa [show j + (k + 1) = j + 1 + k by omega] at this

/-- Closed form of the outer loop: it appends, in increasing order, the address
of every visited start offset at which the inner loop matched. -/
theorem scanLoop_eq (buf : List Byte) (baseAddr : Nat) (pat : ParsedPattern) :
    ∀ (todo i : Nat) (results : List Nat),
      scanLoop buf baseAddr pat todo i results =
        results ++ ((List.range' i todo).filter
          (fun k => matchLoop buf pat k pat.bytes.length 0)).map
            (fun k => wrap64 (baseAddr + k)) := by
  intro todo
  induction todo with
  | zero => intro i results; simp [scanLoop]
  | succ n ih =>
    intro i results
    rw [scanLoop, List.range'_succ]
    simp only [ih]
    by_cases hm : matchLoop buf pat i pat.bytes.length 0 = true
    · simp [hm, List.filter_cons]
    · simp [hm, List.filter_cons]

/-- Closed form of `ScanBuffer`. -/
theorem ScanBuffer_eq (buf : List Byte) (baseAddr : Nat) (pat : ParsedPattern)
    (results : List Nat) :
    ScanBuffer buf baseAddr pat results =
      if buf.length < pat.bytes.length then results
      else results ++ ((List.range' 0 (buf.length - pat.bytes.length + 1)).filter
        (fun k => matchLoop buf pat k pat.bytes.length 0)).map
          (fun k => wrap64 (baseAddr + k)) := by
  unfold ScanBuffer
  simp only [scanLoop_eq]

/-- A start offset whose window fits and whose exact positions agree with the
buffer is reported. -/
theorem ScanBuffer_mem_of_match (B : List Byte) (a : Nat) (P : ParsedPattern)
    (results : List Nat) (k : Nat) (hk : k + P.bytes.length ≤ B.length)
    (hmatch : ∀ j, j < P.bytes.length → P.mask.getD j false = true →
      B.getD (k + j) 0 = P.bytes.getD j 0) :
    wrap64 (a + k) ∈ ScanBuffer B a P results := by
  rw [ScanBuffer_eq, if_neg (by omega)]
  apply List.mem_append_right
  apply List.mem_map.mpr
  refine ⟨k, ?_, rfl⟩
  apply List.mem_filter.mpr
  constructor
  · rw [List.mem_range']
    exact ⟨k, by omega, by omega⟩
  · rw [matchLoop_eq_true_iff]
    intro j hj hmask
    simpa using hmatch j hj (by simpa using hmask)

/-- C1. `ScanBuffer` is complete: if the pattern `P` (of any length) fits
at offset `k` of the buffer `B` and `B` agrees with `P` on every exact position
of that window, then the address `a + k` (in `uintptr_t` arithmetic, and
literally `a + k` when that is below `2 ^ 64`) is in the result list. The bytes under
wild cards play no part: every buffer `B'` of the same length that agrees
with `B` on the exact positions of the window, whatever it holds elsewhere,
still reports `a + k`. -/
theorem ScanBuffer_complete (B : List Byte) (a : Nat) (P : ParsedPattern)
    (results : List Nat) (k : Nat)
    (hk : k + P.bytes.length ≤ B.length)
    (hmatch : ∀ j, j < P.bytes.length → P.mask.getD j false = true →
      B.getD (k + j) 0 = P.bytes.getD j 0) :
    wrap64 (a + k) ∈ ScanBuffer B a P results ∧
    (a + k < 2 ^ 64 → a + k ∈ ScanBuffer B a P results) ∧
    ∀ B' : List Byte, B'.length = B.length →
      (∀ j, j < P.bytes.length → P.mask.getD j false = true →
        B'.getD (k + j) 0 = B.getD (k + j) 0) →
      wrap64 (a + k) ∈ ScanBuffer B' a P results := by
  refine ⟨ScanBuffer_mem_of_match B a P results k hk hmatch, ?_, ?_⟩
  · intro hlt
    have h := ScanBuffer_mem_of_match B a P results k hk hmatch
    rwa [wrap64, Nat.mod_eq_of_lt hlt] at h
  · intro B' hlen hagree
    apply ScanBuffer_mem_of_match B' a P results k (by omega)
    intro j hj hmask
    rw [hagree j hj hmask]
    exact hmatch j hj hmask

/-- Witness of C1: the pattern `02 ?? 02` in the buffer `01 02 03 02 03` at
base address 100 matches at offset 1. -/
theorem ScanBuffer_complete_witness :
    (101 ∈ ScanBuffer [1, 2, 3, 2, 3] 100 ⟨[2, 0, 2], [true, false, true]⟩ []) ∧
    (101 ∈ ScanBuffer [1, 2, 9, 2, 3] 100 ⟨[2, 0, 2], [true, false, true]⟩ []) :=
  have h := ScanBuffer_complete [1, 2, 3, 2, 3] 100 ⟨[2, 0, 2], [true, false, true]⟩ [] 1
    (by decide) (by decide)
  ⟨h.2.1 (by decide), by
    have h' := h.2.2 [1, 2, 9, 2, 3] rfl (by decide)
    exact h'⟩

/-- C2. `ScanBuffer` is sound: what it appends to the result list are addresses
`a + i` (in `uintptr_t` arithmetic) of start offsets `i` whose whole window lies
inside the buffer and at which every exact position of the pattern agrees with
the buffer; the earlier results are kept in front. Hence a pattern longer than
the buffer appends nothing. -/
theorem ScanBuffer_sound (B : List Byte) (a : Nat) (P : ParsedPattern)
    (results : List Nat) :
    ∃ added : List Nat, ScanBuffer B a P results = results ++ added ∧
      (∀ x, x ∈ added → ∃ i, x = wrap64 (a + i) ∧ i + P.bytes.length ≤ B.length ∧
        ∀ j, j < P.bytes.length → P.mask.getD j false = true →
          B.getD (i + j) 0 = P.bytes.getD j 0) ∧
      (B.length < P.bytes.length → added = []) := by
  rw [ScanBuffer_eq]
  by_cases hlt : B.length < P.bytes.length
  · exact ⟨[], by simp [hlt], by simp, fun _ => rfl⟩
  · refine ⟨_, by rw [if_neg hlt], ?_, fun h => absurd h hlt⟩
    intro x hx
    obtain ⟨i, hi, rfl⟩ := List.mem_map.mp hx
    obtain ⟨hrange, hmatch⟩ := List.mem_filter.mp hi
    rw [List.mem_range'] at hrange
    obtain ⟨t, ht, hit⟩ := hrange
    refine ⟨i, rfl, by omega, ?_⟩
    rw [matchLoop_eq_true_iff] at hmatch
    intro j hj hmask
    simpa using hmatch j hj (by simpa using hmask)

/-- Counterexample to C3 as stated: on the empty buffer at base address 100,
`ScanBuffer` with the pattern of zero positions appends one result. -/
theorem ScanBuffer_empty_pattern_reports :
    ScanBuffer [] 100 ⟨[], []⟩ [] = [100] ∧ ScanBuffer [] 100 ⟨[], []⟩ [] ≠ [] := by
  decide

/-- C3, amended. The public scan functions return no result for a pattern of zero
positions: `PatternScan` for every process and every iteration bound (it
returns before its region loop), `PatternScanRange` for every process and
range. -/
theorem PatternScan_empty_pattern (fuel : Nat) (process : HANDLE) (P : ParsedPattern)
    (start size : Nat) (hP : P.bytes = []) :
    PatternScan fuel process P = some [] ∧ PatternScanRange process P start size = [] := by
  simp [PatternScan, PatternScanRange, hP]

/-- Witness of C3, amended: a process whose three bytes at address 100 are readable. -/
theorem PatternScan_empty_pattern_witness :
    PatternScan 8 (HANDLE.ofImage [(100, [1, 2, 3])]) ⟨[], []⟩ = some [] ∧
      PatternScanRange (HANDLE.ofImage [(100, [1, 2, 3])]) ⟨[], []⟩ 100 3 = [] :=
  PatternScan_empty_pattern 8 (HANDLE.ofImage [(100, [1, 2, 3])]) ⟨[], []⟩ 100 3 rfl

/-! ## Properties of the pattern parser -/

/-- A hexadecimal digit has a value below 16. -/
theorem hexDigit_lt (c : Char) (d : Nat) (h : hexDigit c = some d) : d < 16 := by
  unfold hexDigit at h
  split_ifs at h <;> simp at h <;> omega

/-- On a token of exactly two hexadecimal digits `std::stoul` returns their value. -/
theorem stoul16_hexPair (c1 c2 : Char) (d1 d2 : Nat) (h1 : hexDigit c1 = some d1)
    (h2 : hexDigit c2 = some d2) : stoul16 [c1, c2] = .ok (16 * d1 + d2) := by
  have hd1 := hexDigit_lt c1 d1 h1
  have hd2 := hexDigit_lt c2 d2 h2
  have hm : c1 ≠ '-' := by rintro rfl; simp [hexDigit] at h1
  have hp : c1 ≠ '+' := by rintro rfl; simp [hexDigit] at h1
  unfold stoul16
  split
  · rename_i heq; simp at heq; exact absurd heq.1 hm
  · rename_i heq; simp at heq; exact absurd heq.1 hp
  · simp only [strip0x, readHex, h1, h2, Option.getD, ULONG_MAX]
    simp
    omega

/-- White space in front of the stream is skipped. -/
theorem istreamTokens_space (c : Char) (rest : List Char) (hc : isspace c = true) :
    istreamTokens (c :: rest) = istreamTokens rest := by
  simp [istreamTokens, istreamTokens.go, hc]

/-- Reading a run of non-white-space characters extends the current token. -/
theorem istreamTokens_go_append (t : List Char) (ht : ∀ c, c ∈ t → isspace c = false) :
    ∀ (rest cur : List Char),
      istreamTokens.go (t ++ rest) cur = istreamTokens.go rest (cur ++ t) := by
  induction t with
  | nil => intro rest cur; simp
  | cons c t ih =>
    intro rest cur
    have hc : isspace c = false := ht c (List.mem_cons_self c t)
    have ih' := ih (fun d hd => ht d (List.mem_cons_of_mem c hd)) rest (cur ++ [c])
    rw [List.cons_append, istreamTokens.go, hc, if_neg Bool.false_ne_true, ih']
    simp

/-- A non-empty run of non-white-space characters followed by a white-space
character is the next token. -/
theorem istreamTokens_token (t : List Char) (w : Char) (rest : List Char)
    (hne : t ≠ []) (ht : ∀ c, c ∈ t → isspace c = false) (hw : isspace w = true) :
    istreamTokens (t ++ w :: rest) = t :: istreamTokens rest := by
  unfold istreamTokens
  rw [istreamTokens_go_append t ht]
  simp [istreamTokens.go, hw, hne]

/-- A non-empty run of non-white-space characters at the end of the string is
the last token. -/
theorem istreamTokens_last (t : List Char) (hne : t ≠ [])
    (ht : ∀ c, c ∈ t → isspace c = false) : istreamTokens t = [t] := by
  have h := istreamTokens_go_append t ht [] []
  simp only [List.append_nil, List.nil_append] at h
  unfold istreamTokens
  rw [h]
  simp [istreamTokens.go, hne]

/-- An accepted token that is no wild card is one `std::stoul` returns a value for. -/
theorem acceptedToken_value (t : List Char) (ht : acceptedToken t)
    (hw : ¬ (t = ['?'] ∨ t = ['?', '?'])) : ∃ v, stoul16 t = .ok v := by
  rcases ht with h1 | h2 | h3
  · exact absurd (Or.inl h1) hw
  · exact absurd (Or.inr h2) hw
  · cases hs : stoul16 t with
    | error e => rw [hs] at h3; simp [Except.isOk, Except.toBool] at h3
    | ok v => exact ⟨v, rfl⟩

/-- A token `std::stoul` rejects is not accepted. -/
theorem not_acceptedToken_of_error (t : List Char) (e : StoulError)
    (hw : ¬ (t = ['?'] ∨ t = ['?', '?'])) (he : stoul16 t = .error e) : ¬ acceptedToken t := by
  intro h
  obtain ⟨v, hv⟩ := acceptedToken_value t h hw
  rw [he] at hv
  cases hv

/-- A plain token is accepted. -/
theorem acceptedToken_of_plain (t : List Char) (ht : plainToken t) : acceptedToken t := by
  rcases ht with h1 | h2 | ⟨hlen, hhex⟩
  · exact Or.inl h1
  · exact Or.inr (Or.inl h2)
  · match t, hlen with
    | [c1, c2], _ =>
      have h1 := hhex c1 (by simp)
      have h2 := hhex c2 (by simp)
      obtain ⟨d1, hd1⟩ := Option.isSome_iff_exists.mp h1
      obtain ⟨d2, hd2⟩ := Option.isSome_iff_exists.mp h2
      right; right
      rw [stoul16_hexPair c1 c2 d1 d2 hd1 hd2]
      rfl

/-- The loop of `ParsePattern` on accepted tokens appends one position per token. -/
theorem parseLoop_accepted :
    ∀ (ts : List (List Char)) (p : ParsedPattern), (∀ t, t ∈ ts → acceptedToken t) →
      parseLoop ts p = .ok ⟨p.bytes ++ ts.map tokenByte, p.mask ++ ts.map tokenMask⟩ := by
  intro ts
  induction ts with
  | nil => intro p _; simp [parseLoop]
  | cons t ts ih =>
    intro p h
    have ht := h t (List.mem_cons_self t ts)
    have hts : ∀ u, u ∈ ts → acceptedToken u := fun u hu => h u (List.mem_cons_of_mem t hu)
    rw [parseLoop]
    by_cases hw : t = ['?'] ∨ t = ['?', '?']
    · rw [if_pos hw, ih _ hts]
      simp [tokenByte, tokenMask, hw]
    · rw [if_neg hw]
      obtain ⟨v, hv⟩ := acceptedToken_value t ht hw
      rw [hv]
      simp only
      rw [ih _ hts]
      simp [tokenByte, tokenMask, hw, hv]

/-- The loop of `ParsePattern` leaves with the exception of the first token that
`std::stoul` rejects. -/
theorem parseLoop_rejected (pre : List (List Char)) (t : List Char) (post : List (List Char))
    (e : StoulError) (hpre : ∀ u, u ∈ pre → acceptedToken u)
    (hw : ¬ (t = ['?'] ∨ t = ['?', '?'])) (he : stoul16 t = .error e) :
    ∀ p : ParsedPattern, parseLoop (pre ++ t :: post) p = .error e := by
  induction pre with
  | nil => intro p; simp [parseLoop, hw, he]
  | cons u pre ih =>
    intro p
    have hu := hpre u (List.mem_cons_self u pre)
    have ih' := ih (fun x hx => hpre x (List.mem_cons_of_mem u hx))
    rw [List.cons_append, parseLoop]
    by_cases huw : u = ['?'] ∨ u = ['?', '?']
    · rw [if_pos huw, ih']
    · rw [if_neg huw]
      obtain ⟨v, hv⟩ := acceptedToken_value u hu huw
      rw [hv]
      simp only
      rw [ih']

/-- The tokens of a string split into a run of accepted tokens followed, if the
run does not reach the end, by a first token that is not accepted. -/
theorem tokens_accepted_or_first_rejected (ts : List (List Char)) :
    (∀ t, t ∈ ts → acceptedToken t) ∨
      ∃ pre t post, ts = pre ++ t :: post ∧ (∀ u, u ∈ pre → acceptedToken u) ∧
        ¬ acceptedToken t := by
  induction ts with
  | nil => left; intro t ht; cases ht
  | cons t ts ih =>
    by_cases ht : acceptedToken t
    · rcases ih with hall | ⟨pre, u, post, heq, hpre, hu⟩
      · left
        intro x hx
        rcases List.mem_cons.mp hx with rfl | hx
        · exact ht
        · exact hall x hx
      · right
        refine ⟨t :: pre, u, post, by rw [heq]; rfl, ?_, hu⟩
        intro x hx
        rcases List.mem_cons.mp hx with rfl | hx
        · exact ht
        · exact hpre x hx
    · right
      exact ⟨[], t, ts, rfl, fun u hu => (by cases hu), ht⟩

/-- C4. For a pattern string all of whose white-space-separated tokens are `?`,
`??` or exactly two hexadecimal digits, `ParsePattern` returns (without
raising) bytes and mask of equal length, one position per token in token
order: a wild-card token gives mask false and byte 0, a token of two
hexadecimal digits of values `d1`, `d2` gives mask true and byte `16 * d1 + d2`. -/
theorem ParsePattern_plain_tokens (pattern : String)
    (h : ∀ t, t ∈ istreamTokens pattern.toList → plainToken t) :
    ∃ p : ParsedPattern, ParsePattern pattern = .ok p ∧
      p.bytes.length = p.mask.length ∧
      p.bytes.length = (istreamTokens pattern.toList).length ∧
      ∀ (i : Nat) (t : List Char), (istreamTokens pattern.toList)[i]? = some t →
        ((t = ['?'] ∨ t = ['?', '?']) → p.mask[i]? = some false ∧ p.bytes[i]? = some 0) ∧
        (∀ c1 c2 d1 d2, t = [c1, c2] → hexDigit c1 = some d1 → hexDigit c2 = some d2 →
          p.mask[i]? = some true ∧ Option.map Fin.val p.bytes[i]? = some (16 * d1 + d2)) := by
  have hacc : ∀ t, t ∈ istreamTokens pattern.toList → acceptedToken t :=
    fun t ht => acceptedToken_of_plain t (h t ht)
  refine ⟨⟨(istreamTokens pattern.toList).map tokenByte,
    (istreamTokens pattern.toList).map tokenMask⟩, ?_, by simp, by simp, ?_⟩
  · unfold ParsePattern
    rw [parseLoop_accepted _ _ hacc]
    simp
  · intro i t hi
    simp only [List.getElem?_map, hi, Option.map_some']
    constructor
    · intro hw
      simp [tokenMask, tokenByte, hw]
    · intro c1 c2 d1 d2 ht h1 h2
      have hd1 := hexDigit_lt c1 d1 h1
      have hd2 := hexDigit_lt c2 d2 h2
      have hc1 : c1 ≠ '?' := by rintro rfl; simp [hexDigit] at h1
      have hw : ¬ (t = ['?'] ∨ t = ['?', '?']) := by
        rw [ht]
        simp [hc1]
      have hv := stoul16_hexPair c1 c2 d1 d2 h1 h2
      rw [← ht] at hv
      simp only [tokenMask, tokenByte, if_neg hw, hv, Fin.ofNat, Option.map_some', Option.some.injEq,
        true_and]
      omega

/-- Witness of C4: the pattern `48 8B 05 ?? ?? ?? ?? 48 85 C0` of the header. -/
theorem ParsePattern_plain_tokens_witness :
    ParsePattern "48 8B 05 ?? ?? ?? ?? 48 85 C0" =
      .ok ⟨[0x48, 0x8B, 0x05, 0, 0, 0, 0, 0x48, 0x85, 0xC0],
           [true, true, true, false, false, false, false, true, true, true]⟩ ∧
    ∃ p : ParsedPattern, ParsePattern "48 8B 05 ?? ?? ?? ?? 48 85 C0" = .ok p ∧
      p.bytes.length = p.mask.length ∧ p.bytes.length = 10 :=
  ⟨by decide, by
    obtain ⟨p, hp, h1, h2, _⟩ :=
      ParsePattern_plain_tokens "48 8B 05 ?? ?? ?? ?? 48 85 C0" (by decide)
    exact ⟨p, hp, h1, by rw [h2]; decide⟩⟩

/-- Counterexample to C5 as stated: on `48 ZZ 05` the call of `std::stoul` on the
token `ZZ` raises `std::invalid_argument`, which leaves `ParsePattern`; no
pattern is returned. -/
theorem ParsePattern_raises_on_ZZ :
    ParsePattern "48 ZZ 05" = .error .invalid_argument ∧
      ¬ ∃ p : ParsedPattern, ParsePattern "48 ZZ 05" = .ok p := by
  have h : ParsePattern "48 ZZ 05" = .error .invalid_argument := by decide
  refine ⟨h, ?_⟩
  rintro ⟨p, hp⟩
  rw [h] at hp
  cases hp

/-- C5, amended. `ParsePattern` returns a pattern exactly when every token is a wild
card or is accepted by `std::stoul` (hexadecimal digits right after an
optional sign and `0x`, value within `unsigned long`); the pattern then has
one position per token, a token with trailing non-digits being decoded from
its leading digits. Otherwise the exception of `std::stoul` on the first
rejected token leaves `ParsePattern` and no pattern is returned. -/
theorem ParsePattern_ok_iff_accepted (pattern : String) :
    ((∃ p : ParsedPattern, ParsePattern pattern = .ok p) ↔
      ∀ t, t ∈ istreamTokens pattern.toList → acceptedToken t) ∧
    ((∀ t, t ∈ istreamTokens pattern.toList → acceptedToken t) →
      ParsePattern pattern = .ok ⟨(istreamTokens pattern.toList).map tokenByte,
        (istreamTokens pattern.toList).map tokenMask⟩) ∧
    (∀ pre t post e, istreamTokens pattern.toList = pre ++ t :: post →
      (∀ u, u ∈ pre → acceptedToken u) → ¬ (t = ['?'] ∨ t = ['?', '?']) →
      stoul16 t = .error e → ParsePattern pattern = .error e) := by
  have hok : (∀ t, t ∈ istreamTokens pattern.toList → acceptedToken t) →
      ParsePattern pattern = .ok ⟨(istreamTokens pattern.toList).map tokenByte,
        (istreamTokens pattern.toList).map tokenMask⟩ := by
    intro hacc
    unfold ParsePattern
    rw [parseLoop_accepted _ _ hacc]
    simp
  have herr : ∀ pre t post e, istreamTokens pattern.toList = pre ++ t :: post →
      (∀ u, u ∈ pre → acceptedToken u) → ¬ (t = ['?'] ∨ t = ['?', '?']) →
      stoul16 t = .error e → ParsePattern pattern = .error e := by
    intro pre t post e heq hpre hw he
    unfold ParsePattern
    rw [heq]
    exact parseLoop_rejected pre t post e hpre hw he _
  refine ⟨⟨?_, fun hacc => ⟨_, hok hacc⟩⟩, hok, herr⟩
  rintro ⟨p, hp⟩
  rcases tokens_accepted_or_first_rejected (istreamTokens pattern.toList) with hall |
    ⟨pre, t, post, heq, hpre, hnot⟩
  · exact hall
  · exfalso
    have hw : ¬ (t = ['?'] ∨ t = ['?', '?']) := by
      intro hw
      apply hnot
      rcases hw with h1 | h2
      · exact Or.inl h1
      · exact Or.inr (Or.inl h2)
    cases hs : stoul16 t with
    | ok v =>
      apply hnot
      right; right
      rw [hs]
      rfl
    | error e =>
      rw [herr pre t post e heq hpre hw hs] at hp
      cases hp

/-- Witness of C5, amended: `48 8b 0x5` is parsed, `4Z` is decoded from its leading
digit, and `48 ZZ 05` raises at its second token. -/
theorem ParsePattern_ok_iff_accepted_witness :
    ParsePattern "48 8b 0x5" = .ok ⟨[0x48, 0x8B, 0x05], [true, true, true]⟩ ∧
    ParsePattern "4Z ?" = .ok ⟨[0x04, 0], [true, false]⟩ ∧
    ParsePattern "48 ZZ 05" = .error .invalid_argument :=
  ⟨(ParsePattern_ok_iff_accepted "48 8b 0x5").2.1 (by decide),
   (ParsePattern_ok_iff_accepted "4Z ?").2.1 (by decide),
   (ParsePattern_ok_iff_accepted "48 ZZ 05").2.2 [['4', '8']] ['Z', 'Z'] [['0', '5']]
     .invalid_argument (by decide) (by decide) (by decide) (by decide)⟩

/-! ## Properties of the entity reader -/

/-- C6. `ReadOop` equals the reference decoder for every process memory, field
address and configuration whose shift is a count `s` with `0 ≤ s < 64`, and
performs exactly the one read of the field (4 bytes in compressed mode, 8
otherwise). -/
theorem ReadOop_eq_Decode (self : EntityReader) (addr : Nat) (s : Nat)
    (hs : self.oops.shift = (s : Int)) (h64 : s < 64) :
    (self.ReadOop addr).1 =
        OopDecoder.Decode self.hProcess self.oops.compressed s self.oops.heapBase addr ∧
      (self.ReadOop addr).2 = [⟨addr, if self.oops.compressed then 4 else 8⟩] := by
  have _ := h64
  unfold EntityReader.ReadOop OopDecoder.Decode
  rw [hs]
  by_cases hc : self.oops.compressed = true
  · simp only [hc, if_true]
    cases hr : ReadMemory 4 self.hProcess addr with
    | none => simp
    | some r =>
      by_cases h0 : r = 0
      · simp [h0]
      · simp [h0, wrap64, Nat.shiftLeft_eq]
  · simp only [hc, Bool.false_eq_true, if_false]
    cases hr : ReadMemory 8 self.hProcess addr with
    | none => simp
    | some p =>
      by_cases h0 : p = 0
      · simp [h0]
      · simp [h0]

/-- Witness of C6: compressed, shift 3, heap base 0. A raw field value 0 decodes
to null and a raw field value 8 decodes to 64. -/
theorem ReadOop_eq_Decode_witness :
    (EntityReader.ReadOop { hProcess := HANDLE.ofImage [(0x500, [0, 0, 0, 0, 8, 0, 0, 0])] }
        0x500).1 = 0 ∧
    (EntityReader.ReadOop { hProcess := HANDLE.ofImage [(0x500, [0, 0, 0, 0, 8, 0, 0, 0])] }
        0x504).1 = 64 :=
  ⟨(ReadOop_eq_Decode { hProcess := HANDLE.ofImage [(0x500, [0, 0, 0, 0, 8, 0, 0, 0])] }
      0x500 3 rfl (by decide)).1.trans (by decide),
   (ReadOop_eq_Decode { hProcess := HANDLE.ofImage [(0x500, [0, 0, 0, 0, 8, 0, 0, 0])] }
      0x504 3 rfl (by decide)).1.trans (by decide)⟩

/-- A chain step succeeds exactly when its read yields a non-zero pointer. -/
theorem chainStepOk_iff (process : HANDLE) (a : Nat) :
    chainStepOk process a ↔ ∃ p, ReadMemory 8 process a = some p ∧ p ≠ 0 := by
  unfold chainStepOk
  cases ReadMemory 8 process a with
  | none => simp
  | some p => simp

/-- A chain step fails exactly when its read fails or yields 0. -/
theorem not_chainStepOk_iff (process : HANDLE) (a : Nat) :
    ¬ chainStepOk process a ↔
      ReadMemory 8 process a = none ∨ ReadMemory 8 process a = some 0 := by
  unfold chainStepOk
  cases ReadMemory 8 process a with
  | none => simp
  | some p => simp

/-- The chain addresses after the first step are the chain addresses of the
remaining offsets started at the first step's result. -/
theorem chainAddr_cons (process : HANDLE) (base : Nat) (off : Int) (rest : List Int) :
    ∀ i : Nat, chainAddr process base (off :: rest) (i + 1) =
      chainAddr process (wrap64 ((ReadMemory 8 process base).getD 0 + toU64 off)) rest i := by
  intro i
  induction i with
  | zero => simp [chainAddr]
  | succ n ih =>
    rw [chainAddr, ih]
    simp [chainAddr]

/-- The reads at the first `n + 1` chain addresses: the read at the base, then
the reads of the chain of the remaining offsets. -/
theorem chainReads_cons (process : HANDLE) (base : Nat) (off : Int) (rest : List Int)
    (n : Nat) :
    (List.range (n + 1)).map
        (fun i => (⟨chainAddr process base (off :: rest) i, 8⟩ : RpmCall)) =
      ⟨base, 8⟩ :: (List.range n).map (fun i =>
        (⟨chainAddr process (wrap64 ((ReadMemory 8 process base).getD 0 + toU64 off)) rest i,
          8⟩ : RpmCall)) := by
  rw [List.range_succ_eq_map, List.map_cons, List.map_map]
  congr 1
  apply List.map_congr_left
  intro i _
  simp only [Function.comp_apply, Nat.succ_eq_add_one, chainAddr_cons]

/-- The chain loop when every step succeeds: it ends at the last chain address
after one 8-byte read at each earlier one. -/
theorem FollowChain_loop_ok (self : EntityReader) :
    ∀ (offs : List Int) (a : Nat),
      (∀ i, i < offs.length → chainStepOk self.hProcess (chainAddr self.hProcess a offs i)) →
      EntityReader.FollowChain.loop self offs a =
        (chainAddr self.hProcess a offs offs.length,
         (List.range offs.length).map (fun i => ⟨chainAddr self.hProcess a offs i, 8⟩)) := by
  intro offs
  induction offs with
  | nil => intro a _; simp [EntityReader.FollowChain.loop, chainAddr]
  | cons off rest ih =>
    intro a hok
    obtain ⟨p, hp, hp0⟩ := (chainStepOk_iff _ _).mp (hok 0 (by simp))
    simp only [chainAddr] at hp
    have hrest : ∀ i, i < rest.length → chainStepOk self.hProcess
        (chainAddr self.hProcess (wrap64 (p + toU64 off)) rest i) := by
      intro i hi
      have h := hok (i + 1) (by simp; omega)
      rw [chainAddr_cons, hp] at h
      exact h
    rw [EntityReader.FollowChain.loop, hp]
    simp only [hp0, if_false]
    rw [ih _ hrest, List.length_cons, chainReads_cons, chainAddr_cons, hp]
    rfl

/-- The chain loop when step `k` is the first to fail: the result is null and
the reads are those at the chain addresses up to and including step `k`. -/
theorem FollowChain_loop_fail (self : EntityReader) :
    ∀ (offs : List Int) (a k : Nat), k < offs.length →
      (∀ i, i < k → chainStepOk self.hProcess (chainAddr self.hProcess a offs i)) →
      ¬ chainStepOk self.hProcess (chainAddr self.hProcess a offs k) →
      EntityReader.FollowChain.loop self offs a =
        (0, (List.range (k + 1)).map (fun i => ⟨chainAddr self.hProcess a offs i, 8⟩)) := by
  intro offs
  induction offs with
  | nil => intro a k hk; simp at hk
  | cons off rest ih =>
    intro a k hk hok hfail
    rw [chainReads_cons]
    cases k with
    | zero =>
      simp only [chainStepOk_iff, chainAddr, not_exists, not_and, not_not] at hfail
      rw [EntityReader.FollowChain.loop]
      cases hr : ReadMemory 8 self.hProcess a with
      | none => simp
      | some p => simp [hfail p hr]
    | succ k =>
      obtain ⟨p, hp, hp0⟩ := (chainStepOk_iff _ _).mp (hok 0 (by omega))
      simp only [chainAddr] at hp
      have hrest : ∀ i, i < k → chainStepOk self.hProcess
          (chainAddr self.hProcess (wrap64 (p + toU64 off)) rest i) := by
        intro i hi
        have h := hok (i + 1) (by omega)
        rw [chainAddr_cons, hp] at h
        exact h
      have hfail' : ¬ chainStepOk self.hProcess
          (chainAddr self.hProcess (wrap64 (p + toU64 off)) rest k) := by
        rw [chainAddr_cons, hp] at hfail
        exact hfail
      rw [EntityReader.FollowChain.loop, hp]
      simp only [hp0, if_false]
      rw [ih _ k (by simpa using hk) hrest hfail']
      rfl

/-- The chain loop does not look at the reference configuration. -/
theorem FollowChain_loop_oops (self : EntityReader) (c : OopConfig) :
    ∀ (offs : List Int) (a : Nat),
      EntityReader.FollowChain.loop { self with oops := c } offs a =
        EntityReader.FollowChain.loop self offs a := by
  intro offs
  induction offs with
  | nil => intro a; simp [EntityReader.FollowChain.loop]
  | cons off rest ih =>
    intro a
    rw [EntityReader.FollowChain.loop, EntityReader.FollowChain.loop]
    simp only [ih]

/-- C7. `FollowChain` returns null without any read when the chain base is 0,
whatever the offsets and the memory. When the base is not 0 and step `k` is
the first whose 8-byte read fails or yields 0, it returns null (not null plus
an offset) and its reads are exactly those of steps `0` to `k`: nothing is
read and no offset is applied after the failing step. -/
theorem FollowChain_null (self : EntityReader) :
    (self.offsets.chainBase = 0 → self.FollowChain = (0, [])) ∧
    ∀ k, self.offsets.chainBase ≠ 0 → k < self.offsets.chainOffsets.length →
      (∀ i, i < k → chainStepOk self.hProcess
        (chainAddr self.hProcess self.offsets.chainBase self.offsets.chainOffsets i)) →
      (ReadMemory 8 self.hProcess
          (chainAddr self.hProcess self.offsets.chainBase self.offsets.chainOffsets k) = none ∨
        ReadMemory 8 self.hProcess
          (chainAddr self.hProcess self.offsets.chainBase self.offsets.chainOffsets k) =
            some 0) →
      self.FollowChain = (0, (List.range (k + 1)).map (fun i =>
        ⟨chainAddr self.hProcess self.offsets.chainBase self.offsets.chainOffsets i, 8⟩)) := by
  constructor
  · intro h0
    simp [EntityReader.FollowChain, h0]
  · intro k hbase hk hok hfail
    unfold EntityReader.FollowChain
    simp only [hbase, if_false]
    exact FollowChain_loop_fail self _ _ k hk hok ((not_chainStepOk_iff _ _).mpr hfail)

/-- Witness of C7: base 0 with two offsets over readable memory gives null with
no read; base `0x1000` pointing to `0x2000` with offsets `0x10`, `0x20` and
nothing readable at `0x2010` gives null after the reads at `0x1000` and
`0x2010`. -/
theorem FollowChain_null_witness :
    EntityReader.FollowChain
      { hProcess := HANDLE.ofImage [(0, [0, 0x20, 0, 0, 0, 0, 0, 0])],
        offsets := { chainBase := 0, chainOffsets := [0x10, 0x20] } } = (0, []) ∧
    EntityReader.FollowChain
      { hProcess := HANDLE.ofImage [(0x1000, [0, 0x20, 0, 0, 0, 0, 0, 0])],
        offsets := { chainBase := 0x1000, chainOffsets := [0x10, 0x20] } } =
      (0, [⟨0x1000, 8⟩, ⟨0x2010, 8⟩]) :=
  ⟨(FollowChain_null
      { hProcess := HANDLE.ofImage [(0, [0, 0x20, 0, 0, 0, 0, 0, 0])],
        offsets := { chainBase := 0, chainOffsets := [0x10, 0x20] } }).1 rfl,
   ((FollowChain_null
      { hProcess := HANDLE.ofImage [(0x1000, [0, 0x20, 0, 0, 0, 0, 0, 0])],
        offsets := { chainBase := 0x1000, chainOffsets := [0x10, 0x20] } }).2 1
      (by decide) (by decide) (by decide) (by decide)).trans (by decide)⟩

/-- C8. When the chain base is not 0 and each of the `n` steps reads a non-zero
8-byte pointer, `FollowChain` returns the address `a_n` of the chain
`a_0 = base`, `a_(i+1) = read64(a_i) + o_i` (64-bit wrap-around, offsets sign
extended) after exactly the reads at `a_0 .. a_(n-1)`; with no offset it
returns the base itself. The steps read raw pointers: the result does not
depend on the reference configuration. -/
theorem FollowChain_ok (self : EntityReader) (hbase : self.offsets.chainBase ≠ 0)
    (hok : ∀ i, i < self.offsets.chainOffsets.length → chainStepOk self.hProcess
      (chainAddr self.hProcess self.offsets.chainBase self.offsets.chainOffsets i)) :
    self.FollowChain =
      (chainAddr self.hProcess self.offsets.chainBase self.offsets.chainOffsets
          self.offsets.chainOffsets.length,
        (List.range self.offsets.chainOffsets.length).map (fun i =>
          ⟨chainAddr self.hProcess self.offsets.chainBase self.offsets.chainOffsets i, 8⟩)) ∧
    (self.offsets.chainOffsets = [] → self.FollowChain = (self.offsets.chainBase, [])) ∧
    ∀ c : OopConfig, EntityReader.FollowChain { self with oops := c } = self.FollowChain := by
  refine ⟨?_, ?_, ?_⟩
  · unfold EntityReader.FollowChain
    simp only [hbase, if_false]
    exact FollowChain_loop_ok self _ _ hok
  · intro hnil
    unfold EntityReader.FollowChain
    simp [hbase, hnil, EntityReader.FollowChain.loop]
  · intro c
    unfold EntityReader.FollowChain
    simp only [FollowChain_loop_oops]

/-- Witness of C8: base `0x1000` holding the pointer `0x2000`, offsets `0x10`
then `-8`, and the pointer `0x3000` at `0x2010`: the chain ends at `0x2FF8`. -/
theorem FollowChain_ok_witness :
    EntityReader.FollowChain
      { hProcess := HANDLE.ofImage [(0x1000, [0, 0x20, 0, 0, 0, 0, 0, 0]),
          (0x2010, [0, 0x30, 0, 0, 0, 0, 0, 0])],
        offsets := { chainBase := 0x1000, chainOffsets := [0x10, -8] } } =
      (0x2FF8, [⟨0x1000, 8⟩, ⟨0x2010, 8⟩]) :=
  (FollowChain_ok
      { hProcess := HANDLE.ofImage [(0x1000, [0, 0x20, 0, 0, 0, 0, 0, 0]),
          (0x2010, [0, 0x30, 0, 0, 0, 0, 0, 0])],
        offsets := { chainBase := 0x1000, chainOffsets := [0x10, -8] } }
      (by decide) (by decide)).1.trans (by decide)

/-- A call of `ReadOop` performs the one read of the field it decodes. -/
theorem ReadOop_reads (self : EntityReader) (a : Nat) :
    (self.ReadOop a).2 = [⟨a, if self.oops.compressed then 4 else 8⟩] := by
  unfold EntityReader.ReadOop
  by_cases hc : self.oops.compressed = true
  · simp only [hc, if_true]
    cases ReadMemory 4 self.hProcess a with
    | none => rfl
    | some r => by_cases h0 : r = 0 <;> simp [h0]
  · simp only [hc, Bool.false_eq_true, if_false]
    cases ReadMemory 8 self.hProcess a with
    | none => rfl
    | some r => by_cases h0 : r = 0 <;> simp [h0]

/-- The reads of the loop body start with the decode of the element field. -/
theorem readEntity_first_read (self : EntityReader) (arrayRef : Nat) (refSize i : Int) :
    (self.readEntity arrayRef refSize i).2.head? =
      some ⟨wrap64 (arrayRef + toU64 self.offsets.arrayDataOffset + toU64 (mulInt32 i refSize)),
        if self.oops.compressed then 4 else 8⟩ := by
  have hoop := ReadOop_reads self
  generalize (if self.oops.compressed = true then 4 else 8 : Nat) = sz at hoop ⊢
  unfold EntityReader.readEntity
  simp only
  split_ifs <;> simp [hoop]

/-- Counterexample to C9 as stated: in the scenario the chain does not resolve to
`0x2000` but to `0x2010`, the pointer read plus the chain offset; with the
default list offsets the count is then looked for at `0x2020`, and nothing of
the array is read. -/
theorem scenario_chain_not_0x2000 :
    ReadMemory 8 scenarioReader.hProcess 0x1000 = some 0x2000 ∧
    ReadMemory 4 scenarioReader.hProcess 0x2010 = some 1 ∧
    ReadMemory 4 scenarioReader.hProcess 0x2014 = some 16 ∧
    scenarioReader.FollowChain = (0x2010, [⟨0x1000, 8⟩]) ∧
    scenarioReader.FollowChain.1 ≠ 0x2000 ∧
    ∃ r : CycleResult, scenarioReader.DoEntityRead = .ok r ∧
      r.reads = [⟨0x1000, 8⟩, ⟨0x2020, 4⟩] ∧
      r.reader.status = "Failed to read entity count" :=
  ⟨by decide, by decide, by decide, by decide, by decide, _, rfl, by decide, by decide⟩

/-- C9, amended. In the end-to-end scenario (chain base `0x1000`, chain offsets
`[0x10]`, compressed references with shift 3 and heap base 0, pointer
`0x2000` at `0x1000`, size 1 at `0x2010`, reference 16 at `0x2014`) the chain
resolves to `0x2010`, the pointer plus the offset. With list size offset 0,
list array offset 4 and at least one entity allowed, the cycle reads the
count 1, decodes the array reference to 128 and completes with the reads at
`0x1000`, `0x2010`, `0x2014` followed by those of the loop body for slot 0
alone, which begin with the 4-byte element field at
`128 + arrayDataOffset + 0`; the published list is what that one slot gives. -/
theorem DoEntityRead_scenario (self : EntityReader)
    (hoops : self.oops = { compressed := true, shift := 3, heapBase := 0 })
    (hbase : self.offsets.chainBase = 0x1000) (hoffs : self.offsets.chainOffsets = [0x10])
    (hlso : self.offsets.listSizeOffset = 0) (hlao : self.offsets.listArrayOffset = 4)
    (hmax : 1 ≤ self.offsets.maxEntities)
    (hptr : ReadMemory 8 self.hProcess 0x1000 = some 0x2000)
    (hsize : ReadMemory 4 self.hProcess 0x2010 = some 1)
    (harr : ReadMemory 4 self.hProcess 0x2014 = some 16) :
    self.FollowChain = (0x2010, [⟨0x1000, 8⟩]) ∧
    ReadMemoryInt32 self.hProcess 0x2010 = some 1 ∧
    clampCount 1 self.offsets.maxEntities = 1 ∧
    self.ReadOop 0x2014 = (128, [⟨0x2014, 4⟩]) ∧
    ∃ r : CycleResult, self.DoEntityRead = .ok r ∧
      r.reads = [⟨0x1000, 8⟩, ⟨0x2010, 4⟩, ⟨0x2014, 4⟩] ++ (self.readEntity 128 4 0).2 ∧
      (self.readEntity 128 4 0).2.head? =
        some ⟨wrap64 (128 + toU64 self.offsets.arrayDataOffset + 0), 4⟩ ∧
      r.reader.entities = (self.readEntity 128 4 0).1.toList := by
  have hcomp : self.oops.compressed = true := by rw [hoops]
  have hshift : self.oops.shift = 3 := by rw [hoops]
  have hheap : self.oops.heapBase = 0 := by rw [hoops]
  have haddr0 : wrap64 (0x2000 + toU64 0x10) = 0x2010 := by decide
  have haddr1 : wrap64 (0x2010 + toU64 0) = 0x2010 := by decide
  have haddr2 : wrap64 (0x2010 + toU64 4) = 0x2014 := by decide
  have hchain : self.FollowChain = (0x2010, [⟨0x1000, 8⟩]) := by
    unfold EntityReader.FollowChain
    rw [hbase, hoffs]
    simp [EntityReader.FollowChain.loop, hptr, haddr0]
  have hcount : ReadMemoryInt32 self.hProcess 0x2010 = some 1 := by
    unfold ReadMemoryInt32
    rw [hsize]
    decide
  have hclamp : clampCount 1 self.offsets.maxEntities = 1 := by
    unfold clampCount
    have h1 : ¬ ((1 : Int) < 0 ∨ 1 > self.offsets.maxEntities) := by omega
    rw [if_neg h1]
  have hoop : self.ReadOop 0x2014 = (128, [⟨0x2014, 4⟩]) := by
    unfold EntityReader.ReadOop
    rw [hcomp, hshift, hheap]
    simp only [if_true, harr]
    decide
  refine ⟨hchain, hcount, hclamp, hoop, ?_⟩
  have hfirst := readEntity_first_read self 128 4 0
  rw [hcomp] at hfirst
  simp only [if_true] at hfirst
  have hz : toU64 (mulInt32 0 4) = 0 := by decide
  rw [hz] at hfirst
  unfold EntityReader.DoEntityRead
  simp only [hchain, hlso, hlao, haddr1, haddr2, hcount, hclamp, hoop, hcomp, if_true]
  refine ⟨_, rfl, ?_, hfirst, ?_⟩
  · simp only [Int.toNat_one, EntityReader.entityLoop]
    cases (self.readEntity 128 4 0).1 <;> simp
  · simp only [Int.toNat_one, EntityReader.entityLoop]
    cases (self.readEntity 128 4 0).1 <;> simp

/-- Witness of C9, amended: with the default array data offset `0x10` the one
element field read is at `0x90`; nothing is readable there, so the slot is
skipped and the published list is empty. -/
theorem DoEntityRead_scenario_witness :
    scenarioReaderAt0.FollowChain = (0x2010, [⟨0x1000, 8⟩]) ∧
    ∃ r : CycleResult, scenarioReaderAt0.DoEntityRead = .ok r ∧
      r.reads = [⟨0x1000, 8⟩, ⟨0x2010, 4⟩, ⟨0x2014, 4⟩, ⟨0x90, 4⟩] ∧
      r.reader.entities = [] := by
  obtain ⟨hchain, _, _, _, r, hr, hreads, _, hent⟩ :=
    DoEntityRead_scenario scenarioReaderAt0 rfl rfl rfl rfl rfl (by decide) (by decide)
      (by decide) (by decide)
  exact ⟨hchain, r, hr, hreads.trans (by decide), hent.trans (by decide)⟩

/-- C10. A read cycle that cannot reach the list clears the snapshot. Whatever
was published before: if the chain resolves to null, or the chain resolves
but the 4-byte count read at `listAddress + listSizeOffset` fails, or the
count is read but the array reference at `listAddress + listArrayOffset`
decodes to null, then the cycle completes, the published entity list is empty,
the status is the message of that cause, and the string-find list is the one
from before. -/
theorem DoEntityRead_failure_clears (self : EntityReader) :
    (self.FollowChain.1 = 0 →
      ∃ r : CycleResult, self.DoEntityRead = .ok r ∧ r.reader.entities = [] ∧
        r.reader.status = "Chain resolved to NULL" ∧
        r.reader.stringFinds = self.stringFinds) ∧
    (self.FollowChain.1 ≠ 0 →
      ReadMemoryInt32 self.hProcess
        (wrap64 (self.FollowChain.1 + toU64 self.offsets.listSizeOffset)) = none →
      ∃ r : CycleResult, self.DoEntityRead = .ok r ∧ r.reader.entities = [] ∧
        r.reader.status = "Failed to read entity count" ∧
        r.reader.stringFinds = self.stringFinds) ∧
    (self.FollowChain.1 ≠ 0 →
      ReadMemoryInt32 self.hProcess
        (wrap64 (self.FollowChain.1 + toU64 self.offsets.listSizeOffset)) ≠ none →
      (self.ReadOop (wrap64 (self.FollowChain.1 + toU64 self.offsets.listArrayOffset))).1 = 0 →
      ∃ r : CycleResult, self.DoEntityRead = .ok r ∧ r.reader.entities = [] ∧
        r.reader.status = "Entity array ref is NULL" ∧
        r.reader.stringFinds = self.stringFinds) := by
  refine ⟨?_, ?_, ?_⟩
  · intro h0
    unfold EntityReader.DoEntityRead
    simp only [h0, if_true]
    exact ⟨_, rfl, rfl, rfl, rfl⟩
  · intro hne hcount
    unfold EntityReader.DoEntityRead
    simp only [hne, if_false, hcount]
    exact ⟨_, rfl, rfl, rfl, rfl⟩
  · intro hne hcount harr
    unfold EntityReader.DoEntityRead
    simp only [hne, if_false]
    cases hc : ReadMemoryInt32 self.hProcess
        (wrap64 (self.FollowChain.1 + toU64 self.offsets.listSizeOffset)) with
    | none => exact absurd hc hcount
    | some raw =>
      simp only [harr, if_true]
      exact ⟨_, rfl, rfl, rfl, rfl⟩

/-- Witness of C10, one reader for each cause: the chain pointer is unreadable;
the chain resolves to `0x2010` and the count at `0x2020` is unreadable; the
count is readable and the array reference at `0x2024` is 0. -/
theorem DoEntityRead_failure_clears_witness :
    (∃ r : CycleResult, (staleReader [0x10] []).DoEntityRead = .ok r ∧
      r.reader.entities = [] ∧ r.reader.status = "Chain resolved to NULL" ∧
      r.reader.stringFinds = [{ address := 0x5000, text := "net/minecraft/entity/Entity" }]) ∧
    (∃ r : CycleResult,
      (staleReader [0x10] [(0x1000, [0, 0x20, 0, 0, 0, 0, 0, 0])]).DoEntityRead = .ok r ∧
      r.reader.entities = [] ∧ r.reader.status = "Failed to read entity count" ∧
      r.reader.stringFinds = [{ address := 0x5000, text := "net/minecraft/entity/Entity" }]) ∧
    (∃ r : CycleResult,
      (staleReader [0x10] [(0x1000, [0, 0x20, 0, 0, 0, 0, 0, 0]),
        (0x2020, [3, 0, 0, 0, 0, 0, 0, 0])]).DoEntityRead = .ok r ∧
      r.reader.entities = [] ∧ r.reader.status = "Entity array ref is NULL" ∧
      r.reader.stringFinds = [{ address := 0x5000, text := "net/minecraft/entity/Entity" }]) :=
  ⟨(DoEntityRead_failure_clears (staleReader [0x10] [])).1 (by decide),
   (DoEntityRead_failure_clears
      (staleReader [0x10] [(0x1000, [0, 0x20, 0, 0, 0, 0, 0, 0])])).2.1
      (by decide) (by decide),
   (DoEntityRead_failure_clears
      (staleReader [0x10] [(0x1000, [0, 0x20, 0, 0, 0, 0, 0, 0]),
        (0x2020, [3, 0, 0, 0, 0, 0, 0, 0])])).2.2 (by decide) (by decide) (by decide)⟩

/-! ## Properties of the read cycle -/

/-- Closed form of the array loop: it visits the `todo` slots from `i` on, in
order; the snapshot gains the records of the slots that decode to non-null,
the valid counter the number of valid ones, and the reads are those of the
loop bodies one after the other. -/
theorem entityLoop_eq (self : EntityReader) (arrayRef : Nat) (refSize : Int) :
    ∀ (todo : Nat) (i : Int) (snapshot : List EntityData) (validCount : Int),
      self.entityLoop arrayRef refSize todo i snapshot validCount =
        ⟨snapshot ++ (List.range todo).filterMap
            (fun (k : Nat) => (self.readEntity arrayRef refSize (i + (k : Int))).1),
         validCount + ((((List.range todo).filterMap
            (fun (k : Nat) => (self.readEntity arrayRef refSize (i + (k : Int))).1)).filter
              (fun ed => ed.valid)).length : Nat),
         (List.range todo).flatMap
            (fun (k : Nat) => (self.readEntity arrayRef refSize (i + (k : Int))).2)⟩ := by
  intro todo
  induction todo with
  | zero => intro i snapshot validCount; simp [EntityReader.entityLoop]
  | succ n ih =>
    intro i snapshot validCount
    have hshift : ∀ k : Nat, i + 1 + (k : Int) = i + ((k + 1 : Nat) : Int) := by
      intro k; push_cast; ring
    rw [EntityReader.entityLoop]
    simp only [ih, hshift]
    rw [List.range_succ_eq_map]
    simp only [List.filterMap_cons, List.filterMap_map, List.flatMap_cons, List.flatMap_map,
      Nat.cast_zero, add_zero, Function.comp_def, Nat.succ_eq_add_one]
    cases h : (self.readEntity arrayRef refSize i).1 with
    | none => simp
    | some ed =>
      by_cases hv : ed.valid = true
      · simp [hv, List.filter_cons]
        ring
      · simp [hv, List.filter_cons]

/-- A read cycle that reaches the array (chain, count and array reference
resolve, clamped count not negative) completes; it publishes the snapshot of
the array loop over the clamped count and its reads are those of the chain,
the count, the array reference and the loop bodies, in this order. -/
theorem DoEntityRead_reaches_array (self : EntityReader) (c : Int)
    (hL : self.FollowChain.1 ≠ 0)
    (hcount : ReadMemoryInt32 self.hProcess
      (wrap64 (self.FollowChain.1 + toU64 self.offsets.listSizeOffset)) = some c)
    (hA : (self.ReadOop
      (wrap64 (self.FollowChain.1 + toU64 self.offsets.listArrayOffset))).1 ≠ 0)
    (hn : 0 ≤ clampCount c self.offsets.maxEntities) :
    ∃ r : CycleResult, self.DoEntityRead = .ok r ∧
      r.reader.entities =
        (List.range (clampCount c self.offsets.maxEntities).toNat).filterMap
          (fun (k : Nat) => (self.readEntity
            (self.ReadOop
              (wrap64 (self.FollowChain.1 + toU64 self.offsets.listArrayOffset))).1
            (if self.oops.compressed then 4 else 8) (k : Int)).1) ∧
      r.reads =
        self.FollowChain.2 ++
          [⟨wrap64 (self.FollowChain.1 + toU64 self.offsets.listSizeOffset), 4⟩] ++
          (self.ReadOop
            (wrap64 (self.FollowChain.1 + toU64 self.offsets.listArrayOffset))).2 ++
          (List.range (clampCount c self.offsets.maxEntities).toNat).flatMap
            (fun (k : Nat) => (self.readEntity
              (self.ReadOop
                (wrap64 (self.FollowChain.1 + toU64 self.offsets.listArrayOffset))).1
              (if self.oops.compressed then 4 else 8) (k : Int)).2) ∧
      r.reader.stringFinds = self.stringFinds ∧
      r.reader.oops = self.oops ∧ r.reader.offsets = self.offsets := by
  unfold EntityReader.DoEntityRead
  simp only [hL, if_false, hcount, hA, not_lt.mpr hn, entityLoop_eq, zero_add,
    List.nil_append]
  exact ⟨_, rfl, rfl, rfl, rfl, rfl, rfl⟩

/-- With a maximum that is not negative the clamp of the code is the clamp of
the specification, and its value lies between 0 and the maximum. -/
theorem clampCount_eq_clampSpec (c maxEntities : Int) (hM : 0 ≤ maxEntities) :
    clampCount c maxEntities = clampSpec c maxEntities ∧
      0 ≤ clampCount c maxEntities ∧ clampCount c maxEntities ≤ maxEntities := by
  unfold clampCount clampSpec
  split_ifs <;> omega

/-- C11. Count clamp. For every raw signed count `c` read from the list and every
configured maximum `M ≥ 0`, a cycle that reaches the array iterates over
exactly `n` slots, where `n` is 0 if `c < 0`, `M` if `c > M` and `c`
otherwise: the clamped count of the code is `n`, and the reads of the cycle
after the array reference are those of the loop bodies of the slots
`0 .. n - 1`, one body per slot. -/
theorem DoEntityRead_count_clamp (self : EntityReader) (c : Int)
    (hM : 0 ≤ self.offsets.maxEntities)
    (hL : self.FollowChain.1 ≠ 0)
    (hcount : ReadMemoryInt32 self.hProcess
      (wrap64 (self.FollowChain.1 + toU64 self.offsets.listSizeOffset)) = some c)
    (hA : (self.ReadOop
      (wrap64 (self.FollowChain.1 + toU64 self.offsets.listArrayOffset))).1 ≠ 0) :
    clampCount c self.offsets.maxEntities = clampSpec c self.offsets.maxEntities ∧
    0 ≤ clampSpec c self.offsets.maxEntities ∧
    clampSpec c self.offsets.maxEntities ≤ self.offsets.maxEntities ∧
    ∃ r : CycleResult, self.DoEntityRead = .ok r ∧
      r.reads =
        self.FollowChain.2 ++
          [⟨wrap64 (self.FollowChain.1 + toU64 self.offsets.listSizeOffset), 4⟩] ++
          (self.ReadOop
            (wrap64 (self.FollowChain.1 + toU64 self.offsets.listArrayOffset))).2 ++
          (List.range (clampSpec c self.offsets.maxEntities).toNat).flatMap
            (fun (k : Nat) => (self.readEntity
              (self.ReadOop
                (wrap64 (self.FollowChain.1 + toU64 self.offsets.listArrayOffset))).1
              (if self.oops.compressed then 4 else 8) (k : Int)).2) := by
  obtain ⟨heq, h0, hle⟩ := clampCount_eq_clampSpec c self.offsets.maxEntities hM
  obtain ⟨r, hr, _, hreads, _⟩ := DoEntityRead_reaches_array self c hL hcount hA h0
  rw [heq] at h0 hle hreads
  exact ⟨heq, h0, hle, r, hr, hreads⟩

/-- Witness of C11: the count `-5` gives no iteration (the reads stop after the
array reference); the count 10000 with maximum 256 gives the 256 loop
bodies of the slots 0 to 255. -/
theorem DoEntityRead_count_clamp_witness :
    (∃ r : CycleResult,
      (arrayReader [0xFB, 0xFF, 0xFF, 0xFF] 256 []).DoEntityRead = .ok r ∧
      r.reads = [⟨0x1000, 8⟩, ⟨0x2020, 4⟩, ⟨0x2024, 4⟩]) ∧
    (∃ r : CycleResult,
      (arrayReader [0x10, 0x27, 0, 0] 256 []).DoEntityRead = .ok r ∧
      r.reads = [⟨0x1000, 8⟩, ⟨0x2020, 4⟩, ⟨0x2024, 4⟩] ++
        (List.range 256).flatMap (fun (k : Nat) =>
          ((arrayReader [0x10, 0x27, 0, 0] 256 []).readEntity 0x80 4 (k : Int)).2)) := by
  constructor
  · obtain ⟨_, _, _, r, hr, hreads⟩ :=
      DoEntityRead_count_clamp (arrayReader [0xFB, 0xFF, 0xFF, 0xFF] 256 []) (-5)
        (by decide) (by decide) (by decide) (by decide)
    exact ⟨r, hr, hreads.trans (by decide)⟩
  · obtain ⟨_, _, _, r, hr, hreads⟩ :=
      DoEntityRead_count_clamp (arrayReader [0x10, 0x27, 0, 0] 256 []) 10000
        (by decide) (by decide) (by decide) (by decide)
    refine ⟨r, hr, hreads.trans ?_⟩
    have h1 : (arrayReader [0x10, 0x27, 0, 0] 256 []).FollowChain = (0x2010, [⟨0x1000, 8⟩]) := by
      decide
    have h2 : (arrayReader [0x10, 0x27, 0, 0] 256 []).ReadOop 0x2024 = (0x80, [⟨0x2024, 4⟩]) := by
      decide
    have h3 : wrap64 (0x2010 + toU64 (arrayReader [0x10, 0x27, 0, 0] 256 []).offsets.listSizeOffset)
        = 0x2020 := by decide
    have h4 : wrap64 (0x2010 + toU64 (arrayReader [0x10, 0x27, 0, 0] 256 []).offsets.listArrayOffset)
        = 0x2024 := by decide
    have h5 : (clampSpec 10000 (arrayReader [0x10, 0x27, 0, 0] 256 []).offsets.maxEntities).toNat
        = 256 := by decide
    have h6 : (arrayReader [0x10, 0x27, 0, 0] 256 []).oops.compressed = true := rfl
    rw [h1]
    simp only [h3, h4, h2, h5, h6, if_true]
    rfl

/-- The scaled magnitude grows strictly with the magnitude bits. -/
theorem scaled_lt (m1 m2 : Nat) (h : m1 < m2) : Double.scaled m1 < Double.scaled m2 := by
  unfold Double.scaled
  have hd1 := Nat.div_add_mod m1 (2 ^ 52)
  have hd2 := Nat.div_add_mod m2 (2 ^ 52)
  have hf1 : m1 % 2 ^ 52 < 2 ^ 52 := Nat.mod_lt _ (by norm_num)
  have hf2 : m2 % 2 ^ 52 < 2 ^ 52 := Nat.mod_lt _ (by norm_num)
  generalize m1 / 2 ^ 52 = e1 at *
  generalize m2 / 2 ^ 52 = e2 at *
  generalize m1 % 2 ^ 52 = f1 at *
  generalize m2 % 2 ^ 52 = f2 at *
  have hle : e1 ≤ e2 := by
    by_contra hc
    have : e2 + 1 ≤ e1 := by omega
    have : 2 ^ 52 * (e2 + 1) ≤ 2 ^ 52 * e1 := Nat.mul_le_mul_left _ this
    omega
  rcases Nat.eq_or_lt_of_le hle with heq | hlt
  · subst heq
    have hf : f1 < f2 := by omega
    by_cases h0 : e1 = 0
    · simp [h0, hf]
    · simp only [h0, if_false]
      exact Nat.mul_lt_mul_of_pos_right (by omega) (Nat.pos_pow_of_pos _ (by norm_num))
  · have h2 : e2 ≠ 0 := by omega
    simp only [h2, if_false]
    have hlow : 2 ^ 52 * 2 ^ (e2 - 1) ≤ (2 ^ 52 + f2) * 2 ^ (e2 - 1) :=
      Nat.mul_le_mul_right _ (by omega)
    by_cases h0 : e1 = 0
    · simp only [h0, if_true]
      have : 1 ≤ 2 ^ (e2 - 1) := Nat.one_le_two_pow
      calc f1 < 2 ^ 52 * 1 := by omega
        _ ≤ 2 ^ 52 * 2 ^ (e2 - 1) := Nat.mul_le_mul_left _ this
        _ ≤ _ := hlow
    · simp only [h0, if_false]
      have hp : 2 ^ (e1 - 1) * 2 ≤ 2 ^ (e2 - 1) := by
        rw [← pow_succ]
        exact Nat.pow_le_pow_right (by norm_num) (by omega)
      calc (2 ^ 52 + f1) * 2 ^ (e1 - 1) < (2 ^ 52 * 2) * 2 ^ (e1 - 1) :=
            Nat.mul_lt_mul_of_pos_right (by omega) (Nat.pos_pow_of_pos _ (by norm_num))
        _ = 2 ^ 52 * (2 ^ (e1 - 1) * 2) := by ring
        _ ≤ 2 ^ 52 * 2 ^ (e2 - 1) := Nat.mul_le_mul_left _ hp
        _ ≤ _ := hlow

/-- The scaled magnitudes compare as the magnitude bits do. -/
theorem scaled_lt_iff (m1 m2 : Nat) : Double.scaled m1 < Double.scaled m2 ↔ m1 < m2 := by
  constructor
  · intro h
    by_contra hc
    rcases Nat.eq_or_lt_of_le (Nat.le_of_not_lt hc) with heq | hlt
    · subst heq; exact absurd h (lt_irrefl _)
    · exact absurd (scaled_lt _ _ hlt) (by omega)
  · exact scaled_lt m1 m2

/-- The magnitude bits 0 stand for the value 0. -/
theorem scaled_zero : Double.scaled 0 = 0 := by decide

/-- The order of the keys used by `Double.lt` is the order of the values. -/
theorem key_lt_iff (a b : Nat) : Double.key a < Double.key b ↔ Double.value a < Double.value b := by
  unfold Double.key Double.value
  have hpos : (0 : ℚ) < 2 ^ 1074 := by positivity
  generalize (2 : ℚ) ^ 1074 = c at hpos ⊢
  generalize a % 2 ^ 64 = x
  generalize b % 2 ^ 64 = y
  have hnn : ∀ n : Nat, (0 : ℚ) ≤ (n : ℚ) / c := fun n => div_nonneg (Nat.cast_nonneg n) hpos.le
  have hpp : ∀ n : Nat, 0 < n → (0 : ℚ) < (n : ℚ) / c :=
    fun n hn => div_pos (Nat.cast_pos.mpr hn) hpos
  have hsc : ∀ m : Nat, 0 < m → 0 < Double.scaled m := by
    intro m hm
    have := scaled_lt 0 m hm
    rwa [scaled_zero] at this
  by_cases hx : x < 2 ^ 63 <;> by_cases hy : y < 2 ^ 63 <;> simp only [hx, hy, if_true, if_false]
  · rw [div_lt_div_iff_of_pos_right hpos, Nat.cast_lt, Nat.cast_lt, scaled_lt_iff]
  · constructor
    · intro h; omega
    · intro h
      have h1 := hnn (Double.scaled x)
      have h2 := hnn (Double.scaled (y - 2 ^ 63))
      linarith
  · by_cases hz : x - 2 ^ 63 = 0 ∧ y = 0
    · rw [hz.1, hz.2]
      simp [scaled_zero]
    · have h1 := hnn (Double.scaled (x - 2 ^ 63))
      have h2 := hnn (Double.scaled y)
      constructor
      · intro _
        rcases Nat.eq_zero_or_pos (x - 2 ^ 63) with h0 | h0
        · have := hpp _ (hsc y (by omega))
          linarith
        · have := hpp _ (hsc _ h0)
          linarith
      · intro _
        omega
  · rw [neg_lt_neg_iff, neg_lt_neg_iff, div_lt_div_iff_of_pos_right hpos, Nat.cast_lt,
      Nat.cast_lt, scaled_lt_iff]

/-- The comparison `Double.lt` holds exactly when neither side is a NaN and the
value of the left side is below the value of the right side. -/
theorem Double_lt_iff (a b : Nat) :
    Double.lt a b = true ↔
      Double.isNaN a = false ∧ Double.isNaN b = false ∧ Double.value a < Double.value b := by
  unfold Double.lt
  simp only [Bool.and_eq_true, Bool.not_eq_true', decide_eq_true_eq, key_lt_iff, and_assoc]

/-- The constant `dbl_3e7` is the double 30000000. -/
theorem value_dbl_3e7 : Double.value dbl_3e7 = 30000000 := by
  unfold Double.value dbl_3e7 Double.scaled
  norm_num

/-- The constant `dbl_neg3e7` is the double -30000000. -/
theorem value_dbl_neg3e7 : Double.value dbl_neg3e7 = -30000000 := by
  unfold Double.value dbl_neg3e7 Double.scaled
  norm_num

/-- The constant `dbl_1000` is the double 1000. -/
theorem value_dbl_1000 : Double.value dbl_1000 = 1000 := by
  unfold Double.value dbl_1000 Double.scaled
  norm_num

/-- The constant `dbl_neg1000` is the double -1000. -/
theorem value_dbl_neg1000 : Double.value dbl_neg1000 = -1000 := by
  unfold Double.value dbl_neg1000 Double.scaled
  norm_num

/-- A finite double is not a NaN. -/
theorem isNaN_of_isFinite (x : Nat) (h : Double.isFinite x = true) : Double.isNaN x = false := by
  unfold Double.isFinite at h
  unfold Double.isNaN
  simp only [bne_iff_ne, ne_eq] at h
  rw [Bool.and_eq_false_iff]
  left
  exact beq_eq_false_iff_ne.mpr h

/-- A double that is neither finite nor a NaN is an infinity: the value formula
gives it the magnitude `2 ^ 1024`, above every finite double. -/
theorem value_of_not_finite (x : Nat) (hf : Double.isFinite x = false)
    (hn : Double.isNaN x = false) :
    Double.value x = 2 ^ 1024 ∨ Double.value x = -2 ^ 1024 := by
  unfold Double.isFinite at hf
  unfold Double.isNaN at hn
  simp only [bne_eq_false_iff_eq] at hf
  simp only [hf, beq_self_eq_true, Bool.true_and, bne_eq_false_iff_eq] at hn
  have hw : x % 2 ^ 64 = 0x7FF0000000000000 ∨ x % 2 ^ 64 = 0xFFF0000000000000 := by
    have a1 : (x % 2 ^ 64) / 2 ^ 52 % 2 ^ 11 = 2047 := by
      rw [show (2 : Nat) ^ 64 = 2 ^ 52 * 2 ^ 12 by norm_num, Nat.mod_mul_right_div_self,
        Nat.mod_mod_of_dvd _ (by norm_num : (2 : Nat) ^ 11 ∣ 2 ^ 12)]
      exact hf
    have a2 : (x % 2 ^ 64) % 2 ^ 52 = 0 := by
      rw [Nat.mod_mod_of_dvd _ (by norm_num : (2 : Nat) ^ 52 ∣ 2 ^ 64)]
      exact hn
    have a3 : x % 2 ^ 64 < 2 ^ 64 := Nat.mod_lt _ (by norm_num)
    generalize x % 2 ^ 64 = w at a1 a2 a3
    have a4 : w / 2 ^ 52 < 4096 := by omega
    have a5 := Nat.div_add_mod w (2 ^ 52)
    generalize w / 2 ^ 52 = q at a1 a4 a5
    have a6 : q = 2047 ∨ q = 4095 := by omega
    omega
  unfold Double.value
  rcases hw with h | h
  · left
    rw [h]
    unfold Double.scaled
    norm_num
  · right
    rw [h]
    unfold Double.scaled
    norm_num

/-- Strictly between two finite bounds `-B` and `B`, in the comparison of the
code, means finite with a value strictly between them. -/
theorem within_iff (lo hi x : Nat) (B : ℚ) (hlo : Double.value lo = -B) (hhi : Double.value hi = B)
    (hB : B < 2 ^ 1024) (hnlo : Double.isNaN lo = false) (hnhi : Double.isNaN hi = false) :
    (Double.lt lo x && Double.lt x hi) = true ↔
      Double.isFinite x = true ∧ -B < Double.value x ∧ Double.value x < B := by
  rw [Bool.and_eq_true, Double_lt_iff, Double_lt_iff, hlo, hhi]
  constructor
  · rintro ⟨⟨_, hnx, h1⟩, _, _, h2⟩
    refine ⟨?_, h1, h2⟩
    by_contra hfin
    rw [Bool.not_eq_true] at hfin
    rcases value_of_not_finite x hfin hnx with h | h
    · rw [h] at h2; linarith
    · rw [h] at h1; linarith
  · rintro ⟨hfin, h1, h2⟩
    exact ⟨⟨hnlo, isNaN_of_isFinite x hfin, h1⟩, isNaN_of_isFinite x hfin, hnhi, h2⟩

/-- The plausibility test of `DoEntityRead` holds exactly when the three values
are finite, x and z strictly between -30000000 and 30000000 and y strictly
between -1000 and 1000. -/
theorem positionInBounds_iff (x y z : Nat) :
    positionInBounds x y z = true ↔
      (Double.isFinite x = true ∧ -30000000 < Double.value x ∧ Double.value x < 30000000) ∧
      (Double.isFinite y = true ∧ -1000 < Double.value y ∧ Double.value y < 1000) ∧
      (Double.isFinite z = true ∧ -30000000 < Double.value z ∧ Double.value z < 30000000) := by
  have hB1 : (30000000 : ℚ) < 2 ^ 1024 := by norm_num
  have hB2 : (1000 : ℚ) < 2 ^ 1024 := by norm_num
  have hx := within_iff dbl_neg3e7 dbl_3e7 x 30000000 value_dbl_neg3e7 value_dbl_3e7 hB1
    (by decide) (by decide)
  have hy := within_iff dbl_neg1000 dbl_1000 y 1000 value_dbl_neg1000 value_dbl_1000 hB2
    (by decide) (by decide)
  have hz := within_iff dbl_neg3e7 dbl_3e7 z 30000000 value_dbl_neg3e7 value_dbl_3e7 hB1
    (by decide) (by decide)
  unfold positionInBounds
  rw [← hx, ← hy, ← hz]
  simp only [Bool.and_eq_true, and_assoc]

/-- The record of a loop body: the entity address is not null, the record is
valid exactly when the three position reads succeed with values that pass
the plausibility test, and when the three reads succeed their values are
stored. -/
theorem readEntity_position (self : EntityReader) (arrayRef : Nat) (refSize i : Int)
    (ed : EntityData) (h : (self.readEntity arrayRef refSize i).1 = some ed) :
    (self.ReadOop (wrap64 (arrayRef + toU64 self.offsets.arrayDataOffset +
        toU64 (mulInt32 i refSize)))).1 ≠ 0 ∧
    (ed.valid = true ↔ ∃ x y z,
      self.readPosition (self.ReadOop (wrap64 (arrayRef + toU64 self.offsets.arrayDataOffset +
        toU64 (mulInt32 i refSize)))).1 = (some x, some y, some z) ∧
      positionInBounds x y z = true) ∧
    ∀ x y z,
      self.readPosition (self.ReadOop (wrap64 (arrayRef + toU64 self.offsets.arrayDataOffset +
        toU64 (mulInt32 i refSize)))).1 = (some x, some y, some z) →
      ed.posX = x ∧ ed.posY = y ∧ ed.posZ = z := by
  unfold EntityReader.readEntity at h
  unfold EntityReader.readPosition
  simp only at h
  generalize (self.ReadOop (wrap64 (arrayRef + toU64 self.offsets.arrayDataOffset +
        toU64 (mulInt32 i refSize)))).1 = A at h ⊢
  by_cases hA : A = 0
  · simp [hA] at h
  · refine ⟨hA, ?_⟩
    simp only [hA, if_false] at h
    generalize ReadMemory 8 self.hProcess (wrap64 (A + toU64 self.offsets.posXOffset)) = px at h ⊢
    generalize ReadMemory 8 self.hProcess (wrap64 (A + toU64 self.offsets.posYOffset)) = py at h ⊢
    generalize ReadMemory 8 self.hProcess (wrap64 (A + toU64 self.offsets.posZOffset)) = pz at h ⊢
    split_ifs at h <;>
    · simp only [Option.some.injEq] at h
      subst h
      rcases px with _ | x <;> rcases py with _ | y <;> rcases pz with _ | z <;> simp
      all_goals
        constructor
        · intro hb; exact ⟨x, y, z, ⟨rfl, rfl, rfl⟩, hb⟩
        · rintro ⟨x', y', z', ⟨rfl, rfl, rfl⟩, hb⟩; exact hb

/-- Every record of a list published by `DoEntityRead` was built by the loop body
of some slot. -/
theorem DoEntityRead_entities_from_body (self : EntityReader) (r : CycleResult)
    (ed : EntityData) (hr : self.DoEntityRead = .ok r) (hed : ed ∈ r.reader.entities) :
    ∃ k : Nat, (self.readEntity
      (self.ReadOop (wrap64 (self.FollowChain.1 + toU64 self.offsets.listArrayOffset))).1
      (if self.oops.compressed then 4 else 8) (k : Int)).1 = some ed := by
  unfold EntityReader.DoEntityRead at hr
  simp only at hr
  by_cases hL : self.FollowChain.1 = 0
  · simp only [hL, if_true, Except.ok.injEq] at hr
    rw [← hr] at hed
    cases hed
  · simp only [hL, if_false] at hr
    cases hc : ReadMemoryInt32 self.hProcess
        (wrap64 (self.FollowChain.1 + toU64 self.offsets.listSizeOffset)) with
    | none =>
      simp only [hc, Except.ok.injEq] at hr
      rw [← hr] at hed
      cases hed
    | some c =>
      simp only [hc] at hr
      by_cases hA : (self.ReadOop
          (wrap64 (self.FollowChain.1 + toU64 self.offsets.listArrayOffset))).1 = 0
      · simp only [hA, if_true, Except.ok.injEq] at hr
        rw [← hr] at hed
        cases hed
      · simp only [hA, if_false] at hr
        by_cases hn : clampCount c self.offsets.maxEntities < 0
        · simp only [hn, if_true] at hr
          cases hr
        · simp only [hn, if_false, Except.ok.injEq, entityLoop_eq, zero_add,
            List.nil_append] at hr
          rw [← hr] at hed
          simp only [List.mem_filterMap] at hed
          obtain ⟨k, _, hk⟩ := hed
          exact ⟨k, hk⟩

/-- C13. Entity validity. Every record of a list published by `DoEntityRead` is the
record of an array slot whose element decodes to a non-null entity address
`A`, and for it: `valid` is true if and only if the three position reads at
`A` succeed and the three values are finite, x and z strictly between
-3×10^7 and 3×10^7 and y strictly between -1000 and 1000; whenever the three
reads succeed the values read are stored in `posX`, `posY`, `posZ`, in
bounds or not. (The record is published in either case: it is in the list.) -/
theorem DoEntityRead_validity (self : EntityReader) (r : CycleResult) (ed : EntityData)
    (hr : self.DoEntityRead = .ok r) (hed : ed ∈ r.reader.entities) :
    ∃ A : Nat, A ≠ 0 ∧
      (∃ k : Nat, A = (self.ReadOop (self.elemAddr
        (self.ReadOop (wrap64 (self.FollowChain.1 + toU64 self.offsets.listArrayOffset))).1
        (k : Int))).1) ∧
      (ed.valid = true ↔ ∃ x y z, self.readPosition A = (some x, some y, some z) ∧
        (Double.isFinite x = true ∧ -30000000 < Double.value x ∧
          Double.value x < 30000000) ∧
        (Double.isFinite y = true ∧ -1000 < Double.value y ∧ Double.value y < 1000) ∧
        (Double.isFinite z = true ∧ -30000000 < Double.value z ∧
          Double.value z < 30000000)) ∧
      ∀ x y z, self.readPosition A = (some x, some y, some z) →
        ed.posX = x ∧ ed.posY = y ∧ ed.posZ = z := by
  obtain ⟨k, hk⟩ := DoEntityRead_entities_from_body self r ed hr hed
  obtain ⟨hA, hvalid, hstore⟩ := readEntity_position self _ _ _ ed hk
  refine ⟨_, hA, ⟨k, rfl⟩, ?_, hstore⟩
  rw [hvalid]
  simp only [positionInBounds_iff]

/-- Witness of C13: in the sample heap the entity at (100.5, 64.0, -200.25) is
published valid with exactly these coordinates, and the entity with
y = 5000 is published with its coordinates and `valid = false`. -/
theorem DoEntityRead_validity_witness :
    ∃ r : CycleResult, (arrayReader [3, 0, 0, 0] 256 sampleHeap).DoEntityRead = .ok r ∧
      r.reader.entities =
        [{ index := 0, posX := 0x4059200000000000, posY := 0x4050000000000000,
           posZ := 0xC069080000000000, valid := true },
         { index := 1, posX := 0x4059200000000000, posY := 0x40B3880000000000,
           posZ := 0xC069080000000000, valid := false },
         { index := 2 }] ∧
      Double.value 0x4059200000000000 = 201 / 2 ∧ Double.value 0x4050000000000000 = 64 ∧
      Double.value 0xC069080000000000 = -801 / 4 ∧ Double.value 0x40B3880000000000 = 5000 ∧
      ∃ A : Nat, A ≠ 0 ∧
        (∃ k : Nat, A = ((arrayReader [3, 0, 0, 0] 256 sampleHeap).ReadOop
          ((arrayReader [3, 0, 0, 0] 256 sampleHeap).elemAddr
            ((arrayReader [3, 0, 0, 0] 256 sampleHeap).ReadOop
              (wrap64 ((arrayReader [3, 0, 0, 0] 256 sampleHeap).FollowChain.1 +
                toU64 (arrayReader [3, 0, 0, 0] 256 sampleHeap).offsets.listArrayOffset))).1
            (k : Int))).1) ∧
        ((false = true) ↔ ∃ x y z,
          (arrayReader [3, 0, 0, 0] 256 sampleHeap).readPosition A = (some x, some y, some z) ∧
          (Double.isFinite x = true ∧ -30000000 < Double.value x ∧
            Double.value x < 30000000) ∧
          (Double.isFinite y = true ∧ -1000 < Double.value y ∧ Double.value y < 1000) ∧
          (Double.isFinite z = true ∧ -30000000 < Double.value z ∧
            Double.value z < 30000000)) := by
  obtain ⟨r, hr, hent, _⟩ :=
    DoEntityRead_reaches_array (arrayReader [3, 0, 0, 0] 256 sampleHeap) 3
      (by decide) (by decide) (by decide) (by decide)
  have hlist : r.reader.entities =
      [{ index := 0, posX := 0x4059200000000000, posY := 0x4050000000000000,
         posZ := 0xC069080000000000, valid := true },
       { index := 1, posX := 0x4059200000000000, posY := 0x40B3880000000000,
         posZ := 0xC069080000000000, valid := false },
       { index := 2 }] := hent.trans (by decide)
  obtain ⟨A, hA, hk, hvalid, _⟩ :=
    DoEntityRead_validity (arrayReader [3, 0, 0, 0] 256 sampleHeap) r
      { index := 1, posX := 0x4059200000000000, posY := 0x40B3880000000000,
        posZ := 0xC069080000000000, valid := false } hr (by rw [hlist]; decide)
  refine ⟨r, hr, hlist, ?_, ?_, ?_, ?_, A, hA, hk, hvalid⟩ <;>
    (unfold Double.value Double.scaled; norm_num)

/-! ## Properties of the displacement resolution -/

/-- A `uintptr_t` sum of an address and two sign-extended `int`s is their
integer sum modulo `2 ^ 64`. -/
theorem wrap64_add_toU64 (A : Nat) (L d : Int) :
    ((wrap64 (A + toU64 L + toU64 d) : Nat) : Int) = ((A : Int) + L + d) % 2 ^ 64 := by
  unfold wrap64 toU64
  have hL : (0 : Int) ≤ L % 18446744073709551616 := Int.emod_nonneg _ (by norm_num)
  have hd : (0 : Int) ≤ d % 18446744073709551616 := Int.emod_nonneg _ (by norm_num)
  push_cast
  rw [Int.toNat_of_nonneg hL, Int.toNat_of_nonneg hd]
  omega

/-- C14. `ResolveRIP`: when the 4-byte read at `A + dispOffset` succeeds with the
signed 32-bit value `d`, the result is `A + L + d` in 64-bit arithmetic (`L`
and `d` sign-extended, modulo `2 ^ 64`); so, when the sum does not leave the
address range, a negative displacement yields an address below `A + L`.
When the read fails or returns fewer than 4 bytes the result is 0. -/
theorem ResolveRIP_spec (process : HANDLE) (A : Nat) (dispOffset L : Int) :
    (∀ d : Int, ReadMemoryInt32 process (wrap64 (A + toU64 dispOffset)) = some d →
      ((ResolveRIP process A dispOffset L : Nat) : Int) = ((A : Int) + L + d) % 2 ^ 64 ∧
      (d < 0 → 0 ≤ (A : Int) + L + d → (A : Int) + L < 2 ^ 64 →
        ((ResolveRIP process A dispOffset L : Nat) : Int) = (A : Int) + L + d ∧
        ((ResolveRIP process A dispOffset L : Nat) : Int) < (A : Int) + L)) ∧
    (ReadMemoryInt32 process (wrap64 (A + toU64 dispOffset)) = none →
      ResolveRIP process A dispOffset L = 0) ∧
    ((process.ReadProcessMemory (wrap64 (A + toU64 dispOffset)) 4).ok = false ∨
      (process.ReadProcessMemory (wrap64 (A + toU64 dispOffset)) 4).data.length < 4 →
      ResolveRIP process A dispOffset L = 0) := by
  refine ⟨?_, ?_, ?_⟩
  · intro d hd
    unfold ReadMemoryInt32 ReadMemory at hd
    have hres : ((ResolveRIP process A dispOffset L : Nat) : Int) =
        ((A : Int) + L + d) % 2 ^ 64 := by
      unfold ResolveRIP
      simp only at hd ⊢
      by_cases hc : ((process.ReadProcessMemory (wrap64 (A + toU64 dispOffset)) 4).ok &&
          (process.ReadProcessMemory (wrap64 (A + toU64 dispOffset)) 4).data.length == 4) = true
      · simp only [hc, if_true, Option.map_some', Option.some.injEq] at hd
        simp only [Bool.and_eq_true, beq_iff_eq] at hc
        simp only [hc.1, hc.2, Bool.not_true, bne_self_eq_false, Bool.or_self,
          Bool.false_eq_true, if_false]
        rw [hd]
        exact wrap64_add_toU64 A L d
      · simp [hc] at hd
    refine ⟨hres, ?_⟩
    intro hneg h0 hlt
    rw [hres]
    have : ((A : Int) + L + d) % 2 ^ 64 = (A : Int) + L + d :=
      Int.emod_eq_of_lt h0 (by omega)
    rw [this]
    exact ⟨rfl, by omega⟩
  · intro hnone
    unfold ReadMemoryInt32 ReadMemory at hnone
    unfold ResolveRIP
    simp only at hnone ⊢
    by_cases hc : ((process.ReadProcessMemory (wrap64 (A + toU64 dispOffset)) 4).ok &&
        (process.ReadProcessMemory (wrap64 (A + toU64 dispOffset)) 4).data.length == 4) = true
    · simp [hc] at hnone
    · simp only [Bool.and_eq_true, beq_iff_eq, not_and] at hc
      by_cases hok : (process.ReadProcessMemory (wrap64 (A + toU64 dispOffset)) 4).ok = true
      · simp [hok, hc hok]
      · simp [hok]
  · intro h
    unfold ResolveRIP
    rcases h with h | h
    · simp [h]
    · have : (process.ReadProcessMemory (wrap64 (A + toU64 dispOffset)) 4).data.length ≠ 4 := by
        omega
      simp [this]

/-- Witness of C14: the instruction `48 8B 05 E0 FF FF FF` at `0x1000` (displacement
`-0x20` at offset 3, length 7) resolves to `0xFE7`, below `0x1007`; where
nothing is readable the result is 0. -/
theorem ResolveRIP_spec_witness :
    ResolveRIP (HANDLE.ofImage [(0x1000, [0x48, 0x8B, 0x05, 0xE0, 0xFF, 0xFF, 0xFF])])
      0x1000 3 7 = 0xFE7 ∧
    ResolveRIP (HANDLE.ofImage [(0x1000, [0x48, 0x8B, 0x05, 0xE0, 0xFF, 0xFF])])
      0x1000 3 7 = 0 := by
  have h := ResolveRIP_spec (HANDLE.ofImage [(0x1000, [0x48, 0x8B, 0x05, 0xE0, 0xFF, 0xFF, 0xFF])])
    0x1000 3 7
  have h1 := (h.1 (-0x20) (by decide)).2 (by decide) (by decide) (by decide)
  have h' := ResolveRIP_spec (HANDLE.ofImage [(0x1000, [0x48, 0x8B, 0x05, 0xE0, 0xFF, 0xFF])])
    0x1000 3 7
  refine ⟨?_, h'.2.1 (by decide)⟩
  have h2 := h1.1
  omega

/-! ## Properties of the region scan -/

/-- The matches of `ScanBuffer` are appended to the results already there. -/
theorem ScanBuffer_append (buf : List Byte) (baseAddr : Nat) (pat : ParsedPattern)
    (results : List Nat) :
    ScanBuffer buf baseAddr pat results = results ++ ScanBuffer buf baseAddr pat [] := by
  rw [ScanBuffer_eq, ScanBuffer_eq]
  split_ifs <;> simp

/-- The region loop over consecutive regions: with one unit of fuel per region
it completes and appends the contributions of the regions before the first
failed query. -/
theorem PatternScan_loop_laidOut (process : HANDLE) (pattern : ParsedPattern) :
    ∀ (regions : List Region) (fuel addr : Nat) (results : List Nat),
      process.laidOut addr regions → regions.length ≤ fuel →
      PatternScan.loop process pattern process.lpMaximumApplicationAddress fuel addr results =
        some (results ++ PatternScan.upToFailedQuery pattern addr regions) := by
  intro regions
  induction regions with
  | nil =>
    intro fuel addr results hlay _
    have hge : ¬ addr < process.lpMaximumApplicationAddress := Nat.not_lt.mpr hlay
    cases fuel <;> simp [PatternScan.loop, hge, PatternScan.upToFailedQuery]
  | cons r rest ih =>
    intro fuel addr results hlay hfuel
    obtain ⟨hlt, hno, hq, hread, hrest⟩ := hlay
    cases fuel with
    | zero => simp at hfuel
    | succ fuel =>
      have hf : rest.length ≤ fuel := by simpa using hfuel
      rw [PatternScan.loop]
      simp only [hlt, if_true, hq]
      cases hquery : r.query with
      | none => simp [PatternScan.upToFailedQuery, hquery]
      | some q =>
        have hw : wrap64 (addr + r.size) = addr + r.size := by
          unfold wrap64
          exact Nat.mod_eq_of_lt hno
        simp only [Option.map_some', hread, hw]
        rw [ih fuel (addr + r.size) _ hrest hf]
        simp only [PatternScan.upToFailedQuery, hquery, Region.matches]
        by_cases hs : scannable ⟨q.1, q.2, r.size⟩ = true
        · by_cases hr : (r.read.ok && decide (r.read.data.length > 0)) = true
          · simp only [hs, hr, if_true, Bool.and_self]
            rw [ScanBuffer_append]
            simp
          · simp [hs, hr]
        · simp [hs]

/-- When no query fails the scan up to the first failed query is the reference
scan. -/
theorem upToFailedQuery_eq_reference (pattern : ParsedPattern) :
    ∀ (regions : List Region) (addr : Nat), (∀ r, r ∈ regions → r.query ≠ none) →
      PatternScan.upToFailedQuery pattern addr regions =
        PatternScan.reference pattern addr regions := by
  intro regions
  induction regions with
  | nil => intro addr _; rfl
  | cons r rest ih =>
    intro addr h
    have hr := h r (List.mem_cons_self r rest)
    have ihr := ih (addr + r.size) (fun x hx => h x (List.mem_cons_of_mem r hx))
    cases hq : r.query with
    | none => exact absurd hq hr
    | some q => simp [PatternScan.upToFailedQuery, PatternScan.reference, hq, ihr]

/-- Counterexample to C15 as stated: the query of the first region fails and the
second region holds the byte 2 at `0x11001`. The reference scan reports
`0x11001`; `PatternScan` leaves its loop at the failed query and reports
nothing. -/
theorem PatternScan_stops_at_failed_query :
    (HANDLE.ofRegions 0x10000 0x12000 failedQueryRegions).laidOut 0x10000 failedQueryRegions ∧
    PatternScan.reference ⟨[2], [true]⟩ 0x10000 failedQueryRegions = [0x11001] ∧
    PatternScan 8 (HANDLE.ofRegions 0x10000 0x12000 failedQueryRegions) ⟨[2], [true]⟩ =
      some [] ∧
    PatternScan 8 (HANDLE.ofRegions 0x10000 0x12000 failedQueryRegions) ⟨[2], [true]⟩ ≠
      some (PatternScan.reference ⟨[2], [true]⟩ 0x10000 failedQueryRegions) := by
  decide

/-- C15, amended. For every non-empty pattern and every model of the primitives that
presents the address space as consecutive regions from the minimum to the
maximum application address, `PatternScan` (with at least one unit of fuel
per region) returns the concatenation, in ascending order, of the `ScanBuffer`
matches in the bytes read from each region that is committed, has one of
the six readable protections and is read successfully, taken over the
regions before the first one whose query fails. A failed read skips only its
region; a failed query ends the scan. When no query fails this is the
reference definition of the claim. -/
theorem PatternScan_eq_upToFailedQuery (fuel : Nat) (process : HANDLE)
    (pattern : ParsedPattern) (regions : List Region) (hne : pattern.bytes ≠ [])
    (hlay : process.laidOut process.lpMinimumApplicationAddress regions)
    (hfuel : regions.length ≤ fuel) :
    PatternScan fuel process pattern =
      some (PatternScan.upToFailedQuery pattern process.lpMinimumApplicationAddress regions) ∧
    ((∀ r, r ∈ regions → r.query ≠ none) →
      PatternScan fuel process pattern =
        some (PatternScan.reference pattern process.lpMinimumApplicationAddress regions)) := by
  have hscan : PatternScan fuel process pattern =
      some (PatternScan.upToFailedQuery pattern process.lpMinimumApplicationAddress regions) := by
    unfold PatternScan
    have hemp : pattern.bytes.isEmpty = false := by
      cases hb : pattern.bytes with
      | nil => exact absurd hb hne
      | cons b bs => rfl
    simp only [hemp, Bool.false_eq_true, if_false]
    rw [PatternScan_loop_laidOut process pattern regions fuel _ [] hlay hfuel]
    simp
  refine ⟨hscan, fun hall => ?_⟩
  rw [hscan, upToFailedQuery_eq_reference pattern regions _ hall]

/-- Witness of C15, amended: three regions, the read of the second fails; the byte 2
is found at `0x10001` in the first region and at `0x12000`, `0x12001` in the
third. -/
theorem PatternScan_eq_upToFailedQuery_witness :
    PatternScan 8 (HANDLE.ofRegions 0x10000 0x13000 failedReadRegions) ⟨[2], [true]⟩ =
      some [0x10001, 0x12000, 0x12001] ∧
    PatternScan.reference ⟨[2], [true]⟩ 0x10000 failedReadRegions =
      [0x10001, 0x12000, 0x12001] :=
  have h := PatternScan_eq_upToFailedQuery 8 (HANDLE.ofRegions 0x10000 0x13000 failedReadRegions)
    ⟨[2], [true]⟩ failedReadRegions (by decide) (by decide) (by decide)
  ⟨(h.2 (by decide)).trans (by decide), by decide⟩

/-! ## Properties of the string-scan patterns -/

/-- The digit printed for a value below 16 is a hexadecimal digit of that value,
and it is neither white space nor a question mark. -/
theorem hexUpperDigit_spec (n : Nat) (hn : n < 16) :
    hexDigit (hexUpperDigit n) = some n ∧ isspace (hexUpperDigit n) = false ∧
      hexUpperDigit n ≠ '?' := by
  interval_cases n <;> decide

/-- The tokens of the text built for a signature without NUL byte are the
two-digit texts of its bytes. -/
theorem istreamTokens_signaturePatStr :
    ∀ s : List Byte, (∀ b, b ∈ s → b ≠ 0) →
      istreamTokens (signaturePatStr s) =
        s.map (fun b => [hexUpperDigit (b.val / 16), hexUpperDigit (b.val % 16)]) := by
  intro s
  induction s with
  | nil => intro _; rfl
  | cons b rest ih =>
    intro h
    have hb : b ≠ 0 := h b (List.mem_cons_self b rest)
    have ihr := ih (fun x hx => h x (List.mem_cons_of_mem b hx))
    have h1 := hexUpperDigit_spec (b.val / 16) (by omega)
    have h2 := hexUpperDigit_spec (b.val % 16) (by omega)
    have hstr : signaturePatStr (b :: rest) =
        [hexUpperDigit (b.val / 16), hexUpperDigit (b.val % 16)] ++
          ' ' :: signaturePatStr rest := by
      simp [signaturePatStr, hb, fmt02X]
    rw [hstr, istreamTokens_token _ ' ' _ (by simp) _ (by decide), ihr]
    · rfl
    · intro c hc
      simp only [List.mem_cons, List.mem_singleton, List.not_mem_nil, or_false] at hc
      rcases hc with rfl | rfl
      · exact h1.2.1
      · exact h2.2.1

/-- The two-digit text of a byte is an accepted token that stands for an exact
position holding that byte. -/
theorem token_of_byte (b : Byte) :
    acceptedToken [hexUpperDigit (b.val / 16), hexUpperDigit (b.val % 16)] ∧
    tokenByte [hexUpperDigit (b.val / 16), hexUpperDigit (b.val % 16)] = b ∧
    tokenMask [hexUpperDigit (b.val / 16), hexUpperDigit (b.val % 16)] = true := by
  have h1 := hexUpperDigit_spec (b.val / 16) (by omega)
  have h2 := hexUpperDigit_spec (b.val % 16) (by omega)
  have hv := stoul16_hexPair _ _ _ _ h1.1 h2.1
  have hw : ¬ ([hexUpperDigit (b.val / 16), hexUpperDigit (b.val % 16)] = ['?'] ∨
      [hexUpperDigit (b.val / 16), hexUpperDigit (b.val % 16)] = ['?', '?']) := by
    simp [h1.2.2]
  refine ⟨?_, ?_, ?_⟩
  · right; right
    rw [hv]
    rfl
  · simp only [tokenByte, if_neg hw, hv]
    apply Fin.ext
    simp only [Fin.ofNat, Fin.val_mk]
    omega
  · simp only [tokenMask, if_neg hw]

/-- C16. String-scan patterns are exact: for every byte string `s` without NUL
byte, the text made of each byte as two upper-case hexadecimal digits
followed by a space is parsed by `ParsePattern` (without raising) into a
pattern with one position per byte: the bytes are those of `s`, in order,
and every mask entry is true. -/
theorem signaturePattern_exact (s : List Byte) (hs : ∀ b, b ∈ s → b ≠ 0) :
    signaturePattern s = .ok ⟨s, s.map (fun _ => true)⟩ ∧
    ∃ p : ParsedPattern, signaturePattern s = .ok p ∧ p.bytes = s ∧
      p.bytes.length = s.length ∧ p.mask.length = s.length ∧
      ∀ m, m ∈ p.mask → m = true := by
  have h : signaturePattern s = .ok ⟨s, s.map (fun _ => true)⟩ := by
    unfold signaturePattern ParsePattern
    have htok : (String.mk (signaturePatStr s)).toList = signaturePatStr s := rfl
    rw [htok, istreamTokens_signaturePatStr s hs, parseLoop_accepted]
    · simp only [List.nil_append, List.map_map, Except.ok.injEq, ParsedPattern.mk.injEq]
      constructor
      · conv_rhs => rw [← List.map_id s]
        apply List.map_congr_left
        intro b _
        exact (token_of_byte b).2.1
      · apply List.map_congr_left
        intro b _
        exact (token_of_byte b).2.2
    · intro t ht
      obtain ⟨b, _, rfl⟩ := List.mem_map.mp ht
      exact (token_of_byte b).1
  refine ⟨h, _, h, rfl, rfl, by simp, ?_⟩
  intro m hm
  simp only [List.mem_map] at hm
  obtain ⟨_, _, rfl⟩ := hm
  rfl

set_option maxRecDepth 8000 in
/-- Witness of C16: each of the eight class-name signatures gives the pattern of
its own bytes with no wild card; the first has 36 positions. -/
theorem signaturePattern_exact_witness :
    (∀ sig, sig ∈ kClassSignatures →
      signaturePattern (asciiBytes sig) =
        .ok ⟨asciiBytes sig, (asciiBytes sig).map (fun _ => true)⟩) ∧
    (asciiBytes "net/minecraft/client/MinecraftClient").length = 36 :=
  ⟨fun sig hsig => (signaturePattern_exact (asciiBytes sig)
      ((by decide : ∀ sig, sig ∈ kClassSignatures → ∀ b, b ∈ asciiBytes sig → b ≠ 0)
        sig hsig)).1,
   by decide⟩

/-! ## Properties of the lifecycle -/

/-- C17. Lifecycle on the explicit state of the reader. `Start` on a reader that
is already running returns it unchanged: `running` stays true, the process
handle keeps its earlier value and no worker is created. `Stop` returns from
every state, also from the initial one before any `Start` (which it leaves as
it is), and always leaves the reader not running with no worker attached. -/
theorem Start_Stop_lifecycle :
    (∀ (self : EntityReader) (process : HANDLE), self.running = true →
      self.Start process = some self) ∧
    (∀ self : EntityReader, self.Stop.running = false ∧ self.Stop.workerJoinable = false) ∧
    EntityReader.Stop {} = {} := by
  refine ⟨?_, ?_, rfl⟩
  · intro self process h
    simp [EntityReader.Start, h]
  · intro self
    unfold EntityReader.Stop
    split_ifs <;> exact ⟨rfl, by simp_all⟩

/-- Witness of C17: a second `Start`, with the null handle, on a running reader
leaves the reader as it is, handle included; `Stop` then leaves it not
running. -/
theorem Start_Stop_lifecycle_witness :
    runningReader.Start HANDLE.null = some runningReader ∧
    runningReader.Stop.running = false ∧ runningReader.Stop.workerJoinable = false ∧
    (EntityReader.Stop {}).running = false :=
  ⟨Start_Stop_lifecycle.1 runningReader HANDLE.null rfl,
   (Start_Stop_lifecycle.2.1 runningReader).1, (Start_Stop_lifecycle.2.1 runningReader).2,
   (Start_Stop_lifecycle.2.1 {}).1⟩

/-! ## Properties of the projection -/

/-- The product matrix of `Multiply a b` transforms a vector by `a` first and by
`b` second (`Mul` treats its vector as a row). -/
theorem Mul_Multiply {K : Type} [Field K] (a b : Mat4 K) (v : Vec4 K) :
    Mul (Multiply a b) v = Mul b (Mul a v) := by
  simp only [Mul, Multiply, Vec4.mk.injEq]
  refine ⟨?_, ?_, ?_, ?_⟩ <;> ring

/-- The `w` that `WorldToScreen` tests, for the matrix `DrawEntityESP` builds: it
is the negated world `z` of the point, whatever the camera pose, the field
of view and the screen size. -/
theorem viewProj_clip_w {K : Type} [LinearOrderedField K] (lm : Libm K) (cfg : EspConfig K)
    (screenW screenH : K) (world : Vec3 K) :
    (Mul (DrawEntityESP.viewProj lm cfg screenW screenH)
      ⟨world.x, world.y, world.z, 1⟩).w = -world.z := by
  unfold DrawEntityESP.viewProj
  simp only [Mul_Multiply]
  simp [Mul, BuildViewMatrix, Mat4.LookAt, Mat4.PerspectiveFov]

/-- With the matrix `DrawEntityESP` builds, `WorldToScreen` returns false exactly
for the points whose world `z` is at least `-0.001f`. -/
theorem WorldToScreen_viewProj {K : Type} [LinearOrderedField K] (lm : Libm K)
    (cfg : EspConfig K) (screenW screenH : K) (world : Vec3 K) :
    WorldToScreen world (DrawEntityESP.viewProj lm cfg screenW screenH) screenW screenH = none ↔
      -world.z ≤ FLT_0_001 K := by
  unfold WorldToScreen
  simp only [viewProj_clip_w]
  by_cases h : -world.z ≤ FLT_0_001 K
  · simp only [h, if_true]
  · simp only [h, if_false, iff_false]
    exact fun hc => Option.noConfusion hc

/-- C18, the code at a failing input. Camera at `(0, 0, -20)` with yaw 0 and pitch 0
(forward `(0, 0, -1)`), the other settings at their defaults, screen 800 by
600, world point `(0, 0, -10)`: the offset `(0, 0, 10)` of the point has the dot
product `-10` with the forward vector, the point is behind the camera, and
`WorldToScreen` with the matrix of `DrawEntityESP` returns true. -/
theorem WorldToScreen_behind_camera_visible :
    (cameraForward ⟨Real.sin, Real.cos, Real.tan, Real.sqrt⟩
        ({ camPos := ⟨0, 0, -20⟩ } : EspConfig ℝ)).x = 0 ∧
    (cameraForward ⟨Real.sin, Real.cos, Real.tan, Real.sqrt⟩
        ({ camPos := ⟨0, 0, -20⟩ } : EspConfig ℝ)).y = 0 ∧
    (cameraForward ⟨Real.sin, Real.cos, Real.tan, Real.sqrt⟩
        ({ camPos := ⟨0, 0, -20⟩ } : EspConfig ℝ)).z = -1 ∧
    ((0 : ℝ) - 0) *
        (cameraForward ⟨Real.sin, Real.cos, Real.tan, Real.sqrt⟩
          ({ camPos := ⟨0, 0, -20⟩ } : EspConfig ℝ)).x +
      (0 - 0) *
        (cameraForward ⟨Real.sin, Real.cos, Real.tan, Real.sqrt⟩
          ({ camPos := ⟨0, 0, -20⟩ } : EspConfig ℝ)).y +
      (-10 - -20) *
        (cameraForward ⟨Real.sin, Real.cos, Real.tan, Real.sqrt⟩
          ({ camPos := ⟨0, 0, -20⟩ } : EspConfig ℝ)).z < 0 ∧
    (WorldToScreen (⟨0, 0, -10⟩ : Vec3 ℝ)
      (DrawEntityESP.viewProj ⟨Real.sin, Real.cos, Real.tan, Real.sqrt⟩
        ({ camPos := ⟨0, 0, -20⟩ } : EspConfig ℝ) 800 600) 800 600).isSome = true := by
  refine ⟨?_, ?_, ?_, ?_, ?_⟩
  · simp [cameraForward]
  · simp [cameraForward]
  · simp [cameraForward]
  · simp only [cameraForward, zero_mul, Real.sin_zero, Real.cos_zero]
    norm_num
  · rw [Option.isSome_iff_ne_none, Ne, WorldToScreen_viewProj]
    unfold FLT_0_001
    norm_num

/-- C19, the code at a failing input. Camera at `(0, 0, 20)` with yaw 0 and pitch 0
(forward `(0, 0, -1)`), vertical field of view 90 degrees, near plane `0.05`,
far plane 1000, screen 800 by 800, and the point `(0, 0, 10)`, which is
`camPos + 10 * forward` with `10 > zNear`: `WorldToScreen` with the matrix of
`DrawEntityESP` returns false instead of the screen centre. -/
theorem WorldToScreen_forward_point_rejected :
    (cameraForward ⟨Real.sin, Real.cos, Real.tan, Real.sqrt⟩
        ({ camPos := ⟨0, 0, 20⟩, fovY := 90 } : EspConfig ℝ)).x = 0 ∧
    (cameraForward ⟨Real.sin, Real.cos, Real.tan, Real.sqrt⟩
        ({ camPos := ⟨0, 0, 20⟩, fovY := 90 } : EspConfig ℝ)).y = 0 ∧
    (cameraForward ⟨Real.sin, Real.cos, Real.tan, Real.sqrt⟩
        ({ camPos := ⟨0, 0, 20⟩, fovY := 90 } : EspConfig ℝ)).z = -1 ∧
    (20 : ℝ) + 10 * -1 = 10 ∧
    ({ camPos := ⟨0, 0, 20⟩, fovY := 90 } : EspConfig ℝ).zNear < 10 ∧
    WorldToScreen (⟨0, 0, 10⟩ : Vec3 ℝ)
      (DrawEntityESP.viewProj ⟨Real.sin, Real.cos, Real.tan, Real.sqrt⟩
        ({ camPos := ⟨0, 0, 20⟩, fovY := 90 } : EspConfig ℝ) 800 800) 800 800 = none := by
  refine ⟨?_, ?_, ?_, ?_, ?_, ?_⟩
  · simp [cameraForward]
  · simp [cameraForward]
  · simp [cameraForward]
  · norm_num
  · norm_num
  · rw [WorldToScreen_viewProj]
    unfold FLT_0_001
    norm_num

/-- C20, the code at a failing input. With the view matrix of a camera at
`(0, 70, 0)` looking along `-z`, the projection matrix for `tanHalf = 1`,
aspect 1, near 1 and far 3, and the point `v = (0, 70, -10, 1)`, ten units
in front of the camera: `Mul(Multiply(proj, view), v)` is `(0, -630, 17, 10)`,
which is `Mul(view, Mul(proj, v))` (projection first), and not
`Mul(proj, Mul(view, v)) = (0, 0, 17, 10)` (view first). -/
theorem Multiply_proj_view_applies_proj_first :
    Mul (Multiply
          (⟨![![1, 0, 0, 0], ![0, 1, 0, 0], ![0, 0, -2, -1], ![0, 0, -3, 0]]⟩ : Mat4 ℚ)
          ⟨![![1, 0, 0, 0], ![0, 1, 0, 0], ![0, 0, 1, 0], ![0, -70, 0, 1]]⟩)
        ⟨0, 70, -10, 1⟩ = ⟨0, -630, 17, 10⟩ ∧
    Mul (⟨![![1, 0, 0, 0], ![0, 1, 0, 0], ![0, 0, 1, 0], ![0, -70, 0, 1]]⟩ : Mat4 ℚ)
        (Mul ⟨![![1, 0, 0, 0], ![0, 1, 0, 0], ![0, 0, -2, -1], ![0, 0, -3, 0]]⟩
          ⟨0, 70, -10, 1⟩) = ⟨0, -630, 17, 10⟩ ∧
    Mul (⟨![![1, 0, 0, 0], ![0, 1, 0, 0], ![0, 0, -2, -1], ![0, 0, -3, 0]]⟩ : Mat4 ℚ)
        (Mul ⟨![![1, 0, 0, 0], ![0, 1, 0, 0], ![0, 0, 1, 0], ![0, -70, 0, 1]]⟩
          ⟨0, 70, -10, 1⟩) = ⟨0, 0, 17, 10⟩ := by
  refine ⟨?_, ?_, ?_⟩ <;>
    (simp [Mul, Multiply, Matrix.vecHead, Matrix.vecTail]; try norm_num)

/-! ## Properties of the compressed decoding -/

/-- A little-endian value of `n` bytes is below `256 ^ n`. -/
theorem leValue_lt (bs : List Byte) : leValue bs < 256 ^ bs.length := by
  induction bs with
  | nil => simp [leValue]
  | cons b bs ih =>
    have hb := b.isLt
    simp only [leValue, List.length_cons, pow_succ]
    omega

/-- A value delivered by `ReadMemory<uint32_t>` fits in 32 bits. -/
theorem ReadMemory4_lt (process : HANDLE) (a r : Nat)
    (h : ReadMemory 4 process a = some r) : r < 2 ^ 32 := by
  unfold ReadMemory at h
  simp only at h
  split at h
  · rename_i hc
    simp only [Bool.and_eq_true, beq_iff_eq] at hc
    have := leValue_lt (process.ReadProcessMemory a 4).data
    rw [hc.2] at this
    simp only [Option.some.injEq] at h
    omega
  · cases h

/-- In compressed mode with heap base 0 and a shift of at most 32, a non-zero
reference `r` decodes to `r * 2 ^ shift`, without any wrap-around. -/
theorem ReadOop_compressed_value (self : EntityReader) (hc : self.oops.compressed = true)
    (hb : self.oops.heapBase = 0) (h32 : self.oops.shift ≤ 32) (a r : Nat)
    (hr : ReadMemory 4 self.hProcess a = some r) (hne : r ≠ 0) :
    (self.ReadOop a).1 = r * 2 ^ self.oops.shift.toNat := by
  have hlt := ReadMemory4_lt _ _ _ hr
  have hs : self.oops.shift.toNat ≤ 32 := by omega
  have hpow : 2 ^ self.oops.shift.toNat ≤ 2 ^ 32 := Nat.pow_le_pow_right (by norm_num) hs
  have hmul : r * 2 ^ self.oops.shift.toNat < 2 ^ 64 := by
    calc r * 2 ^ self.oops.shift.toNat < 2 ^ 32 * 2 ^ 32 :=
          Nat.mul_lt_mul_of_lt_of_le hlt hpow (by positivity)
      _ = 2 ^ 64 := by norm_num
  unfold EntityReader.ReadOop
  simp only [hc, if_true, hr, hne, if_false, hb, Nat.shiftLeft_eq, wrap64, Nat.add_zero,
    Nat.mod_mod]
  exact Nat.mod_eq_of_lt hmul

/-- C30. Null result means null reference: in compressed mode with heap base 0
and a shift between 0 and 32 (so the shift count of the model is the configured
shift), `ReadOop` returns 0 exactly when the 4-byte read fails or the reference
read is 0; a reference read is below `2 ^ 32`, a non-zero one decodes to the
non-zero address `ref * 2 ^ shift < 2 ^ 64` (no bit is lost), and two different
non-zero references decode to different addresses. -/
theorem ReadOop_null_iff_null_reference (self : EntityReader)
    (hc : self.oops.compressed = true) (hb : self.oops.heapBase = 0)
    (h0 : 0 ≤ self.oops.shift) (h32 : self.oops.shift ≤ 32) :
    (self.oops.shift.toNat : Int) = self.oops.shift ∧
    (∀ a : Nat, (self.ReadOop a).1 = 0 ↔
        (ReadMemory 4 self.hProcess a = none ∨ ReadMemory 4 self.hProcess a = some 0)) ∧
    (∀ a r : Nat, ReadMemory 4 self.hProcess a = some r → r ≠ 0 →
        r < 2 ^ 32 ∧ (self.ReadOop a).1 = r * 2 ^ self.oops.shift.toNat ∧
        (self.ReadOop a).1 < 2 ^ 64 ∧ (self.ReadOop a).1 ≠ 0) ∧
    (∀ a b r1 r2 : Nat, ReadMemory 4 self.hProcess a = some r1 →
        ReadMemory 4 self.hProcess b = some r2 → r1 ≠ 0 → r2 ≠ 0 → r1 ≠ r2 →
        (self.ReadOop a).1 ≠ (self.ReadOop b).1) := by
  have hval := ReadOop_compressed_value self hc hb h32
  have hpos : 0 < 2 ^ self.oops.shift.toNat := by positivity
  have key : ∀ a r : Nat, ReadMemory 4 self.hProcess a = some r → r ≠ 0 →
      (self.ReadOop a).1 ≠ 0 := by
    intro a r hr hne
    rw [hval a r hr hne]
    exact Nat.mul_ne_zero hne (by positivity)
  refine ⟨Int.toNat_of_nonneg h0, ?_, ?_, ?_⟩
  · intro a
    constructor
    · intro hz
      cases hr : ReadMemory 4 self.hProcess a with
      | none => exact Or.inl rfl
      | some r =>
        right
        by_cases hne : r = 0
        · rw [hne]
        · exact absurd hz (key a r hr hne)
    · intro h
      unfold EntityReader.ReadOop
      rcases h with h | h <;> simp [hc, h]
  · intro a r hr hne
    have hlt := ReadMemory4_lt _ _ _ hr
    refine ⟨hlt, hval a r hr hne, ?_, key a r hr hne⟩
    · rw [hval a r hr hne]
      have hs : self.oops.shift.toNat ≤ 32 := by omega
      have hpow : 2 ^ self.oops.shift.toNat ≤ 2 ^ 32 := Nat.pow_le_pow_right (by norm_num) hs
      calc r * 2 ^ self.oops.shift.toNat < 2 ^ 32 * 2 ^ 32 :=
            Nat.mul_lt_mul_of_lt_of_le hlt hpow (by positivity)
        _ = 2 ^ 64 := by norm_num
  · intro a b r1 r2 h1 h2 n1 n2 hne heq
    rw [hval a r1 h1 n1, hval b r2 h2 n2] at heq
    exact hne (Nat.eq_of_mul_eq_mul_right hpos heq)

/-- Witness of C30 at shift 32: the reference `0xFFFFFFFF` decodes to
`0xFFFFFFFF00000000`, the references `0xFFFFFFFF` and 1 decode to different
addresses, the reference 0 and an unreadable field decode to null. -/
theorem ReadOop_null_iff_null_reference_witness :
    (wideShiftReader.ReadOop 0x500).1 = 0xFFFFFFFF00000000 ∧
    (wideShiftReader.ReadOop 0x500).1 ≠ (wideShiftReader.ReadOop 0x504).1 ∧
    (wideShiftReader.ReadOop 0x508).1 = 0 ∧
    (wideShiftReader.ReadOop 0x50A).1 = 0 :=
  ⟨((ReadOop_null_iff_null_reference wideShiftReader rfl rfl (by decide) (by decide)).2.2.1
      0x500 0xFFFFFFFF (by decide) (by decide)).2.1.trans (by decide),
   (ReadOop_null_iff_null_reference wideShiftReader rfl rfl (by decide) (by decide)).2.2.2
      0x500 0x504 0xFFFFFFFF 1 (by decide) (by decide) (by decide) (by decide) (by decide),
   ((ReadOop_null_iff_null_reference wideShiftReader rfl rfl (by decide) (by decide)).2.1
      0x508).2 (Or.inr (by decide)),
   ((ReadOop_null_iff_null_reference wideShiftReader rfl rfl (by decide) (by decide)).2.1
      0x50A).2 (Or.inl (by decide))⟩

/-! ## Properties of the count clamp for a negative maximum -/

/-- With a negative configured maximum every non-negative raw count is replaced
by the maximum itself, so the clamped count is negative. -/
theorem clampCount_of_negative_max (c maxEntities : Int) (hc : 0 ≤ c) (hM : maxEntities < 0) :
    clampCount c maxEntities = maxEntities := by
  unfold clampCount
  have h1 : c < 0 ∨ c > maxEntities := Or.inr (by omega)
  have h2 : ¬ c < 0 := by omega
  rw [if_pos h1, if_neg h2]

/-- C29, evaluated at `maxEntities = -1` and a raw count of 5: the clamp yields
the count `-1`, which is negative, and `DoEntityRead` on a list whose count field
holds 5 and whose array reference is non-null passes it to `reserve`, which
raises `std::length_error`. -/
theorem DoEntityRead_negative_maxEntities :
    clampCount 5 (-1) = -1 ∧
    ¬ (0 ≤ clampCount 5 (-1)) ∧
    ReadMemoryInt32 (arrayReader [5, 0, 0, 0] (-1) []).hProcess 0x2020 = some 5 ∧
    (arrayReader [5, 0, 0, 0] (-1) []).DoEntityRead = .error .length_error := by
  refine ⟨by decide, by decide, by decide, ?_⟩
  rfl

/-! ## Properties of the field reads -/

/-- `storeIfRead` on a default field: the value read, or 0 when the read failed. -/
theorem storeIfRead_zero (b : Option Nat) : storeIfRead b 0 = b.getD 0 := by
  cases b <;> rfl

/-- Counterexample to C24 as stated: in the heap `partialHeap` the read of `posX`
succeeds with the bits of 100.5 while the read of `posY` fails, and the record
of the loop body, which `DoEntityRead` publishes, has `posX = 0`, not the value
read. -/
theorem readEntity_posX_read_but_not_stored :
    ReadMemory 8 (arrayReader [1, 0, 0, 0] 256 partialHeap).hProcess 0x198 =
      some 0x4059200000000000 ∧
    ReadMemory 8 (arrayReader [1, 0, 0, 0] 256 partialHeap).hProcess 0x1A0 = none ∧
    (∃ ed : EntityData,
      ((arrayReader [1, 0, 0, 0] 256 partialHeap).readEntity 0x80 4 0).1 = some ed ∧
      ed.posX = 0) ∧
    ∃ r : CycleResult, (arrayReader [1, 0, 0, 0] 256 partialHeap).DoEntityRead = .ok r ∧
      r.reader.entities.map (fun e => e.posX) = [0] :=
  ⟨by decide, by decide, ⟨_, rfl, by decide⟩, ⟨_, rfl, by decide⟩⟩

/-- C24 (amended). For an entity whose object address `obj` decodes non-null the
loop body yields a record with the index of the slot, and the loop goes on with
the next index with that record appended. The three position fields are stored
together: when all three reads succeed each field holds the value read; when
any of them fails all three stay 0 and the record is not valid. The six
bounding-box fields are guarded one by one: when the box reference decodes
non-null each field holds the value of its own read, or 0 when that read
fails; when the box reference decodes to null all six stay 0. -/
theorem readEntity_field_degradation (self : EntityReader) (arrayRef : Nat) (refSize i : Int)
    (obj : Nat)
    (hobj : (self.ReadOop (wrap64 (arrayRef + toU64 self.offsets.arrayDataOffset +
        toU64 (mulInt32 i refSize)))).1 = obj)
    (hne : obj ≠ 0) :
    ∃ ed : EntityData, (self.readEntity arrayRef refSize i).1 = some ed ∧ ed.index = i ∧
      (∀ x y z : Nat, self.readPosition obj = (some x, some y, some z) →
        ed.posX = x ∧ ed.posY = y ∧ ed.posZ = z) ∧
      (((self.readPosition obj).1 = none ∨ (self.readPosition obj).2.1 = none ∨
          (self.readPosition obj).2.2 = none) →
        ed.posX = 0 ∧ ed.posY = 0 ∧ ed.posZ = 0 ∧ ed.valid = false) ∧
      (∀ bb : Nat, (self.ReadOop (wrap64 (obj + toU64 self.offsets.bbRefOffset))).1 = bb →
        (bb = 0 → ed.bbMinX = 0 ∧ ed.bbMinY = 0 ∧ ed.bbMinZ = 0 ∧
          ed.bbMaxX = 0 ∧ ed.bbMaxY = 0 ∧ ed.bbMaxZ = 0) ∧
        (bb ≠ 0 →
          ed.bbMinX = (ReadMemory 8 self.hProcess
            (wrap64 (bb + toU64 self.offsets.bbMinXOffset))).getD 0 ∧
          ed.bbMinY = (ReadMemory 8 self.hProcess
            (wrap64 (bb + toU64 self.offsets.bbMinYOffset))).getD 0 ∧
          ed.bbMinZ = (ReadMemory 8 self.hProcess
            (wrap64 (bb + toU64 self.offsets.bbMinZOffset))).getD 0 ∧
          ed.bbMaxX = (ReadMemory 8 self.hProcess
            (wrap64 (bb + toU64 self.offsets.bbMaxXOffset))).getD 0 ∧
          ed.bbMaxY = (ReadMemory 8 self.hProcess
            (wrap64 (bb + toU64 self.offsets.bbMaxYOffset))).getD 0 ∧
          ed.bbMaxZ = (ReadMemory 8 self.hProcess
            (wrap64 (bb + toU64 self.offsets.bbMaxZOffset))).getD 0)) ∧
      (∀ (todo : Nat) (snapshot : List EntityData) (validCount : Int),
        (self.entityLoop arrayRef refSize (todo + 1) i snapshot validCount).snapshot =
          (self.entityLoop arrayRef refSize todo (i + 1) (snapshot ++ [ed])
            (if ed.valid then validCount + 1 else validCount)).snapshot) := by
  have hbody : ∃ ed : EntityData, (self.readEntity arrayRef refSize i).1 = some ed := by
    unfold EntityReader.readEntity
    simp only [hobj, hne, if_false]
    split_ifs <;> exact ⟨_, rfl⟩
  obtain ⟨ed, hed⟩ := hbody
  refine ⟨ed, hed, ?_, ?_, ?_, ?_, ?_⟩
  · have h := hed
    unfold EntityReader.readEntity at h
    simp only [hobj, hne, if_false] at h
    split_ifs at h <;>
    · simp only [Option.some.injEq] at h
      rw [← h]
      split <;> rfl
  · intro x y z hpos
    have := (readEntity_position self arrayRef refSize i ed hed).2.2 x y z
    rw [hobj] at this
    exact this hpos
  · intro hfail
    have h := hed
    unfold EntityReader.readEntity at h
    unfold EntityReader.readPosition at hfail
    simp only [hobj, hne, if_false] at h hfail
    generalize ReadMemory 8 self.hProcess (wrap64 (obj + toU64 self.offsets.posXOffset)) = px
      at h hfail
    generalize ReadMemory 8 self.hProcess (wrap64 (obj + toU64 self.offsets.posYOffset)) = py
      at h hfail
    generalize ReadMemory 8 self.hProcess (wrap64 (obj + toU64 self.offsets.posZOffset)) = pz
      at h hfail
    split_ifs at h <;>
    · simp only [Option.some.injEq] at h
      subst h
      rcases px with _ | x <;> rcases py with _ | y <;> rcases pz with _ | z <;>
        simp at hfail ⊢
  · intro bb hbb
    have h := hed
    unfold EntityReader.readEntity at h
    simp only [hobj, hne, if_false, hbb] at h
    constructor
    · intro h0
      simp only [h0, ne_eq, not_true_eq_false, if_false, Option.some.injEq] at h
      subst h
      split <;> simp
    · intro h0
      simp only [ne_eq, h0, not_false_eq_true, if_true, Option.some.injEq] at h
      subst h
      simp only
      refine ⟨?_, ?_, ?_, ?_, ?_, ?_⟩ <;>
      · rw [← storeIfRead_zero]
        congr 1
        split <;> rfl
  · intro todo snapshot validCount
    conv_lhs => unfold EntityReader.entityLoop
    simp only [hed]

/-- Witness of C24 (amended) on `partialHeap`: the object of slot 0 is at `0x100`
and its box at `0x400`; `posX` stays 0 because the read of `posY` fails,
`bbMinX` holds the bits of 1.0 read at `0x410`, and `bbMinY`, whose read fails,
stays 0. On `sampleHeap` all three position reads of slot 0 succeed and the
record holds the three values read. -/
theorem readEntity_field_degradation_witness :
    (∃ ed : EntityData,
      ((arrayReader [1, 0, 0, 0] 256 partialHeap).readEntity 0x80 4 0).1 = some ed ∧
      ed.posX = 0 ∧ ed.bbMinX = 0x3FF0000000000000 ∧ ed.bbMinY = 0) ∧
    (∃ ed : EntityData,
      ((arrayReader [3, 0, 0, 0] 256 sampleHeap).readEntity 0x80 4 0).1 = some ed ∧
      ed.posX = 0x4059200000000000 ∧ ed.posY = 0x4050000000000000 ∧
      ed.posZ = 0xC069080000000000) := by
  constructor
  · obtain ⟨ed, hed, _, _, hfail, hbb, _⟩ :=
      readEntity_field_degradation (arrayReader [1, 0, 0, 0] 256 partialHeap) 0x80 4 0 0x100
        (by decide) (by decide)
    refine ⟨ed, hed, (hfail (Or.inr (Or.inl (by decide)))).1, ?_, ?_⟩
    · exact ((hbb 0x400 (by decide)).2 (by decide)).1.trans (by decide)
    · exact ((hbb 0x400 (by decide)).2 (by decide)).2.1.trans (by decide)
  · obtain ⟨ed, hed, _, hpos, _, _, _⟩ :=
      readEntity_field_degradation (arrayReader [3, 0, 0, 0] 256 sampleHeap) 0x80 4 0 0x100
        (by decide) (by decide)
    exact ⟨ed, hed, hpos _ _ _ (by decide)⟩

/-! ## Properties of the screen mapping -/

/-- One iteration of the region loop whose query succeeds: whatever happens to
the region (filtered out, read, read failed), the loop goes on at
`addr + RegionSize` in 64-bit arithmetic. -/
theorem PatternScan_loop_step (process : HANDLE) (pattern : ParsedPattern) (endAddr fuel addr : Nat)
    (results : List Nat) (mbi : MEMORY_BASIC_INFORMATION) (hlt : addr < endAddr)
    (hq : process.VirtualQueryEx addr = some mbi) :
    ∃ results', PatternScan.loop process pattern endAddr (fuel + 1) addr results =
      PatternScan.loop process pattern endAddr fuel (wrap64 (addr + mbi.RegionSize)) results' := by
  conv => enter [1, results', 1]; unfold PatternScan.loop
  simp only [hlt, if_true, hq]
  exact ⟨_, rfl⟩

/-- The region loop of the wrapping model never ends: from `0x10000` and from
`0x10001` every amount of fuel is used up. -/
theorem PatternScan_loop_wrapping (pattern : ParsedPattern) (fuel : Nat) :
    ∀ results, PatternScan.loop HANDLE.wrapping pattern 0x7FFFFFFEFFFF fuel 0x10000 results = none ∧
      PatternScan.loop HANDLE.wrapping pattern 0x7FFFFFFEFFFF fuel 0x10001 results = none := by
  induction fuel with
  | zero => intro results; constructor <;> simp [PatternScan.loop]
  | succ n ih =>
    intro results
    constructor
    · obtain ⟨r, hr⟩ := PatternScan_loop_step HANDLE.wrapping pattern 0x7FFFFFFEFFFF n 0x10000
        results ⟨0x10000, 0x01, 1⟩ (by decide) (by decide)
      rw [hr]
      exact (ih r).2
    · obtain ⟨r, hr⟩ := PatternScan_loop_step HANDLE.wrapping pattern 0x7FFFFFFEFFFF n 0x10001
        results ⟨0x10000, 0x01, 2 ^ 64 - 1⟩ (by decide) (by decide)
      rw [hr]
      exact (ih r).1

/-- Counterexample to C27 as stated: in the model `HANDLE.wrapping` every
successful query reports a positive region size (1 and `2 ^ 64 - 1`, both valid
`SIZE_T` values), the step from `0x10001` by `2 ^ 64 - 1` wraps around to the
smaller address `0x10000`, and the region loop of `PatternScan` does not
terminate: no amount of fuel gives a result. -/
theorem PatternScan_wraps_and_diverges :
    (∀ (a : Nat) (mbi : MEMORY_BASIC_INFORMATION),
      HANDLE.wrapping.VirtualQueryEx a = some mbi → 0 < mbi.RegionSize ∧ mbi.RegionSize < 2 ^ 64) ∧
    wrap64 (0x10001 + (2 ^ 64 - 1)) = 0x10000 ∧
    ∀ fuel : Nat, PatternScan fuel HANDLE.wrapping ⟨[2], [true]⟩ = none := by
  refine ⟨?_, by decide, ?_⟩
  · intro a mbi h
    unfold HANDLE.wrapping at h
    simp only at h
    split_ifs at h <;>
    · simp only [Option.some.injEq] at h
      rw [← h]
      decide
  · intro fuel
    exact (PatternScan_loop_wrapping ⟨[2], [true]⟩ fuel []).1

/-- The region loop ends when the distance to the end fits in the fuel, in
every model in which a successful query below the end reports a positive
size that does not carry the address past `2 ^ 64`. -/
theorem PatternScan_loop_terminates (process : HANDLE) (pattern : ParsedPattern) (endAddr : Nat)
    (hq : ∀ (a : Nat) (mbi : MEMORY_BASIC_INFORMATION), a < endAddr →
      process.VirtualQueryEx a = some mbi → 0 < mbi.RegionSize ∧ a + mbi.RegionSize < 2 ^ 64) :
    ∀ (fuel addr : Nat) (results : List Nat), endAddr - addr ≤ fuel →
      (PatternScan.loop process pattern endAddr fuel addr results).isSome = true := by
  intro fuel
  induction fuel with
  | zero =>
    intro addr results h
    have : ¬ addr < endAddr := by omega
    simp [PatternScan.loop, this]
  | succ n ih =>
    intro addr results h
    by_cases hlt : addr < endAddr
    · cases hv : process.VirtualQueryEx addr with
      | none => simp [PatternScan.loop, hlt, hv]
      | some mbi =>
        obtain ⟨r, hr⟩ := PatternScan_loop_step process pattern endAddr n addr results mbi hlt hv
        obtain ⟨hpos, hno⟩ := hq addr mbi hlt hv
        rw [hr, wrap64, Nat.mod_eq_of_lt hno]
        exact ih _ _ (by omega)
    · simp [PatternScan.loop, hlt]

/-- A result of the region loop does not change when more fuel is given. -/
theorem PatternScan_loop_more_fuel (process : HANDLE) (pattern : ParsedPattern) (endAddr : Nat) :
    ∀ (fuel addr : Nat) (results out : List Nat),
      PatternScan.loop process pattern endAddr fuel addr results = some out →
      ∀ k : Nat, PatternScan.loop process pattern endAddr (fuel + k) addr results = some out := by
  intro fuel
  induction fuel with
  | zero =>
    intro addr results out h k
    have hlt : ¬ addr < endAddr := by
      intro hlt
      simp [PatternScan.loop, hlt] at h
    simp only [PatternScan.loop, hlt, if_false] at h
    cases k with
    | zero => simp [PatternScan.loop, hlt, h]
    | succ k => simp [PatternScan.loop, hlt, h]
  | succ n ih =>
    intro addr results out h k
    have hk : n + 1 + k = (n + k) + 1 := by omega
    rw [hk]
    by_cases hlt : addr < endAddr
    · cases hv : process.VirtualQueryEx addr with
      | none =>
        simp only [PatternScan.loop, hlt, if_true, hv] at h ⊢
        exact h
      | some mbi =>
        simp only [PatternScan.loop, hlt, if_true, hv] at h ⊢
        exact ih _ _ _ h k
    · simp only [PatternScan.loop, hlt, if_false] at h ⊢
      exact h

/-- C27 (amended). In every model of the primitives in which each successful
query at an address below the maximum application address reports a positive
region size that does not carry the address past `2 ^ 64`: an iteration whose
query succeeds continues the loop at the strictly larger address
`addr + RegionSize`, whatever happens to the region (filtered out, read, read
failed); an iteration whose query fails ends the loop, as does an address at
or above the maximum; and the loop terminates, `PatternScan` returning one and
the same result for every fuel of at least `max - min` iterations. -/
theorem PatternScan_progress (process : HANDLE) (pattern : ParsedPattern)
    (hq : ∀ (a : Nat) (mbi : MEMORY_BASIC_INFORMATION),
      a < process.lpMaximumApplicationAddress →
      process.VirtualQueryEx a = some mbi → 0 < mbi.RegionSize ∧ a + mbi.RegionSize < 2 ^ 64) :
    (∀ (fuel addr : Nat) (results : List Nat) (mbi : MEMORY_BASIC_INFORMATION),
      addr < process.lpMaximumApplicationAddress → process.VirtualQueryEx addr = some mbi →
      addr < addr + mbi.RegionSize ∧
      ∃ results', PatternScan.loop process pattern process.lpMaximumApplicationAddress
          (fuel + 1) addr results =
        PatternScan.loop process pattern process.lpMaximumApplicationAddress fuel
          (addr + mbi.RegionSize) results') ∧
    (∀ (fuel addr : Nat) (results : List Nat),
      addr < process.lpMaximumApplicationAddress → process.VirtualQueryEx addr = none →
      PatternScan.loop process pattern process.lpMaximumApplicationAddress (fuel + 1) addr
        results = some results) ∧
    (∀ (fuel addr : Nat) (results : List Nat),
      ¬ addr < process.lpMaximumApplicationAddress →
      PatternScan.loop process pattern process.lpMaximumApplicationAddress fuel addr
        results = some results) ∧
    ∃ out : List Nat, ∀ fuel : Nat,
      process.lpMaximumApplicationAddress - process.lpMinimumApplicationAddress ≤ fuel →
      PatternScan fuel process pattern = some out := by
  refine ⟨?_, ?_, ?_, ?_⟩
  · intro fuel addr results mbi hlt hv
    obtain ⟨hpos, hno⟩ := hq addr mbi hlt hv
    obtain ⟨r, hr⟩ := PatternScan_loop_step process pattern _ fuel addr results mbi hlt hv
    rw [wrap64, Nat.mod_eq_of_lt hno] at hr
    exact ⟨by omega, r, hr⟩
  · intro fuel addr results hlt hv
    simp [PatternScan.loop, hlt, hv]
  · intro fuel addr results hlt
    cases fuel <;> simp [PatternScan.loop, hlt]
  · by_cases he : pattern.bytes.isEmpty = true
    · exact ⟨[], fun fuel _ => by simp [PatternScan, he]⟩
    · have hsome := PatternScan_loop_terminates process pattern _ hq
        (process.lpMaximumApplicationAddress - process.lpMinimumApplicationAddress)
        process.lpMinimumApplicationAddress [] (le_refl _)
      obtain ⟨out, hout⟩ := Option.isSome_iff_exists.mp hsome
      refine ⟨out, fun fuel hfuel => ?_⟩
      obtain ⟨k, rfl⟩ := Nat.exists_eq_add_of_le hfuel
      simp only [PatternScan, he, if_false]
      exact PatternScan_loop_more_fuel process pattern _ _ _ _ _ hout k

/-- Witness of C27 (amended): the three regions of `0x1000` bytes from `0x10000`
to `0x13000` (the second one fails to read); the scan for the byte 2 ends with
the matches `0x10001`, `0x12000`, `0x12001`, with the fuel `0x3000` as with the
fuel `0x100000`. -/
theorem PatternScan_progress_witness :
    PatternScan 0x3000 (HANDLE.ofRegions 0x10000 0x13000 failedReadRegions) ⟨[2], [true]⟩ =
      some [0x10001, 0x12000, 0x12001] ∧
    PatternScan 0x100000 (HANDLE.ofRegions 0x10000 0x13000 failedReadRegions) ⟨[2], [true]⟩ =
      some [0x10001, 0x12000, 0x12001] := by
  obtain ⟨out, hout⟩ :=
    (PatternScan_progress (HANDLE.ofRegions 0x10000 0x13000 failedReadRegions) ⟨[2], [true]⟩
      (by
        intro a mbi ha h
        have ha' : a < 0x13000 := ha
        simp only [HANDLE.ofRegions, failedReadRegions, regionAt] at h
        split_ifs at h <;> simp at h <;> (rw [← h]; simp only; omega))).2.2.2
  have h1 := hout 0x3000 (le_refl _)
  have h2 : PatternScan 0x3000 (HANDLE.ofRegions 0x10000 0x13000 failedReadRegions)
      ⟨[2], [true]⟩ = some [0x10001, 0x12000, 0x12001] := by decide
  rw [h2] at h1
  exact ⟨h2, (hout 0x100000 (by decide)).trans h1.symm⟩

/-! ## Properties of the worker loop -/

/-- The function `DoStringScan` changes the string finds and the status only. -/
theorem DoStringScan_frame (self s : EntityReader) (fuel : Nat) (running : Nat → Bool)
    (h : self.DoStringScan fuel running = some (.ok s)) :
    s.entityReadEnabled = self.entityReadEnabled ∧ s.offsets = self.offsets ∧
    s.entities = self.entities ∧ s.readIntervalMs = self.readIntervalMs := by
  unfold EntityReader.DoStringScan at h
  split at h
  · cases h
  · cases h
  · simp only [Option.some.injEq, Except.ok.injEq] at h
    rw [← h]
    exact ⟨rfl, rfl, rfl, rfl⟩

set_option maxRecDepth 8000 in
/-- Every signature of `kClassSignatures` gives a pattern with at least one
position: `ParsePattern` raises on none of them. -/
theorem signatures_parse (sig : String) (h : sig ∈ kClassSignatures) :
    ∃ pat : ParsedPattern, signaturePattern (asciiBytes sig) = .ok pat ∧
      pat.bytes.isEmpty = false := by
  have key : ∀ sig, sig ∈ kClassSignatures →
      (match signaturePattern (asciiBytes sig) with
        | .ok pat => !pat.bytes.isEmpty
        | .error _ => false) = true := by decide
  have hk := key sig h
  cases hp : signaturePattern (asciiBytes sig) with
  | error e => rw [hp] at hk; cases hk
  | ok pat =>
    rw [hp] at hk
    exact ⟨pat, rfl, by simpa using hk⟩

/-- The signature loop of `DoStringScan` over signatures that parse: it raises
no exception, and it returns when every region scan returns. -/
theorem DoStringScan_loop_returns (self : EntityReader) (fuel : Nat) (running : Nat → Bool) :
    ∀ (sigs : List String) (k : Nat) (results : List StringFind),
      (∀ sig, sig ∈ sigs → ∃ pat : ParsedPattern, signaturePattern (asciiBytes sig) = .ok pat) →
      (∀ e, EntityReader.DoStringScan.loop self fuel running sigs k results ≠ some (.error e)) ∧
      ((∀ pat : ParsedPattern, ∃ hits, PatternScan fuel self.hProcess pat = some hits) →
        ∃ out, EntityReader.DoStringScan.loop self fuel running sigs k results =
          some (.ok out)) := by
  intro sigs
  induction sigs with
  | nil =>
    intro k results _
    exact ⟨fun e h => by simp [EntityReader.DoStringScan.loop] at h,
      fun _ => ⟨results, rfl⟩⟩
  | cons sig rest ih =>
    intro k results hparse
    obtain ⟨pat, hpat⟩ := hparse sig (List.mem_cons_self _ _)
    have hrest : ∀ s, s ∈ rest → ∃ pat : ParsedPattern,
        signaturePattern (asciiBytes s) = .ok pat :=
      fun s hs => hparse s (List.mem_cons_of_mem _ hs)
    constructor
    · intro e h
      unfold EntityReader.DoStringScan.loop at h
      simp only [hpat] at h
      cases hs : PatternScan fuel self.hProcess pat with
      | none => simp [hs] at h
      | some hits =>
        simp only [hs] at h
        split_ifs at h
        · simp at h
        · exact (ih (k + 1) _ hrest).1 e h
    · intro hscan
      obtain ⟨hits, hs⟩ := hscan pat
      unfold EntityReader.DoStringScan.loop
      simp only [hpat, hs]
      split_ifs
      · exact ⟨_, rfl⟩
      · exact (ih (k + 1) _ hrest).2 hscan

/-- The function `DoStringScan` raises no exception, and it returns (with the
reader it publishes) when every region scan returns. -/
theorem DoStringScan_returns (self : EntityReader) (fuel : Nat) (running : Nat → Bool) :
    (∀ e, self.DoStringScan fuel running ≠ some (.error e)) ∧
    ((∀ pat : ParsedPattern, ∃ hits, PatternScan fuel self.hProcess pat = some hits) →
      ∃ s, self.DoStringScan fuel running = some (.ok s)) := by
  obtain ⟨h1, h2⟩ := DoStringScan_loop_returns self fuel running kClassSignatures 0 []
    (fun sig hsig => by
      obtain ⟨pat, hp, _⟩ := signatures_parse sig hsig
      exact ⟨pat, hp⟩)
  constructor
  · intro e h
    unfold EntityReader.DoStringScan at h
    split at h
    · cases h
    · rename_i e' heq
      exact h1 e' heq
    · cases h
  · intro hscan
    obtain ⟨out, hout⟩ := h2 hscan
    unfold EntityReader.DoStringScan
    rw [hout]
    exact ⟨_, rfl⟩

/-- A region scan returns, whatever the pattern, in every model of the
primitives in which each successful query below the maximum application
address reports a positive size that does not carry the address past
`2 ^ 64`, when the fuel covers the address range. -/
theorem PatternScan_returns (process : HANDLE) (fuel : Nat)
    (hq : ∀ (a : Nat) (mbi : MEMORY_BASIC_INFORMATION),
      a < process.lpMaximumApplicationAddress →
      process.VirtualQueryEx a = some mbi → 0 < mbi.RegionSize ∧ a + mbi.RegionSize < 2 ^ 64)
    (hfuel : process.lpMaximumApplicationAddress - process.lpMinimumApplicationAddress ≤ fuel)
    (pattern : ParsedPattern) :
    ∃ hits, PatternScan fuel process pattern = some hits := by
  unfold PatternScan
  split_ifs
  · exact ⟨[], rfl⟩
  · exact Option.isSome_iff_exists.mp
      (PatternScan_loop_terminates process pattern _ hq fuel _ [] hfuel)

/-- The second half of the loop body: when entity reading is enabled and the
chain base is not 0 it calls `DoEntityRead` on the reader and takes over the
reader the call returns; otherwise it only sleeps. -/
theorem readAndSleep_spec (self : EntityReader) (calls : List WorkerCall) :
    ((self.entityReadEnabled = true ∧ self.offsets.chainBase ≠ 0) →
      (EntityReader.WorkerLoop.readAndSleep self calls).readCycle = some self.DoEntityRead ∧
      (∀ r, self.DoEntityRead = .ok r →
        (EntityReader.WorkerLoop.readAndSleep self calls).reader = r.reader ∧
        (EntityReader.WorkerLoop.readAndSleep self calls).calls =
          calls ++ [.DoEntityRead, .Sleep (self.readIntervalMs % 2 ^ 32).toNat] ∧
        (EntityReader.WorkerLoop.readAndSleep self calls).completion = .returned) ∧
      (∀ e, self.DoEntityRead = .error e →
        (EntityReader.WorkerLoop.readAndSleep self calls).reader = self ∧
        (EntityReader.WorkerLoop.readAndSleep self calls).calls = calls ++ [.DoEntityRead] ∧
        (EntityReader.WorkerLoop.readAndSleep self calls).completion = .raisedStd e)) ∧
    (¬ (self.entityReadEnabled = true ∧ self.offsets.chainBase ≠ 0) →
      (EntityReader.WorkerLoop.readAndSleep self calls).readCycle = none ∧
      (EntityReader.WorkerLoop.readAndSleep self calls).reader = self ∧
      (EntityReader.WorkerLoop.readAndSleep self calls).calls =
        calls ++ [.Sleep (self.readIntervalMs % 2 ^ 32).toNat] ∧
      (EntityReader.WorkerLoop.readAndSleep self calls).completion = .returned) := by
  unfold EntityReader.WorkerLoop.readAndSleep
  constructor
  · intro h
    have hb : (self.entityReadEnabled && self.offsets.chainBase != 0) = true := by
      simp [h.1, h.2]
    simp only [hb, if_true]
    cases hd : self.DoEntityRead with
    | error e =>
      refine ⟨rfl, ⟨?_, ?_⟩⟩
      · intro r hr
        cases hr
      · intro e' he
        cases he
        exact ⟨rfl, rfl, rfl⟩
    | ok r =>
      refine ⟨rfl, ⟨?_, ?_⟩⟩
      · intro r' hr
        cases hr
        exact ⟨rfl, rfl, rfl⟩
      · intro e he
        cases he
  · intro h
    have hb : (self.entityReadEnabled && self.offsets.chainBase != 0) = false := by
      rcases not_and_or.mp h with h1 | h1
      · simp [h1]
      · simp only [ne_eq, not_not] at h1
        simp [h1]
    simp [hb]

/-- Whether the read cycle ran in the second half of the loop body. -/
theorem readAndSleep_isSome (self : EntityReader) (calls : List WorkerCall) :
    (EntityReader.WorkerLoop.readAndSleep self calls).readCycle.isSome = true ↔
      (self.entityReadEnabled = true ∧ self.offsets.chainBase ≠ 0) := by
  by_cases h : self.entityReadEnabled = true ∧ self.offsets.chainBase ≠ 0
  · rw [((readAndSleep_spec self calls).1 h).1]
    simp [h]
  · rw [((readAndSleep_spec self calls).2 h).1]
    simp [h]

/-- The region scan of the model `HANDLE.wrapping` returns for no pattern with
at least one position, whatever the fuel. -/
theorem PatternScan_wrapping_none (fuel : Nat) (pat : ParsedPattern)
    (h : pat.bytes.isEmpty = false) : PatternScan fuel HANDLE.wrapping pat = none := by
  unfold PatternScan
  rw [h]
  simp only [Bool.false_eq_true, if_false]
  exact (PatternScan_loop_wrapping pat fuel []).1

/-- The signature loop does not return when its first signature parses to a
pattern with at least one position and no region scan for such a pattern
returns. -/
theorem DoStringScan_blocked (self : EntityReader) (fuel : Nat) (running : Nat → Bool)
    (hscan : ∀ pat : ParsedPattern, pat.bytes.isEmpty = false →
      PatternScan fuel self.hProcess pat = none) :
    self.DoStringScan fuel running = none := by
  obtain ⟨pat, hp, hne⟩ := signatures_parse "net/minecraft/client/MinecraftClient" (by decide)
  have hloop : EntityReader.DoStringScan.loop self fuel running kClassSignatures 0 [] = none := by
    unfold kClassSignatures EntityReader.DoStringScan.loop
    simp only [hp, hscan pat hne]
  unfold EntityReader.DoStringScan
  rw [hloop]

/-- Counterexample to C28 as stated: the reader `blockedReader` has entity reading
enabled and a non-zero chain base, and a string scan is pending; on the
process `HANDLE.wrapping` the region scan of the first signature never
returns, so whatever the fuel the iteration does not get past the string scan
and no read cycle runs in it. -/
theorem WorkerLoop_blocked_by_string_scan :
    blockedReader.entityReadEnabled = true ∧ blockedReader.offsets.chainBase ≠ 0 ∧
    ∀ (fuel : Nat) (running : Nat → Bool),
      (EntityReader.WorkerLoop.iteration blockedReader fuel running).readCycle = none ∧
      (EntityReader.WorkerLoop.iteration blockedReader fuel running).calls = [.DoStringScan] ∧
      (EntityReader.WorkerLoop.iteration blockedReader fuel running).completion =
        .unfinished := by
  refine ⟨rfl, by decide, ?_⟩
  intro fuel running
  have h : EntityReader.DoStringScan
      { blockedReader with
        stringScanRequested := false, status := "Scanning for JVM class strings..." }
      fuel running = none :=
    DoStringScan_blocked _ fuel running (fun pat hne => PatternScan_wrapping_none fuel pat hne)
  unfold EntityReader.WorkerLoop.iteration
  have hreq : blockedReader.stringScanRequested = true := rfl
  simp [hreq, h]

/-- C28 (amended). Idle iteration frame: an iteration of the worker loop with no
pending string-scan request and with entity reading disabled or `chainBase = 0`
calls nothing but the sleep, runs no read cycle, ends normally and leaves the
reader as it was (entity list, status and string finds included). In an
iteration with no pending request, and in one whose requested string scan
returns, a read cycle runs exactly when entity reading is enabled and
`chainBase` is not 0, and it is the call of `DoEntityRead` on the reader at that
point, whose resulting reader the iteration takes over. An iteration whose
string scan does not return runs no read cycle. The string scan raises no
exception, and it returns when every region scan terminates: in every model
of the primitives in which each successful query reports a positive size
without wrap-around, for a fuel that covers the address range. -/
theorem WorkerLoop_iteration_read_cycle (self : EntityReader) (fuel : Nat)
    (running : Nat → Bool) :
    (self.stringScanRequested = false →
      (self.entityReadEnabled = false ∨ self.offsets.chainBase = 0) →
      (EntityReader.WorkerLoop.iteration self fuel running).calls =
          [.Sleep (self.readIntervalMs % 2 ^ 32).toNat] ∧
        (EntityReader.WorkerLoop.iteration self fuel running).readCycle = none ∧
        (EntityReader.WorkerLoop.iteration self fuel running).completion = .returned ∧
        (EntityReader.WorkerLoop.iteration self fuel running).reader = self ∧
        (EntityReader.WorkerLoop.iteration self fuel running).reader.entities = self.entities ∧
        (EntityReader.WorkerLoop.iteration self fuel running).reader.status = self.status ∧
        (EntityReader.WorkerLoop.iteration self fuel running).reader.stringFinds =
          self.stringFinds) ∧
    (self.stringScanRequested = false →
      ((EntityReader.WorkerLoop.iteration self fuel running).readCycle.isSome = true ↔
        (self.entityReadEnabled = true ∧ self.offsets.chainBase ≠ 0)) ∧
      ((self.entityReadEnabled = true ∧ self.offsets.chainBase ≠ 0) →
        (EntityReader.WorkerLoop.iteration self fuel running).readCycle =
          some self.DoEntityRead ∧
        (∀ r, self.DoEntityRead = .ok r →
          (EntityReader.WorkerLoop.iteration self fuel running).reader = r.reader ∧
          (EntityReader.WorkerLoop.iteration self fuel running).calls =
            [.DoEntityRead, .Sleep (self.readIntervalMs % 2 ^ 32).toNat] ∧
          (EntityReader.WorkerLoop.iteration self fuel running).completion = .returned) ∧
        (∀ e, self.DoEntityRead = .error e →
          (EntityReader.WorkerLoop.iteration self fuel running).completion = .raisedStd e))) ∧
    (∀ s : EntityReader, self.stringScanRequested = true →
      EntityReader.DoStringScan
        { self with stringScanRequested := false, status := "Scanning for JVM class strings..." }
        fuel running = some (.ok s) →
      ((EntityReader.WorkerLoop.iteration self fuel running).readCycle.isSome = true ↔
        (self.entityReadEnabled = true ∧ self.offsets.chainBase ≠ 0)) ∧
      ((self.entityReadEnabled = true ∧ self.offsets.chainBase ≠ 0) →
        (EntityReader.WorkerLoop.iteration self fuel running).readCycle =
          some s.DoEntityRead ∧
        (∀ r, s.DoEntityRead = .ok r →
          (EntityReader.WorkerLoop.iteration self fuel running).reader = r.reader ∧
          (EntityReader.WorkerLoop.iteration self fuel running).calls =
            [.DoStringScan, .DoEntityRead, .Sleep (self.readIntervalMs % 2 ^ 32).toNat] ∧
          (EntityReader.WorkerLoop.iteration self fuel running).completion = .returned) ∧
        (∀ e, s.DoEntityRead = .error e →
          (EntityReader.WorkerLoop.iteration self fuel running).completion = .raisedStd e))) ∧
    (self.stringScanRequested = true →
      EntityReader.DoStringScan
        { self with stringScanRequested := false, status := "Scanning for JVM class strings..." }
        fuel running = none →
      (EntityReader.WorkerLoop.iteration self fuel running).readCycle = none ∧
      (EntityReader.WorkerLoop.iteration self fuel running).calls = [.DoStringScan] ∧
      (EntityReader.WorkerLoop.iteration self fuel running).completion = .unfinished) ∧
    (∀ e, EntityReader.DoStringScan
        { self with stringScanRequested := false, status := "Scanning for JVM class strings..." }
        fuel running ≠ some (.error e)) ∧
    ((∀ (a : Nat) (mbi : MEMORY_BASIC_INFORMATION),
        a < self.hProcess.lpMaximumApplicationAddress →
        self.hProcess.VirtualQueryEx a = some mbi →
        0 < mbi.RegionSize ∧ a + mbi.RegionSize < 2 ^ 64) →
      self.hProcess.lpMaximumApplicationAddress - self.hProcess.lpMinimumApplicationAddress ≤
        fuel →
      ∃ s, EntityReader.DoStringScan
        { self with stringScanRequested := false, status := "Scanning for JVM class strings..." }
        fuel running = some (.ok s)) := by
  refine ⟨?_, ?_, ?_, ?_, ?_, ?_⟩
  · intro hreq hidle
    have hself : ({ self with stringScanRequested := false } : EntityReader) = self := by
      cases self
      simp_all
    have hcond : ¬ (self.entityReadEnabled = true ∧ self.offsets.chainBase ≠ 0) := by
      rcases hidle with h1 | h1
      · simp [h1]
      · simp [h1]
    have hit : EntityReader.WorkerLoop.iteration self fuel running =
        EntityReader.WorkerLoop.readAndSleep self [] := by
      unfold EntityReader.WorkerLoop.iteration
      simp only [hreq, Bool.false_eq_true, if_false, hself]
    obtain ⟨h1, h2, h3, h4⟩ := (readAndSleep_spec self []).2 hcond
    rw [hit]
    refine ⟨by simpa using h3, h1, h4, h2, ?_, ?_, ?_⟩ <;> rw [h2]
  · intro hreq
    have hself : ({ self with stringScanRequested := false } : EntityReader) = self := by
      cases self
      simp_all
    have hit : EntityReader.WorkerLoop.iteration self fuel running =
        EntityReader.WorkerLoop.readAndSleep self [] := by
      unfold EntityReader.WorkerLoop.iteration
      simp only [hreq, Bool.false_eq_true, if_false, hself]
    rw [hit]
    refine ⟨readAndSleep_isSome self [], fun hc => ?_⟩
    obtain ⟨h1, h2, h3⟩ := (readAndSleep_spec self []).1 hc
    refine ⟨h1, fun r hr => ?_, fun e he => (h3 e he).2.2⟩
    obtain ⟨a1, a2, a3⟩ := h2 r hr
    exact ⟨a1, by simpa using a2, a3⟩
  · intro s hreq hscan
    obtain ⟨he, ho, _, hms⟩ := DoStringScan_frame _ s fuel running hscan
    have hit : EntityReader.WorkerLoop.iteration self fuel running =
        EntityReader.WorkerLoop.readAndSleep s [.DoStringScan] := by
      unfold EntityReader.WorkerLoop.iteration
      simp only [hreq, if_true, hscan]
    have he' : s.entityReadEnabled = self.entityReadEnabled := he
    have ho' : s.offsets.chainBase = self.offsets.chainBase := by rw [ho]
    have hms' : s.readIntervalMs = self.readIntervalMs := hms
    rw [hit]
    constructor
    · rw [readAndSleep_isSome, he', ho']
    · intro hc
      obtain ⟨h1, h2, h3⟩ := (readAndSleep_spec s [.DoStringScan]).1
        (by rw [he', ho']; exact hc)
      refine ⟨h1, fun r hr => ?_, fun e he2 => (h3 e he2).2.2⟩
      obtain ⟨a1, a2, a3⟩ := h2 r hr
      exact ⟨a1, by rw [a2, hms']; rfl, a3⟩
  · intro hreq hscan
    unfold EntityReader.WorkerLoop.iteration
    simp [hreq, hscan]
  · exact (DoStringScan_returns _ fuel running).1
  · intro hq hfuel
    exact (DoStringScan_returns _ fuel running).2
      (fun pat => PatternScan_returns self.hProcess fuel hq hfuel pat)

/-- Witness of C28 (amended). The idle iteration of `staleReader` only sleeps and
keeps the published record with index 7 and the status. The iteration of
`enabledReader` (entity reading enabled, chain base `0x1000`, no pending
request) runs the read cycle `DoEntityRead` and takes over its result: it
publishes the three records of the sample heap, with the indexes 0, 1, 2,
and then sleeps. With a pending request whose string scan returns a read
cycle runs as well, and with entity reading disabled none does. -/
theorem WorkerLoop_iteration_read_cycle_witness :
    (EntityReader.WorkerLoop.iteration (staleReader [0x10] []) 8 (fun _ => true)).calls =
      [.Sleep 50] ∧
    (EntityReader.WorkerLoop.iteration (staleReader [0x10] []) 8 (fun _ => true)).readCycle =
      none ∧
    (EntityReader.WorkerLoop.iteration (staleReader [0x10] []) 8 (fun _ => true)).reader.entities =
      [{ index := 7, valid := true }] ∧
    (EntityReader.WorkerLoop.iteration (staleReader [0x10] []) 8 (fun _ => true)).reader.status =
      "Reading 1 entities (1 valid) @ 0x2010" ∧
    (EntityReader.WorkerLoop.iteration enabledReader 8 (fun _ => true)).readCycle =
      some enabledReader.DoEntityRead ∧
    (EntityReader.WorkerLoop.iteration enabledReader 8 (fun _ => true)).reader.entities.map
      (fun ed => ed.index) = [0, 1, 2] ∧
    (EntityReader.WorkerLoop.iteration enabledReader 8 (fun _ => true)).calls =
      [.DoEntityRead, .Sleep 50] ∧
    (EntityReader.WorkerLoop.iteration { enabledReader with stringScanRequested := true } 8
        (fun _ => true)).readCycle.isSome = true ∧
    (EntityReader.WorkerLoop.iteration { enabledReader with entityReadEnabled := false } 8
        (fun _ => true)).readCycle.isSome ≠ true := by
  have hidle := (WorkerLoop_iteration_read_cycle (staleReader [0x10] []) 8 (fun _ => true)).1 rfl
    (Or.inl rfl)
  have hrun := ((WorkerLoop_iteration_read_cycle enabledReader 8 (fun _ => true)).2.1 rfl).2
    ⟨rfl, by decide⟩
  obtain ⟨r, hr, hent, _⟩ := DoEntityRead_reaches_array enabledReader 3
    (by decide) (by decide) (by decide) (by decide)
  obtain ⟨hreader, hcalls, _⟩ := hrun.2.1 r hr
  refine ⟨hidle.1, hidle.2.1, hidle.2.2.2.2.1, hidle.2.2.2.2.2.1, hrun.1, ?_, hcalls,
    ((WorkerLoop_iteration_read_cycle { enabledReader with stringScanRequested := true } 8
      (fun _ => true)).2.2.1 _ rfl rfl).1.2 ⟨rfl, by decide⟩,
    fun h => Bool.noConfusion
      (((WorkerLoop_iteration_read_cycle { enabledReader with entityReadEnabled := false } 8
        (fun _ => true)).2.1 rfl).1.1 h).1⟩
  rw [hreader, hent]
  decide

/-! ## Properties of the rounding to single precision -/

/-- The rounding to an integer yields the floor or the floor plus one, whichever
is nearer. -/
theorem roundHalfEven_cases {K : Type} [LinearOrderedField K] [FloorRing K] (y : K) :
    roundHalfEven y = ⌊y⌋ ∧ y - ⌊y⌋ ≤ 1 / 2 ∨ roundHalfEven y = ⌊y⌋ + 1 ∧ 1 / 2 ≤ y - ⌊y⌋ := by
  unfold roundHalfEven
  by_cases h1 : y - ⌊y⌋ < 1 / 2
  · left
    rw [if_pos h1]
    exact ⟨rfl, le_of_lt h1⟩
  · rw [if_neg h1]
    by_cases h2 : 1 / 2 < y - ⌊y⌋
    · right
      rw [if_pos h2]
      exact ⟨rfl, le_of_lt h2⟩
    · rw [if_neg h2]
      by_cases h3 : ⌊y⌋ % 2 = 0
      · left
        rw [if_pos h3]
        exact ⟨rfl, not_lt.mp h2⟩
      · right
        rw [if_neg h3]
        exact ⟨rfl, not_lt.mp h1⟩

/-- The rounding to an integer moves a number by at most one half. -/
theorem roundHalfEven_error {K : Type} [LinearOrderedField K] [FloorRing K] (y : K) :
    |(roundHalfEven y : K) - y| ≤ 1 / 2 := by
  have h0 := Int.floor_le y
  have h1 := Int.lt_floor_add_one y
  rcases roundHalfEven_cases y with ⟨h, hle⟩ | ⟨h, hle⟩
  · rw [h, abs_le]
    constructor <;> linarith
  · rw [h, abs_le]
    push_cast
    constructor <;> linarith

/-- The rounding to an integer yields the integer that is less than one half away. -/
theorem roundHalfEven_eq {K : Type} [LinearOrderedField K] [FloorRing K] (y : K) (n : ℤ)
    (h1 : (n : K) - 1 / 2 < y) (h2 : y < n + 1 / 2) : roundHalfEven y = n := by
  have h0 := Int.floor_le y
  have h3 := Int.lt_floor_add_one y
  have key : ∀ m : ℤ, |(m : K) - y| ≤ 1 / 2 → m = n := by
    intro m hm
    rw [abs_le] at hm
    have a : ((m - n : ℤ) : K) < 1 := by push_cast; linarith
    have b : ((n - m : ℤ) : K) < 1 := by push_cast; linarith
    have a' : m - n < 1 := by exact_mod_cast a
    have b' : n - m < 1 := by exact_mod_cast b
    omega
  exact key _ (roundHalfEven_error y)

/-- The rounding to an integer leaves an integer as it is. -/
theorem roundHalfEven_intCast {K : Type} [LinearOrderedField K] [FloorRing K] (n : ℤ) :
    roundHalfEven (n : K) = n :=
  roundHalfEven_eq _ n (by linarith) (by linarith)

/-- The rounding of zero is zero. -/
theorem fl32_zero {K : Type} [LinearOrderedField K] [FloorRing K] : fl32 (0 : K) = 0 := by
  unfold fl32
  rw [if_pos rfl]

/-- The rounding error of `fl32`: half a unit in the last place. -/
theorem fl32_error {K : Type} [LinearOrderedField K] [FloorRing K] (x : K) :
    |fl32 x - x| ≤ |x| / 2 ^ 24 + 1 / 2 ^ 150 := by
  by_cases hx : x = 0
  · rw [hx, fl32_zero]
    simp
  · unfold fl32
    rw [if_neg hx]
    have hpos : 0 < |x| := abs_pos.mpr hx
    set e : ℤ := max (Int.log 2 |x|) (-126) with he
    have hq : (0 : K) < 2 ^ (e - 23) := zpow_pos (by norm_num) _
    have herr := roundHalfEven_error (x / 2 ^ (e - 23))
    have h1 : (roundHalfEven (x / 2 ^ (e - 23)) : K) * 2 ^ (e - 23) - x =
        ((roundHalfEven (x / 2 ^ (e - 23)) : K) - x / 2 ^ (e - 23)) * 2 ^ (e - 23) := by
      field_simp
    rw [h1, abs_mul, abs_of_pos hq]
    have h2 : |(roundHalfEven (x / 2 ^ (e - 23)) : K) - x / 2 ^ (e - 23)| * 2 ^ (e - 23) ≤
        1 / 2 * 2 ^ (e - 23) := mul_le_mul_of_nonneg_right herr (le_of_lt hq)
    have h3 : (1 / 2 : K) * 2 ^ (e - 23) = 2 ^ e / 2 ^ 24 := by
      rw [zpow_sub₀ (by norm_num : (2 : K) ≠ 0)]
      norm_num
      ring
    rw [h3] at h2
    refine le_trans h2 ?_
    rcases le_total (Int.log 2 |x|) (-126) with hl | hl
    · have : e = -126 := by rw [he]; exact max_eq_right hl
      rw [this]
      have : (2 : K) ^ (-126 : ℤ) / 2 ^ 24 = 1 / 2 ^ 150 := by
        rw [zpow_neg]
        norm_num
      rw [this]
      have : 0 ≤ |x| / 2 ^ 24 := by positivity
      linarith
    · have : e = Int.log 2 |x| := by rw [he]; exact max_eq_left hl
      rw [this]
      have hle := Int.zpow_log_le_self (b := 2) (by norm_num) hpos
      simp only [Nat.cast_ofNat] at hle
      have : (2 : K) ^ Int.log 2 |x| / 2 ^ 24 ≤ |x| / 2 ^ 24 :=
        div_le_div_of_nonneg_right hle (by positivity)
      have : (0 : K) ≤ 1 / 2 ^ 150 := by positivity
      linarith

/-- The binary logarithm of a number in the binade of `2 ^ e` is `e`. -/
theorem log_eq_of_binade {K : Type} [LinearOrderedField K] [FloorRing K] (r : K) (e : ℤ)
    (h1 : 2 ^ e ≤ r) (h2 : r < 2 ^ (e + 1)) : Int.log 2 r = e := by
  have hr : 0 < r := lt_of_lt_of_le (zpow_pos (by norm_num) _) h1
  have a : e ≤ Int.log 2 r :=
    (Int.zpow_le_iff_le_log (b := 2) (by norm_num) hr).mp (by simpa using h1)
  have b : Int.log 2 r < e + 1 :=
    (Int.lt_zpow_iff_log_lt (b := 2) (by norm_num) hr).mp (by simpa using h2)
  omega

/-- The rounding of a number in the binade of `2 ^ e`, for a normal exponent. -/
theorem fl32_binade {K : Type} [LinearOrderedField K] [FloorRing K] (x : K) (e : ℤ)
    (he : -126 ≤ e) (h1 : 2 ^ e ≤ |x|) (h2 : |x| < 2 ^ (e + 1)) :
    fl32 x = (roundHalfEven (x / 2 ^ (e - 23)) : K) * 2 ^ (e - 23) := by
  have hpos : 0 < |x| := lt_of_lt_of_le (zpow_pos (by norm_num) _) h1
  unfold fl32
  rw [if_neg (abs_pos.mp hpos), log_eq_of_binade _ e h1 h2, max_eq_left he]

/-- A multiple of the quantum `2 ^ q` is left as it is by the rounding to the
multiples of `2 ^ q`. -/
theorem roundHalfEven_scale {K : Type} [LinearOrderedField K] [FloorRing K] (m k q : ℤ)
    (h : q ≤ k) :
    (roundHalfEven ((m : K) * 2 ^ k / 2 ^ q) : K) * 2 ^ q = (m : K) * 2 ^ k := by
  obtain ⟨j, hj⟩ := Int.eq_ofNat_of_zero_le (sub_nonneg.mpr h)
  have hk : k = q + j := by omega
  have h2 : (2 : K) ^ q ≠ 0 := zpow_ne_zero _ (by norm_num)
  have hdiv : (m : K) * 2 ^ k / 2 ^ q = ((m * 2 ^ j : ℤ) : K) := by
    rw [hk, zpow_add₀ (by norm_num : (2 : K) ≠ 0)]
    push_cast
    field_simp
    ring
  rw [hdiv, roundHalfEven_intCast, hk, zpow_add₀ (by norm_num : (2 : K) ≠ 0)]
  push_cast
  simp only [zpow_natCast]
  ring

/-- A number `m * 2 ^ k` with `|m| < 2 ^ 24` and `k ≥ -149` is a single-precision
number: rounding leaves it as it is. -/
theorem fl32_exact {K : Type} [LinearOrderedField K] [FloorRing K] (m k : ℤ)
    (hm : |m| < 2 ^ 24) (hk : -149 ≤ k) : fl32 ((m : K) * 2 ^ k) = (m : K) * 2 ^ k := by
  by_cases h0 : m = 0
  · rw [h0]
    simp [fl32_zero]
  · have hx : (m : K) * 2 ^ k ≠ 0 := by
      apply mul_ne_zero
      · exact_mod_cast h0
      · exact zpow_ne_zero _ (by norm_num)
    unfold fl32
    rw [if_neg hx]
    have hpos : 0 < |(m : K) * 2 ^ k| := abs_pos.mpr hx
    have hlt : |(m : K) * 2 ^ k| < 2 ^ (24 + k) := by
      rw [abs_mul, abs_of_pos (zpow_pos (by norm_num : (0 : K) < 2) k),
        zpow_add₀ (by norm_num : (2 : K) ≠ 0)]
      apply mul_lt_mul_of_pos_right _ (zpow_pos (by norm_num) k)
      have : ((|m| : ℤ) : K) < ((2 ^ 24 : ℤ) : K) := by exact_mod_cast hm
      push_cast at this
      norm_num
      exact this
    have hlog : Int.log 2 |(m : K) * 2 ^ k| < 24 + k :=
      (Int.lt_zpow_iff_log_lt (b := 2) (by norm_num) hpos).mp (by simpa using hlt)
    apply roundHalfEven_scale
    rcases le_total (Int.log 2 |(m : K) * 2 ^ k|) (-126) with hl | hl
    · rw [max_eq_right hl]; omega
    · rw [max_eq_left hl]; omega

/-- The rounding of a non-negative number is non-negative. -/
theorem fl32_nonneg {K : Type} [LinearOrderedField K] [FloorRing K] (x : K) (h : 0 ≤ x) :
    0 ≤ fl32 x := by
  unfold fl32
  split_ifs with h0
  · exact le_refl _
  · have hq : (0 : K) < 2 ^ (max (Int.log 2 |x|) (-126) - 23) := zpow_pos (by norm_num) _
    apply mul_nonneg _ (le_of_lt hq)
    have hy : 0 ≤ x / 2 ^ (max (Int.log 2 |x|) (-126) - 23) := div_nonneg h (le_of_lt hq)
    have hf : 0 ≤ ⌊x / 2 ^ (max (Int.log 2 |x|) (-126) - 23)⌋ := Int.floor_nonneg.mpr hy
    rcases roundHalfEven_cases (x / 2 ^ (max (Int.log 2 |x|) (-126) - 23)) with ⟨h1, _⟩ | ⟨h1, _⟩
    · rw [h1]
      exact_mod_cast hf
    · rw [h1]
      have : (0 : ℤ) ≤ ⌊x / 2 ^ (max (Int.log 2 |x|) (-126) - 23)⌋ + 1 := by omega
      exact_mod_cast this

/-- The rounding grows the magnitude of a number by at most half a unit in the
last place. -/
theorem fl32_abs_le {K : Type} [LinearOrderedField K] [FloorRing K] (x : K) :
    |fl32 x| ≤ |x| + (|x| / 2 ^ 24 + 1 / 2 ^ 150) := by
  have h := fl32_error x
  have h2 : |fl32 x| ≤ |x| + |fl32 x - x| := by
    have := abs_add x (fl32 x - x)
    simpa using this
  linarith

/-- The rounding of a number of magnitude at most `2 ^ 127` does not overflow. -/
theorem rnd_fin {K : Type} [LinearOrderedField K] [FloorRing K] (x : K) (h : |x| ≤ 2 ^ 127) :
    F32.rnd (.fin x) = .fin (fl32 x) := by
  have hb := fl32_abs_le x
  have h1 : |fl32 x| ≤ FLT_MAX K := by
    unfold FLT_MAX
    have : |x| / 2 ^ 24 ≤ 2 ^ 127 / 2 ^ 24 := div_le_div_of_nonneg_right h (by positivity)
    have h3 : (1 : K) / 2 ^ 150 ≤ 1 := by
      rw [div_le_one (by positivity)]
      exact one_le_pow₀ (by norm_num)
    have h4 : |fl32 x| ≤ 2 ^ 127 + (2 ^ 127 / 2 ^ 24 + 1) := by linarith
    refine le_trans h4 ?_
    norm_num
  rw [abs_le] at h1
  simp only [F32.rnd]
  rw [if_neg (not_lt.mpr h1.2), if_neg (not_lt.mpr h1.1)]

/-- A single-precision number of magnitude at most `FLT_MAX` is its own
rounding. -/
theorem rnd_exact {K : Type} [LinearOrderedField K] [FloorRing K] (x : K) (hx : fl32 x = x)
    (h : |x| ≤ FLT_MAX K) : F32.rnd (.fin x) = .fin x := by
  rw [abs_le] at h
  simp only [F32.rnd]
  rw [hx, if_neg (not_lt.mpr h.2), if_neg (not_lt.mpr h.1)]

/-- An integer of magnitude below `2 ^ 24` is a single-precision number. -/
theorem fl32_int {K : Type} [LinearOrderedField K] [FloorRing K] (n : ℤ) (h : |n| < 2 ^ 24) :
    fl32 (n : K) = n := by
  have := fl32_exact (K := K) n 0 h (by norm_num)
  simpa using this

/-- The rounding of an integer of magnitude below `2 ^ 24` is that integer. -/
theorem rnd_int {K : Type} [LinearOrderedField K] [FloorRing K] (n : ℤ) (h : |n| < 2 ^ 24) :
    F32.rnd (.fin (n : K)) = .fin (n : K) := by
  apply rnd_exact _ (fl32_int n h)
  unfold FLT_MAX
  have h1 : ((|n| : ℤ) : K) < ((2 ^ 24 : ℤ) : K) := by exact_mod_cast h
  push_cast at h1
  have h2 : (2 : K) ^ 24 ≤ 340282346638528859811704183484516925440 := by norm_num
  linarith

/-- The conversion to `float` of a finite `double` that stands for a
single-precision number of magnitude at most `FLT_MAX` is that number. -/
theorem toFloat_exact {K : Type} [LinearOrderedField K] [FloorRing K] (x : Double) (q : K)
    (hf : x.isFinite = true) (hv : ((Double.value x : ℚ) : K) = q) (hq : fl32 q = q)
    (hb : |q| ≤ FLT_MAX K) : (Double.toFloat x : F32 K) = .fin q := by
  unfold Double.toFloat
  rw [isNaN_of_isFinite x hf, hf, hv]
  simp only [Bool.false_eq_true, if_false, if_true]
  exact rnd_exact q hq hb

/-! ## Properties of the drawing loop -/

/-- On a point with finite coordinates the projection is that of
`WorldToScreen`. -/
theorem WorldToScreen_fin {K : Type} [LinearOrderedField K] (x y z : K) (viewProj : Mat4 K)
    (screenW screenH : K) :
    F32.WorldToScreen ⟨.fin x, .fin y, .fin z⟩ viewProj screenW screenH =
      (WorldToScreen ⟨x, y, z⟩ viewProj screenW screenH).map
        (fun p => (F32.fin p.1, F32.fin p.2)) := by
  have hpos : (0 : K) < FLT_0_001 K := by
    unfold FLT_0_001
    norm_num
  unfold F32.WorldToScreen WorldToScreen
  simp only [F32.Mul, Mul, F32.mul, F32.add, F32.le, decide_eq_true_eq]
  by_cases hw : viewProj.m 0 3 * x + viewProj.m 1 3 * y + viewProj.m 2 3 * z +
      viewProj.m 3 3 * 1 ≤ FLT_0_001 K
  · rw [if_pos hw, if_pos hw]
    rfl
  · rw [if_neg hw, if_neg hw]
    have hne : viewProj.m 0 3 * x + viewProj.m 1 3 * y + viewProj.m 2 3 * z +
        viewProj.m 3 3 * 1 ≠ 0 := by
      intro h0
      rw [h0] at hw
      exact hw (le_of_lt hpos)
    simp only [F32.div, if_neg hne, F32.mul, F32.add, F32.neg, Option.map_some']

/-- The update of a lower bound keeps it at or below every number it was at
or below. -/
theorem updateMin_le {K : Type} [LinearOrderedField K] (a : F32 K) (lo : LowerBound K) (v : K)
    (h : ∀ m, lo = .fin m → m ≤ v) : ∀ m, F32.updateMin a lo = .fin m → m ≤ v := by
  intro m hm
  cases a with
  | fin x =>
    cases lo with
    | fin l =>
      simp only [F32.updateMin] at hm
      split_ifs at hm with hx
      · cases hm
        exact le_trans (le_of_lt hx) (h l rfl)
      · cases hm
        exact h m rfl
    | negInf => simp [F32.updateMin] at hm
  | inf s =>
    cases s with
    | true => simp [F32.updateMin] at hm
    | false =>
      simp only [F32.updateMin] at hm
      exact h m hm
  | nan =>
    simp only [F32.updateMin] at hm
    exact h m hm

/-- The update of a lower bound with a number brings it to or below that
number. -/
theorem updateMin_self {K : Type} [LinearOrderedField K] (x : K) (lo : LowerBound K) :
    ∀ m, F32.updateMin (.fin x) lo = .fin m → m ≤ x := by
  intro m hm
  cases lo with
  | fin l =>
    simp only [F32.updateMin] at hm
    split_ifs at hm with hx
    · cases hm
      exact le_refl _
    · cases hm
      exact not_lt.mp hx
  | negInf => simp [F32.updateMin] at hm

/-- The update of an upper bound keeps it at or above every number it was at
or above. -/
theorem updateMax_ge {K : Type} [LinearOrderedField K] (a : F32 K) (hi : UpperBound K) (v : K)
    (h : ∀ m, hi = .fin m → v ≤ m) : ∀ m, F32.updateMax a hi = .fin m → v ≤ m := by
  intro m hm
  cases a with
  | fin x =>
    cases hi with
    | fin l =>
      simp only [F32.updateMax] at hm
      split_ifs at hm with hx
      · cases hm
        exact le_trans (h l rfl) (le_of_lt hx)
      · cases hm
        exact h m rfl
    | posInf => simp [F32.updateMax] at hm
  | inf s =>
    cases s with
    | false => simp [F32.updateMax] at hm
    | true =>
      simp only [F32.updateMax] at hm
      exact h m hm
  | nan =>
    simp only [F32.updateMax] at hm
    exact h m hm

/-- The update of an upper bound with a number brings it to or above that
number. -/
theorem updateMax_self {K : Type} [LinearOrderedField K] (x : K) (hi : UpperBound K) :
    ∀ m, F32.updateMax (.fin x) hi = .fin m → x ≤ m := by
  intro m hm
  cases hi with
  | fin l =>
    simp only [F32.updateMax] at hm
    split_ifs at hm with hx
    · cases hm
      exact le_refl _
    · cases hm
      exact not_lt.mp hx
  | posInf => simp [F32.updateMax] at hm

/-- One step of the corner loop only widens the screen bounds and never lowers
the count of projected corners. -/
theorem cornerStep_mono {K : Type} [LinearOrderedField K] (viewProj : Mat4 K)
    (screenX screenY screenW screenH : K) (s : ProjectedBounds K) (c : Vec3 (F32 K))
    (x0 y0 x1 y1 : K) (n : Nat)
    (h1 : ∀ m, s.sMinX = .fin m → m ≤ x0) (h2 : ∀ m, s.sMinY = .fin m → m ≤ y0)
    (h3 : ∀ m, s.sMaxX = .fin m → x1 ≤ m) (h4 : ∀ m, s.sMaxY = .fin m → y1 ≤ m)
    (h5 : n ≤ s.projected) :
    (∀ m, (DrawEntityESP.cornerStep viewProj screenX screenY screenW screenH s c).sMinX = .fin m →
      m ≤ x0) ∧
    (∀ m, (DrawEntityESP.cornerStep viewProj screenX screenY screenW screenH s c).sMinY = .fin m →
      m ≤ y0) ∧
    (∀ m, (DrawEntityESP.cornerStep viewProj screenX screenY screenW screenH s c).sMaxX = .fin m →
      x1 ≤ m) ∧
    (∀ m, (DrawEntityESP.cornerStep viewProj screenX screenY screenW screenH s c).sMaxY = .fin m →
      y1 ≤ m) ∧
    n ≤ (DrawEntityESP.cornerStep viewProj screenX screenY screenW screenH s c).projected := by
  unfold DrawEntityESP.cornerStep
  cases h : F32.WorldToScreen c viewProj screenW screenH with
  | none => exact ⟨h1, h2, h3, h4, h5⟩
  | some p =>
    obtain ⟨sx, sy⟩ := p
    exact ⟨updateMin_le _ _ _ h1, updateMin_le _ _ _ h2, updateMax_ge _ _ _ h3,
      updateMax_ge _ _ _ h4, Nat.le_succ_of_le h5⟩

/-- A step of the corner loop for a corner with finite coordinates that
projects takes the corner into the screen bounds and counts it. -/
theorem cornerStep_some {K : Type} [LinearOrderedField K] (viewProj : Mat4 K)
    (screenX screenY screenW screenH : K) (s : ProjectedBounds K) (x y z sx sy : K)
    (h : WorldToScreen ⟨x, y, z⟩ viewProj screenW screenH = some (sx, sy)) :
    (∀ m, (DrawEntityESP.cornerStep viewProj screenX screenY screenW screenH s
        ⟨.fin x, .fin y, .fin z⟩).sMinX = .fin m → m ≤ sx + screenX) ∧
    (∀ m, (DrawEntityESP.cornerStep viewProj screenX screenY screenW screenH s
        ⟨.fin x, .fin y, .fin z⟩).sMinY = .fin m → m ≤ sy + screenY) ∧
    (∀ m, (DrawEntityESP.cornerStep viewProj screenX screenY screenW screenH s
        ⟨.fin x, .fin y, .fin z⟩).sMaxX = .fin m → sx + screenX ≤ m) ∧
    (∀ m, (DrawEntityESP.cornerStep viewProj screenX screenY screenW screenH s
        ⟨.fin x, .fin y, .fin z⟩).sMaxY = .fin m → sy + screenY ≤ m) ∧
    1 ≤ (DrawEntityESP.cornerStep viewProj screenX screenY screenW screenH s
        ⟨.fin x, .fin y, .fin z⟩).projected := by
  unfold DrawEntityESP.cornerStep
  rw [WorldToScreen_fin, h]
  simp only [Option.map_some', F32.add]
  exact ⟨updateMin_self _ _, updateMin_self _ _, updateMax_self _ _, updateMax_self _ _,
    Nat.succ_pos _⟩

/-- The corner loop only widens the screen bounds it starts from. -/
theorem cornerLoop_mono {K : Type} [LinearOrderedField K] (viewProj : Mat4 K)
    (screenX screenY screenW screenH : K) (corners : List (Vec3 (F32 K)))
    (x0 y0 x1 y1 : K) (n : Nat) :
    ∀ s : ProjectedBounds K,
      (∀ m, s.sMinX = .fin m → m ≤ x0) → (∀ m, s.sMinY = .fin m → m ≤ y0) →
      (∀ m, s.sMaxX = .fin m → x1 ≤ m) → (∀ m, s.sMaxY = .fin m → y1 ≤ m) →
      n ≤ s.projected →
      (∀ m, (corners.foldl (DrawEntityESP.cornerStep viewProj screenX screenY screenW screenH)
        s).sMinX = .fin m → m ≤ x0) ∧
      (∀ m, (corners.foldl (DrawEntityESP.cornerStep viewProj screenX screenY screenW screenH)
        s).sMinY = .fin m → m ≤ y0) ∧
      (∀ m, (corners.foldl (DrawEntityESP.cornerStep viewProj screenX screenY screenW screenH)
        s).sMaxX = .fin m → x1 ≤ m) ∧
      (∀ m, (corners.foldl (DrawEntityESP.cornerStep viewProj screenX screenY screenW screenH)
        s).sMaxY = .fin m → y1 ≤ m) ∧
      n ≤ (corners.foldl (DrawEntityESP.cornerStep viewProj screenX screenY screenW screenH)
        s).projected := by
  induction corners with
  | nil => intro s h1 h2 h3 h4 h5; exact ⟨h1, h2, h3, h4, h5⟩
  | cons c rest ih =>
    intro s h1 h2 h3 h4 h5
    simp only [List.foldl_cons]
    obtain ⟨a1, a2, a3, a4, a5⟩ :=
      cornerStep_mono viewProj screenX screenY screenW screenH s c x0 y0 x1 y1 n h1 h2 h3 h4 h5
    exact ih _ a1 a2 a3 a4 a5

/-- Every corner with finite coordinates that projects lies within the screen
bounds the corner loop computes, and is counted. -/
theorem project_contains {K : Type} [LinearOrderedField K] (viewProj : Mat4 K)
    (screenX screenY screenW screenH : K) (corners : List (Vec3 (F32 K))) (x y z sx sy : K)
    (hc : (⟨.fin x, .fin y, .fin z⟩ : Vec3 (F32 K)) ∈ corners)
    (h : WorldToScreen ⟨x, y, z⟩ viewProj screenW screenH = some (sx, sy)) :
    (∀ m, (DrawEntityESP.project viewProj screenX screenY screenW screenH corners).sMinX =
      .fin m → m ≤ sx + screenX) ∧
    (∀ m, (DrawEntityESP.project viewProj screenX screenY screenW screenH corners).sMinY =
      .fin m → m ≤ sy + screenY) ∧
    (∀ m, (DrawEntityESP.project viewProj screenX screenY screenW screenH corners).sMaxX =
      .fin m → sx + screenX ≤ m) ∧
    (∀ m, (DrawEntityESP.project viewProj screenX screenY screenW screenH corners).sMaxY =
      .fin m → sy + screenY ≤ m) ∧
    1 ≤ (DrawEntityESP.project viewProj screenX screenY screenW screenH corners).projected := by
  unfold DrawEntityESP.project
  generalize (⟨.fin (FLT_MAX K), .fin (FLT_MAX K), .fin (-FLT_MAX K), .fin (-FLT_MAX K), 0⟩ :
    ProjectedBounds K) = s0
  induction corners generalizing s0 with
  | nil => cases hc
  | cons d rest ih =>
    simp only [List.foldl_cons]
    rcases List.mem_cons.mp hc with hd | hr
    · subst hd
      obtain ⟨a1, a2, a3, a4, a5⟩ :=
        cornerStep_some viewProj screenX screenY screenW screenH s0 x y z sx sy h
      exact cornerLoop_mono viewProj screenX screenY screenW screenH rest _ _ _ _ 1 _
        a1 a2 a3 a4 a5
    · exact ih hr _

/-- The primitives of one entity, when there are any: the rectangle of the
clamped screen bounds, which are at least 2 wide and 2 high, then the snap
line from the bottom centre of the drawable rectangle to
`((sMinX + sMaxX) * 0.5, sMaxY)` when snap lines are shown, then the label when
labels or distances are shown. -/
theorem emit_eq {K : Type} [LinearOrderedField K] (cfg : EspConfig K)
    (screenX screenY screenW screenH : K) (ent : EntityData) (dist : F32 K)
    (s : ProjectedBounds K) :
    DrawEntityESP.emit cfg screenX screenY screenW screenH ent dist s = [] ∨
    (s.projected ≠ 0 ∧
      2 ≤ (DrawEntityESP.clamp screenX screenY screenW screenH s).sMaxX -
        (DrawEntityESP.clamp screenX screenY screenW screenH s).sMinX ∧
      2 ≤ (DrawEntityESP.clamp screenX screenY screenW screenH s).sMaxY -
        (DrawEntityESP.clamp screenX screenY screenW screenH s).sMinY ∧
      DrawEntityESP.emit cfg screenX screenY screenW screenH ent dist s =
        [DrawCmd.AddRect
          ⟨(DrawEntityESP.clamp screenX screenY screenW screenH s).sMinX,
            (DrawEntityESP.clamp screenX screenY screenW screenH s).sMinY⟩
          ⟨(DrawEntityESP.clamp screenX screenY screenW screenH s).sMaxX,
            (DrawEntityESP.clamp screenX screenY screenW screenH s).sMaxY⟩
          (DrawEntityESP.boxColor cfg) 0 0 cfg.thickness] ++
        (if cfg.showSnaplines then
          [DrawCmd.AddLine ⟨screenX + screenW * (1 / 2), screenY + screenH⟩
            ⟨((DrawEntityESP.clamp screenX screenY screenW screenH s).sMinX +
                (DrawEntityESP.clamp screenX screenY screenW screenH s).sMaxX) * (1 / 2),
              (DrawEntityESP.clamp screenX screenY screenW screenH s).sMaxY⟩
            (DrawEntityESP.boxColor cfg) 1]
         else []) ++
        (if cfg.showLabels || cfg.showDistance then
          [DrawCmd.AddText
            ⟨(DrawEntityESP.clamp screenX screenY screenW screenH s).sMinX,
              (DrawEntityESP.clamp screenX screenY screenW screenH s).sMinY - 14⟩
            (DrawEntityESP.boxColor cfg)
            (if cfg.showLabels && cfg.showDistance then Label.indexAndDistance ent.index dist
             else if cfg.showLabels then Label.index ent.index
             else Label.distance dist)]
         else [])) := by
  unfold DrawEntityESP.emit
  by_cases hp : s.projected = 0
  · left
    simp only [hp, if_true]
  · by_cases hs : (DrawEntityESP.clamp screenX screenY screenW screenH s).sMaxX -
        (DrawEntityESP.clamp screenX screenY screenW screenH s).sMinX < 2 ∨
      (DrawEntityESP.clamp screenX screenY screenW screenH s).sMaxY -
        (DrawEntityESP.clamp screenX screenY screenW screenH s).sMinY < 2
    · left
      simp only [hp, if_false, hs, if_true]
    · right
      have hs' := not_or.mp hs
      refine ⟨hp, not_lt.mp hs'.1, not_lt.mp hs'.2, ?_⟩
      simp only [hp, if_false, hs]

/-- The primitives of one entity are those of `emit` or none. -/
theorem entity_eq {K : Type} [LinearOrderedField K] [FloorRing K] (lm : Libm K)
    (cfg : EspConfig K) (screenX screenY screenW screenH : K) (viewProj : Mat4 K)
    (ent : EntityData) :
    DrawEntityESP.entity lm cfg screenX screenY screenW screenH viewProj ent = [] ∨
    (ent.valid = true ∧
      F32.lt (.fin cfg.maxDrawDist) (DrawEntityESP.dist lm cfg ent) = false ∧
      DrawEntityESP.entity lm cfg screenX screenY screenW screenH viewProj ent =
        DrawEntityESP.emit cfg screenX screenY screenW screenH ent (DrawEntityESP.dist lm cfg ent)
          (DrawEntityESP.project viewProj screenX screenY screenW screenH
            (DrawEntityESP.corners (DrawEntityESP.box ent)))) := by
  unfold DrawEntityESP.entity
  by_cases hv : ent.valid = false
  · left
    simp only [hv, if_true]
  · by_cases hd : F32.lt (.fin cfg.maxDrawDist) (DrawEntityESP.dist lm cfg ent) = true
    · left
      rw [if_neg hv]
      simp only [hd, if_true]
    · right
      refine ⟨by simpa using hv, by simpa using hd, ?_⟩
      rw [if_neg hv]
      simp only [hd, Bool.false_eq_true, if_false]

/-! ## Properties of the rectangle clamp -/

/-- The bits `0xC000000000000000` are the double -2. -/
theorem value_dbl_neg2 : Double.value 0xC000000000000000 = -2 := by
  unfold Double.value Double.scaled
  norm_num

/-- The bits `0xBFF0000000000000` are the double -1. -/
theorem value_dbl_neg1 : Double.value 0xBFF0000000000000 = -1 := by
  unfold Double.value Double.scaled
  norm_num

/-- The conversion to `float` of a finite `double` that stands for an integer of
magnitude below `2 ^ 24` is that integer. -/
theorem toFloat_int {K : Type} [LinearOrderedField K] [FloorRing K] (x : Double) (n : ℤ)
    (hf : x.isFinite = true) (hv : Double.value x = n) (hn : |n| < 2 ^ 24) :
    (Double.toFloat x : F32 K) = .fin (n : K) := by
  apply toFloat_exact x _ hf _ (fl32_int n hn)
  · unfold FLT_MAX
    have h1 : ((|n| : ℤ) : K) < ((2 ^ 24 : ℤ) : K) := by exact_mod_cast hn
    push_cast at h1
    have h2 : (2 : K) ^ 24 ≤ 340282346638528859811704183484516925440 := by norm_num
    linarith
  · rw [hv]
    norm_cast

/-- The `double` 1000 converts to the `float` 1000. -/
theorem toFloat_dbl_1000 {K : Type} [LinearOrderedField K] [FloorRing K] :
    (Double.toFloat dbl_1000 : F32 K) = .fin 1000 := by
  have h := toFloat_int (K := K) dbl_1000 1000 (by decide)
    (by rw [value_dbl_1000]; norm_num) (by norm_num)
  simpa using h

/-- The `double` -1000 converts to the `float` -1000. -/
theorem toFloat_dbl_neg1000 {K : Type} [LinearOrderedField K] [FloorRing K] :
    (Double.toFloat dbl_neg1000 : F32 K) = .fin (-1000) := by
  have h := toFloat_int (K := K) dbl_neg1000 (-1000) (by decide)
    (by rw [value_dbl_neg1000]; norm_num) (by norm_num)
  simpa using h

/-- The `double` 0 converts to the `float` 0. -/
theorem toFloat_zero {K : Type} [LinearOrderedField K] [FloorRing K] :
    (Double.toFloat 0 : F32 K) = .fin 0 := by
  have h := toFloat_int (K := K) 0 0 (by decide)
    (by unfold Double.value; simp [scaled_zero]) (by norm_num)
  simpa using h

/-- The `double` -2 converts to the `float` -2. -/
theorem toFloat_dbl_neg2 {K : Type} [LinearOrderedField K] [FloorRing K] :
    (Double.toFloat 0xC000000000000000 : F32 K) = .fin (-2) := by
  have h := toFloat_int (K := K) 0xC000000000000000 (-2) (by decide)
    (by rw [value_dbl_neg2]; norm_num) (by norm_num)
  simpa using h

/-- The `double` -1 converts to the `float` -1. -/
theorem toFloat_dbl_neg1 {K : Type} [LinearOrderedField K] [FloorRing K] :
    (Double.toFloat 0xBFF0000000000000 : F32 K) = .fin (-1) := by
  have h := toFloat_int (K := K) 0xBFF0000000000000 (-1) (by decide)
    (by rw [value_dbl_neg1]; norm_num) (by norm_num)
  simpa using h

/-- The clip coordinates `DrawEntityESP` computes for a camera at the origin with
yaw 0 and pitch 0, when `sinf(0) = 0`, `cosf(0) = 1` and `sqrtf(1) = 1`: with
`t = tanf(fovY * DEG2RAD / 2)`, they are `x / (aspect * t)`, `y / t` and `w = -z`. -/
theorem viewProj_at_origin {K : Type} [LinearOrderedField K] (lm : Libm K) (cfg : EspConfig K)
    (screenW screenH : K) (hs : lm.sinf 0 = 0) (hc : lm.cosf 0 = 1) (hq : lm.sqrtf 1 = 1)
    (hpos : cfg.camPos = ⟨0, 0, 0⟩) (hyaw : cfg.camYaw = 0) (hpitch : cfg.camPitch = 0)
    (world : Vec3 K) :
    (Mul (DrawEntityESP.viewProj lm cfg screenW screenH) ⟨world.x, world.y, world.z, 1⟩).x =
      world.x / (screenW / screenH * lm.tanf (cfg.fovY * DEG2RAD K * (1 / 2))) ∧
    (Mul (DrawEntityESP.viewProj lm cfg screenW screenH) ⟨world.x, world.y, world.z, 1⟩).y =
      world.y / lm.tanf (cfg.fovY * DEG2RAD K * (1 / 2)) ∧
    (Mul (DrawEntityESP.viewProj lm cfg screenW screenH) ⟨world.x, world.y, world.z, 1⟩).w =
      -world.z := by
  have h1 : ¬ ((1 : K) < 100000000⁻¹) := by norm_num
  refine ⟨?_, ?_, viewProj_clip_w lm cfg screenW screenH world⟩
  · unfold DrawEntityESP.viewProj
    simp only [Mul_Multiply]
    simp [Mul, BuildViewMatrix, Mat4.LookAt, Mat4.PerspectiveFov, cameraForward, hpos, hyaw,
      hpitch, hs, hc, hq, h1, Matrix.vecHead, Matrix.vecTail]
    simp only [div_eq_mul_inv, mul_inv, inv_inv]
    ring
  · unfold DrawEntityESP.viewProj
    simp only [Mul_Multiply]
    simp [Mul, BuildViewMatrix, Mat4.LookAt, Mat4.PerspectiveFov, cameraForward, hpos, hyaw,
      hpitch, hs, hc, hq, h1, Matrix.vecHead, Matrix.vecTail]
    simp only [div_eq_mul_inv]
    ring

/-- With the default field of view of 70 degrees the half-angle tangent of the
projection lies between 0 and 1. -/
theorem tanHalf_default_bounds :
    0 < Real.tan (70 * DEG2RAD ℝ * (1 / 2)) ∧ Real.tan (70 * DEG2RAD ℝ * (1 / 2)) < 1 := by
  have hpi := Real.pi_gt_three
  have hx0 : (0 : ℝ) < 70 * DEG2RAD ℝ * (1 / 2) := by
    unfold DEG2RAD
    norm_num
  have hx1 : 70 * DEG2RAD ℝ * (1 / 2) < Real.pi / 4 := by
    unfold DEG2RAD
    norm_num
    linarith
  constructor
  · exact Real.tan_pos_of_pos_of_lt_pi_div_two hx0 (by linarith)
  · have h := Real.tan_lt_tan_of_lt_of_lt_pi_div_two
      (by linarith : -(Real.pi / 2) < 70 * DEG2RAD ℝ * (1 / 2))
      (by linarith : Real.pi / 4 < Real.pi / 2) hx1
    rwa [Real.tan_pi_div_four] at h

/-- The clamp of screen bounds that reach beyond the drawable rectangle on all
four sides is the drawable rectangle. -/
theorem clamp_covering {K : Type} [LinearOrderedField K] (screenX screenY screenW screenH : K)
    (s : ProjectedBounds K) (h1 : ∀ m, s.sMinX = .fin m → m ≤ screenX)
    (h2 : ∀ m, s.sMinY = .fin m → m ≤ screenY)
    (h3 : ∀ m, s.sMaxX = .fin m → screenX + screenW ≤ m)
    (h4 : ∀ m, s.sMaxY = .fin m → screenY + screenH ≤ m) :
    DrawEntityESP.clamp screenX screenY screenW screenH s =
      ⟨screenX, screenY, screenX + screenW, screenY + screenH, s.projected⟩ := by
  obtain ⟨a, b, c, d, n⟩ := s
  unfold DrawEntityESP.clamp
  simp only [ScreenBounds.mk.injEq, and_true]
  refine ⟨?_, ?_, ?_, ?_⟩
  · cases a with
    | fin m =>
      simp only
      split_ifs with h
      · rfl
      · exact le_antisymm (h1 m rfl) (not_lt.mp h)
    | negInf => rfl
  · cases b with
    | fin m =>
      simp only
      split_ifs with h
      · rfl
      · exact le_antisymm (h2 m rfl) (not_lt.mp h)
    | negInf => rfl
  · cases c with
    | fin m =>
      simp only
      split_ifs with h
      · rfl
      · exact le_antisymm (not_lt.mp h) (h3 m rfl)
    | posInf => rfl
  · cases d with
    | fin m =>
      simp only
      split_ifs with h
      · rfl
      · exact le_antisymm (not_lt.mp h) (h4 m rfl)
    | posInf => rfl

/-- The primitives of a valid entity in range of which one corner projects to
the left of and below the drawable rectangle and another to the right of and
above it, on a screen of at least 2 by 2: the rectangle is the drawable
rectangle, and the snap line ends at the centre of its bottom edge. -/
theorem entity_covering {K : Type} [LinearOrderedField K] [FloorRing K] (lm : Libm K)
    (cfg : EspConfig K) (screenX screenY screenW screenH : K) (viewProj : Mat4 K)
    (ent : EntityData) (c1 c2 : Vec3 K) (p1 p2 : K × K)
    (hv : ent.valid = true)
    (hd : F32.lt (.fin cfg.maxDrawDist) (DrawEntityESP.dist lm cfg ent) = false)
    (hc1 : (⟨.fin c1.x, .fin c1.y, .fin c1.z⟩ : Vec3 (F32 K)) ∈
      DrawEntityESP.corners (DrawEntityESP.box ent))
    (hc2 : (⟨.fin c2.x, .fin c2.y, .fin c2.z⟩ : Vec3 (F32 K)) ∈
      DrawEntityESP.corners (DrawEntityESP.box ent))
    (hp1 : WorldToScreen c1 viewProj screenW screenH = some p1)
    (hp2 : WorldToScreen c2 viewProj screenW screenH = some p2)
    (h1x : p1.1 ≤ 0) (h1y : screenH ≤ p1.2) (h2x : screenW ≤ p2.1) (h2y : p2.2 ≤ 0)
    (hW : 2 ≤ screenW) (hH : 2 ≤ screenH) :
    DrawEntityESP.entity lm cfg screenX screenY screenW screenH viewProj ent =
      [DrawCmd.AddRect ⟨screenX, screenY⟩ ⟨screenX + screenW, screenY + screenH⟩
        (DrawEntityESP.boxColor cfg) 0 0 cfg.thickness] ++
      (if cfg.showSnaplines then
        [DrawCmd.AddLine ⟨screenX + screenW * (1 / 2), screenY + screenH⟩
          ⟨(screenX + (screenX + screenW)) * (1 / 2), screenY + screenH⟩
          (DrawEntityESP.boxColor cfg) 1]
       else []) ++
      (if cfg.showLabels || cfg.showDistance then
        [DrawCmd.AddText ⟨screenX, screenY - 14⟩ (DrawEntityESP.boxColor cfg)
          (if cfg.showLabels && cfg.showDistance then
            Label.indexAndDistance ent.index (DrawEntityESP.dist lm cfg ent)
           else if cfg.showLabels then Label.index ent.index
           else Label.distance (DrawEntityESP.dist lm cfg ent))]
       else []) := by
  obtain ⟨sx1, sy1⟩ := p1
  obtain ⟨sx2, sy2⟩ := p2
  obtain ⟨x1, y1, z1⟩ := c1
  obtain ⟨x2, y2, z2⟩ := c2
  simp only at h1x h1y h2x h2y hc1 hc2
  obtain ⟨a1, _, _, a4, a5⟩ :=
    project_contains viewProj screenX screenY screenW screenH _ x1 y1 z1 sx1 sy1 hc1 hp1
  obtain ⟨_, b2, b3, _, _⟩ :=
    project_contains viewProj screenX screenY screenW screenH _ x2 y2 z2 sx2 sy2 hc2 hp2
  have hcl := clamp_covering screenX screenY screenW screenH
    (DrawEntityESP.project viewProj screenX screenY screenW screenH
      (DrawEntityESP.corners (DrawEntityESP.box ent)))
    (fun m hm => by have := a1 m hm; linarith) (fun m hm => by have := b2 m hm; linarith)
    (fun m hm => by have := b3 m hm; linarith) (fun m hm => by have := a4 m hm; linarith)
  have hproj : (DrawEntityESP.project viewProj screenX screenY screenW screenH
      (DrawEntityESP.corners (DrawEntityESP.box ent))).projected ≠ 0 := by omega
  unfold DrawEntityESP.entity
  simp only [hv, hd, Bool.true_eq_false, Bool.false_eq_true, if_false]
  unfold DrawEntityESP.emit
  rw [if_neg hproj, hcl]
  simp only
  rw [if_neg (by
    intro h
    rcases h with h | h <;> linarith)]

/-- The box of `wallEntity` is its own bounding box. -/
theorem box_wallEntity {K : Type} [LinearOrderedField K] [FloorRing K] :
    (DrawEntityESP.box wallEntity : Aabb (F32 K)) =
      ⟨.fin (-1000), .fin (-1000), .fin (-2), .fin 1000, .fin 1000, .fin (-1)⟩ := by
  unfold DrawEntityESP.box
  rw [if_pos (by decide)]
  simp only [wallEntity, toFloat_dbl_1000, toFloat_dbl_neg1000, toFloat_dbl_neg1,
    toFloat_dbl_neg2]

/-- The projection of a corner at depth `z = -2` by the matrix of `DrawEntityESP`
for a camera at the origin with yaw 0, pitch 0 and the default field of
view, over the reals. -/
theorem WorldToScreen_wall_corner (x y : ℝ) :
    WorldToScreen (⟨x, y, -2⟩ : Vec3 ℝ)
      (DrawEntityESP.viewProj ⟨Real.sin, Real.cos, Real.tan, Real.sqrt⟩
        ({ camPos := ⟨0, 0, 0⟩, showSnaplines := true } : EspConfig ℝ) 800 600) 800 600 =
      some ((x / (800 / 600 * Real.tan (70 * DEG2RAD ℝ * (1 / 2))) / 2 * (1 / 2) + 1 / 2) * 800,
        (-(y / Real.tan (70 * DEG2RAD ℝ * (1 / 2)) / 2) * (1 / 2) + 1 / 2) * 600) := by
  obtain ⟨hx, hy, hw⟩ := viewProj_at_origin ⟨Real.sin, Real.cos, Real.tan, Real.sqrt⟩
    ({ camPos := ⟨0, 0, 0⟩, showSnaplines := true } : EspConfig ℝ) 800 600
    Real.sin_zero Real.cos_zero Real.sqrt_one rfl rfl rfl ⟨x, y, -2⟩
  unfold WorldToScreen
  simp only [hx, hy, hw, neg_neg]
  rw [if_neg (by unfold FLT_0_001; norm_num)]

/-- The rounding of zero is zero. -/
theorem rnd_zero {K : Type} [LinearOrderedField K] [FloorRing K] :
    F32.rnd (.fin (0 : K)) = .fin 0 := by
  have h := rnd_int (K := K) 0 (by norm_num)
  simpa using h

/-- The distance of an entity at the position of the camera is 0, when
`sqrtf(0) = 0`. -/
theorem dist_at_camera {K : Type} [LinearOrderedField K] [FloorRing K] (lm : Libm K)
    (cfg : EspConfig K) (ent : EntityData) (hq : lm.sqrtf 0 = 0)
    (hx : (Double.toFloat ent.posX : F32 K) = .fin cfg.camPos.x)
    (hy : (Double.toFloat ent.posY : F32 K) = .fin cfg.camPos.y)
    (hz : (Double.toFloat ent.posZ : F32 K) = .fin cfg.camPos.z) :
    DrawEntityESP.dist lm cfg ent = .fin 0 := by
  unfold DrawEntityESP.dist
  simp only [hx, hy, hz, F32.sub, F32.neg, F32.add, add_neg_cancel, rnd_zero, F32.mul,
    mul_zero, add_zero, F32.sqrtf, lt_irrefl, if_false, hq]

/-- The draw list of `DrawEntityESP` for `wallEntity`, over the reals with the
functions of the real library: camera at the origin with yaw 0 and pitch 0,
snap lines shown, the other settings at their defaults, drawable rectangle
800 by 600 at `(0, 0)`. The rectangle is the drawable rectangle, the snap line
runs from `(400, 600)` to `(400, 600)`, the centre of the bottom edge of the
rectangle, and the label is anchored at `(0, -14)`. -/
theorem DrawEntityESP_wallEntity :
    DrawEntityESP ⟨Real.sin, Real.cos, Real.tan, Real.sqrt⟩ [wallEntity]
      ({ camPos := ⟨0, 0, 0⟩, showSnaplines := true } : EspConfig ℝ) 0 0 800 600 =
    [DrawCmd.AddRect ⟨0, 0⟩ ⟨800, 600⟩ ⟨255, 153 / 4, 153 / 4, 255⟩ 0 0 2,
     DrawCmd.AddLine ⟨400, 600⟩ ⟨400, 600⟩ ⟨255, 153 / 4, 153 / 4, 255⟩ 1,
     DrawCmd.AddText ⟨0, -14⟩ ⟨255, 153 / 4, 153 / 4, 255⟩ (Label.indexAndDistance 5 0)] := by
  obtain ⟨ht0, ht1⟩ := tanHalf_default_bounds
  have hu : 1 < (Real.tan (70 * DEG2RAD ℝ * (1 / 2)))⁻¹ := by
    rw [← one_div]
    exact (one_lt_div ht0).mpr ht1
  have hdist : DrawEntityESP.dist ⟨Real.sin, Real.cos, Real.tan, Real.sqrt⟩
      ({ camPos := ⟨0, 0, 0⟩, showSnaplines := true } : EspConfig ℝ) wallEntity = .fin 0 :=
    dist_at_camera _ _ _ Real.sqrt_zero toFloat_zero toFloat_zero toFloat_zero
  have hent := entity_covering ⟨Real.sin, Real.cos, Real.tan, Real.sqrt⟩
    ({ camPos := ⟨0, 0, 0⟩, showSnaplines := true } : EspConfig ℝ) 0 0 800 600
    (DrawEntityESP.viewProj ⟨Real.sin, Real.cos, Real.tan, Real.sqrt⟩
      ({ camPos := ⟨0, 0, 0⟩, showSnaplines := true } : EspConfig ℝ) 800 600)
    wallEntity ⟨-1000, -1000, -2⟩ ⟨1000, 1000, -2⟩ _ _ rfl
    (by rw [hdist]; simp [F32.lt])
    (by rw [box_wallEntity]; simp [DrawEntityESP.corners])
    (by rw [box_wallEntity]; simp [DrawEntityESP.corners])
    (WorldToScreen_wall_corner (-1000) (-1000)) (WorldToScreen_wall_corner 1000 1000)
    (by
      simp only [div_eq_mul_inv, mul_inv, inv_inv]
      nlinarith)
    (by
      simp only [div_eq_mul_inv, mul_inv, inv_inv]
      nlinarith)
    (by
      simp only [div_eq_mul_inv, mul_inv, inv_inv]
      nlinarith)
    (by
      simp only [div_eq_mul_inv, mul_inv, inv_inv]
      nlinarith)
    (by norm_num) (by norm_num)
  unfold DrawEntityESP
  rw [if_neg (by norm_num)]
  simp only [List.flatMap_cons, List.flatMap_nil, List.append_nil]
  rw [hent, hdist]
  simp [DrawEntityESP.boxColor, wallEntity]
  norm_num
  rfl

/-- A snap line among the primitives of one entity starts at the bottom centre
of the drawable rectangle and ends at `((sMinX + sMaxX) * 0.5, sMaxY)` of the
clamped screen bounds: the centre of the edge with the larger screen Y (the
bottom edge), which lies at least 2 below the edge with the smaller one. -/
theorem emit_line {K : Type} [LinearOrderedField K] (cfg : EspConfig K)
    (screenX screenY screenW screenH : K) (ent : EntityData) (dist : F32 K)
    (s : ProjectedBounds K) (p1 p2 : ImVec2 K) (col : BoxColor K) (thickness : K)
    (h : DrawCmd.AddLine p1 p2 col thickness ∈
      DrawEntityESP.emit cfg screenX screenY screenW screenH ent dist s) :
    p1 = ⟨screenX + screenW * (1 / 2), screenY + screenH⟩ ∧
    p2 = ⟨((DrawEntityESP.clamp screenX screenY screenW screenH s).sMinX +
          (DrawEntityESP.clamp screenX screenY screenW screenH s).sMaxX) * (1 / 2),
        (DrawEntityESP.clamp screenX screenY screenW screenH s).sMaxY⟩ ∧
    (DrawEntityESP.clamp screenX screenY screenW screenH s).sMinY + 2 ≤ p2.y ∧
    p2 ≠ ⟨((DrawEntityESP.clamp screenX screenY screenW screenH s).sMinX +
          (DrawEntityESP.clamp screenX screenY screenW screenH s).sMaxX) * (1 / 2),
        (DrawEntityESP.clamp screenX screenY screenW screenH s).sMinY⟩ := by
  rcases emit_eq cfg screenX screenY screenW screenH ent dist s with h0 | ⟨_, _, hh, heq⟩
  · rw [h0] at h
    cases h
  · rw [heq] at h
    simp only [List.mem_append, List.mem_singleton] at h
    have key : p1 = ⟨screenX + screenW * (1 / 2), screenY + screenH⟩ ∧
        p2 = ⟨((DrawEntityESP.clamp screenX screenY screenW screenH s).sMinX +
          (DrawEntityESP.clamp screenX screenY screenW screenH s).sMaxX) * (1 / 2),
        (DrawEntityESP.clamp screenX screenY screenW screenH s).sMaxY⟩ := by
      rcases h with (h | h) | h
      · cases h
      · split_ifs at h
        · simp only [List.mem_singleton, DrawCmd.AddLine.injEq] at h
          exact ⟨h.1, h.2.1⟩
        · cases h
      · split_ifs at h <;> simp at h
    obtain ⟨k1, k2⟩ := key
    refine ⟨k1, k2, ?_, ?_⟩
    · rw [k2]
      simp only
      linarith
    · rw [k2]
      intro hc
      simp only [ImVec2.mk.injEq, true_and] at hc
      linarith

/-- C25, the code at a failing input, over the reals with the functions of the
real library: camera at the origin with yaw 0 and pitch 0, snap lines shown,
the other settings at their defaults, drawable rectangle 800 by 600 at
`(0, 0)`, and the one entity `wallEntity`. The rectangle drawn reaches from
`(0, 0)` to `(800, 600)`, so the centre of its top edge is `(400, 0)`; the snap
line drawn runs from `(400, 600)` to `(400, 600)`, the centre of the bottom
edge. -/
theorem DrawEntityESP_snapline_to_bottom_edge :
    DrawEntityESP ⟨Real.sin, Real.cos, Real.tan, Real.sqrt⟩ [wallEntity]
      ({ camPos := ⟨0, 0, 0⟩, showSnaplines := true } : EspConfig ℝ) 0 0 800 600 =
    [DrawCmd.AddRect ⟨0, 0⟩ ⟨800, 600⟩ ⟨255, 153 / 4, 153 / 4, 255⟩ 0 0 2,
     DrawCmd.AddLine ⟨400, 600⟩ ⟨400, 600⟩ ⟨255, 153 / 4, 153 / 4, 255⟩ 1,
     DrawCmd.AddText ⟨0, -14⟩ ⟨255, 153 / 4, 153 / 4, 255⟩ (Label.indexAndDistance 5 0)] ∧
    (⟨400, 600⟩ : ImVec2 ℝ) ≠ ⟨(0 + 800) / 2, 0⟩ := by
  refine ⟨DrawEntityESP_wallEntity, ?_⟩
  intro h
  simp only [ImVec2.mk.injEq] at h
  norm_num at h

/-! ## The rounding error of the distance -/

/-- The Euclidean norm of a perturbed vector exceeds that of the vector by at
most the sum of the magnitudes of the perturbations. -/
theorem norm3_perturb (x y z e1 e2 e3 : ℝ) :
    Real.sqrt ((x + e1) ^ 2 + (y + e2) ^ 2 + (z + e3) ^ 2) ≤
      Real.sqrt (x ^ 2 + y ^ 2 + z ^ 2) + (|e1| + |e2| + |e3|) := by
  have hN0 : 0 ≤ Real.sqrt (x ^ 2 + y ^ 2 + z ^ 2) := Real.sqrt_nonneg _
  have hsq : Real.sqrt (x ^ 2 + y ^ 2 + z ^ 2) ^ 2 = x ^ 2 + y ^ 2 + z ^ 2 :=
    Real.sq_sqrt (by positivity)
  have hx : |x| ≤ Real.sqrt (x ^ 2 + y ^ 2 + z ^ 2) :=
    Real.abs_le_sqrt (by nlinarith [sq_nonneg y, sq_nonneg z])
  have hy : |y| ≤ Real.sqrt (x ^ 2 + y ^ 2 + z ^ 2) :=
    Real.abs_le_sqrt (by nlinarith [sq_nonneg x, sq_nonneg z])
  have hz : |z| ≤ Real.sqrt (x ^ 2 + y ^ 2 + z ^ 2) :=
    Real.abs_le_sqrt (by nlinarith [sq_nonneg x, sq_nonneg y])
  generalize Real.sqrt (x ^ 2 + y ^ 2 + z ^ 2) = N at hN0 hsq hx hy hz
  have h1 : x * e1 ≤ N * |e1| :=
    le_trans (le_abs_self _) (by rw [abs_mul]; exact mul_le_mul_of_nonneg_right hx (abs_nonneg _))
  have h2 : y * e2 ≤ N * |e2| :=
    le_trans (le_abs_self _) (by rw [abs_mul]; exact mul_le_mul_of_nonneg_right hy (abs_nonneg _))
  have h3 : z * e3 ≤ N * |e3| :=
    le_trans (le_abs_self _) (by rw [abs_mul]; exact mul_le_mul_of_nonneg_right hz (abs_nonneg _))
  rw [Real.sqrt_le_iff]
  refine ⟨by positivity, ?_⟩
  nlinarith [sq_abs e1, sq_abs e2, sq_abs e3, mul_nonneg (abs_nonneg e1) (abs_nonneg e2),
    mul_nonneg (abs_nonneg e1) (abs_nonneg e3), mul_nonneg (abs_nonneg e2) (abs_nonneg e3)]

/-- The square root of a number known up to a relative error of `4 / 2 ^ 24` and
an absolute error of `6 / 2 ^ 150`. -/
theorem sqrt_perturb (s T : ℝ) (hT : 0 ≤ T)
    (h : |s - T| ≤ 4 * T / 2 ^ 24 + 6 / 2 ^ 150) :
    |Real.sqrt s - Real.sqrt T| ≤ 4 * Real.sqrt T / 2 ^ 24 + 1 / 2 ^ 73 := by
  have hA0 : 0 ≤ Real.sqrt T := Real.sqrt_nonneg _
  have hA : Real.sqrt T ^ 2 = T := Real.sq_sqrt hT
  generalize Real.sqrt T = A at hA0 hA
  rw [abs_le] at h
  obtain ⟨hl, hu⟩ := h
  rw [abs_le]
  constructor
  · by_cases hy : A - 4 * A / 2 ^ 24 - 1 / 2 ^ 73 ≤ 0
    · linarith [Real.sqrt_nonneg s]
    · have hy' : 0 < A - 4 * A / 2 ^ 24 - 1 / 2 ^ 73 := not_le.mp hy
      have : A - 4 * A / 2 ^ 24 - 1 / 2 ^ 73 ≤ Real.sqrt s := by
        rw [Real.le_sqrt' hy']
        nlinarith [mul_pos hy' hy', mul_nonneg hA0 hA0]
      linarith
  · have : Real.sqrt s ≤ A + 4 * A / 2 ^ 24 + 1 / 2 ^ 73 := by
      rw [Real.sqrt_le_iff]
      refine ⟨by positivity, ?_⟩
      nlinarith [mul_nonneg hA0 hA0]
    linarith

/-- The rounded sum of three rounded non-negative numbers. -/
theorem sum3_error (x1 x2 x3 b1 b2 b3 s1 s : ℝ) (h1 : 0 ≤ x1) (h2 : 0 ≤ x2) (h3 : 0 ≤ x3)
    (hb1 : |b1 - x1| ≤ |x1| / 2 ^ 24 + 1 / 2 ^ 150)
    (hb2 : |b2 - x2| ≤ |x2| / 2 ^ 24 + 1 / 2 ^ 150)
    (hb3 : |b3 - x3| ≤ |x3| / 2 ^ 24 + 1 / 2 ^ 150)
    (hs1 : |s1 - (b1 + b2)| ≤ |b1 + b2| / 2 ^ 24 + 1 / 2 ^ 150)
    (hs : |s - (s1 + b3)| ≤ |s1 + b3| / 2 ^ 24 + 1 / 2 ^ 150) :
    |b1 + b2| ≤ (x1 + x2) * (1 + 1 / 2 ^ 24) + 2 / 2 ^ 150 ∧
    |s1 + b3| ≤ (x1 + x2 + x3) * (1 + 3 / 2 ^ 24) + 5 / 2 ^ 150 ∧
    |s - (x1 + x2 + x3)| ≤ 4 * (x1 + x2 + x3) / 2 ^ 24 + 6 / 2 ^ 150 := by
  rw [abs_of_nonneg h1] at hb1
  rw [abs_of_nonneg h2] at hb2
  rw [abs_of_nonneg h3] at hb3
  rw [abs_le] at hb1 hb2 hb3
  have hB : |b1 + b2| ≤ (x1 + x2) * (1 + 1 / 2 ^ 24) + 2 / 2 ^ 150 := by
    rw [abs_le]
    constructor <;> linarith
  have hs1' : |s1 - (b1 + b2)| ≤
      ((x1 + x2) * (1 + 1 / 2 ^ 24) + 2 / 2 ^ 150) / 2 ^ 24 + 1 / 2 ^ 150 := by
    have := div_le_div_of_nonneg_right hB (by positivity : (0 : ℝ) ≤ 2 ^ 24)
    linarith
  rw [abs_le] at hs1'
  have hC : |s1 + b3| ≤ (x1 + x2 + x3) * (1 + 3 / 2 ^ 24) + 5 / 2 ^ 150 := by
    rw [abs_le]
    constructor <;> linarith
  have hs' : |s - (s1 + b3)| ≤
      ((x1 + x2 + x3) * (1 + 3 / 2 ^ 24) + 5 / 2 ^ 150) / 2 ^ 24 + 1 / 2 ^ 150 := by
    have := div_le_div_of_nonneg_right hC (by positivity : (0 : ℝ) ≤ 2 ^ 24)
    linarith
  rw [abs_le] at hs'
  refine ⟨hB, hC, ?_⟩
  rw [abs_le]
  constructor <;> linarith

/-- The offset of one coordinate: the conversion of the position and the
difference to the camera. -/
theorem offset_error (P c q a : ℝ) (hP : |P| ≤ 30000000) (hc : |c| ≤ 2 ^ 60)
    (hq : |q - P| ≤ |P| / 2 ^ 24 + 1 / 2 ^ 150)
    (ha : |a - (q - c)| ≤ |q - c| / 2 ^ 24 + 1 / 2 ^ 150) :
    |q - c| ≤ 2 ^ 61 ∧ |a| ≤ 2 ^ 62 ∧
    |a - (P - c)| ≤ 2 * |P| / 2 ^ 24 + |P - c| / 2 ^ 24 + 3 / 2 ^ 150 := by
  have hP0 := abs_nonneg P
  have k1 : |q - c| ≤ |P - c| + |q - P| := by
    have := abs_add (P - c) (q - P)
    have e : P - c + (q - P) = q - c := by ring
    rwa [e] at this
  have k2 : |P - c| ≤ |P| + |c| := abs_sub P c
  have k3 : |a| ≤ |q - c| + |a - (q - c)| := by
    have := abs_add (q - c) (a - (q - c))
    have e : q - c + (a - (q - c)) = a := by ring
    rwa [e] at this
  have k4 : |a - (P - c)| ≤ |a - (q - c)| + |q - P| := by
    have := abs_add (a - (q - c)) (q - P)
    have e : a - (q - c) + (q - P) = a - (P - c) := by ring
    rwa [e] at this
  have k5 := abs_nonneg (P - c)
  have n1 : (30000000 : ℝ) + 30000000 / 2 ^ 24 + 1 / 2 ^ 150 + 2 ^ 60 ≤ 2 ^ 61 := by norm_num
  have n2 : (2 : ℝ) ^ 61 + 2 ^ 61 / 2 ^ 24 + 1 / 2 ^ 150 ≤ 2 ^ 62 := by norm_num
  have hqc : |q - c| ≤ 2 ^ 61 := by linarith
  refine ⟨hqc, by linarith, ?_⟩
  have : |q - c| / 2 ^ 24 ≤ |P - c| / 2 ^ 24 + |P| / 2 ^ 24 + 1 / 2 ^ 150 := by
    have h1 : |q - c| / 2 ^ 24 ≤ (|P - c| + (|P| / 2 ^ 24 + 1 / 2 ^ 150)) / 2 ^ 24 :=
      div_le_div_of_nonneg_right (by linarith) (by positivity)
    have h2 : |P| / 2 ^ 24 / 2 ^ 24 ≤ |P| / 2 ^ 24 := by
      apply div_le_self (by positivity)
      norm_num
    have h3 : (1 : ℝ) / 2 ^ 150 / 2 ^ 24 ≤ 1 / 2 ^ 150 := by
      apply div_le_self (by positivity)
      norm_num
    have e : (|P - c| + (|P| / 2 ^ 24 + 1 / 2 ^ 150)) / 2 ^ 24 =
        |P - c| / 2 ^ 24 + |P| / 2 ^ 24 / 2 ^ 24 + 1 / 2 ^ 150 / 2 ^ 24 := by ring
    linarith
  linarith

/-- The last step of the error analysis: the errors of the square root, of the
sum of the squares and of the offsets add up to at most
`(D + p1 + p2 + p3) / 2 ^ 20 + 1 / 2 ^ 70`. -/
theorem dist_combine (d r A D e1 e2 e3 p1 p2 p3 t1 t2 t3 : ℝ)
    (hd1 : -(r / 2 ^ 24 + 1 / 2 ^ 150) ≤ d - r) (hd2 : d - r ≤ r / 2 ^ 24 + 1 / 2 ^ 150)
    (hR1 : -(4 * A / 2 ^ 24 + 1 / 2 ^ 73) ≤ r - A) (hR2 : r - A ≤ 4 * A / 2 ^ 24 + 1 / 2 ^ 73)
    (hN1 : A ≤ D + (e1 + e2 + e3)) (hN2 : D ≤ A + (e1 + e2 + e3))
    (he1 : e1 ≤ 2 * p1 / 2 ^ 24 + t1 / 2 ^ 24 + 3 / 2 ^ 150)
    (he2 : e2 ≤ 2 * p2 / 2 ^ 24 + t2 / 2 ^ 24 + 3 / 2 ^ 150)
    (he3 : e3 ≤ 2 * p3 / 2 ^ 24 + t3 / 2 ^ 24 + 3 / 2 ^ 150)
    (ht1 : t1 ≤ D) (ht2 : t2 ≤ D) (ht3 : t3 ≤ D)
    (hD : 0 ≤ D) (hp1 : 0 ≤ p1) (hp2 : 0 ≤ p2) (hp3 : 0 ≤ p3) :
    |d - D| ≤ (D + p1 + p2 + p3) / 2 ^ 20 + 1 / 2 ^ 70 := by
  have hE : e1 + e2 + e3 ≤ 2 * (p1 + p2 + p3) / 2 ^ 24 + 3 * D / 2 ^ 24 + 9 / 2 ^ 150 := by
    linarith
  have hAu : A ≤ D + (2 * (p1 + p2 + p3) / 2 ^ 24 + 3 * D / 2 ^ 24 + 9 / 2 ^ 150) := by linarith
  have hru : r ≤ A + (4 * A / 2 ^ 24 + 1 / 2 ^ 73) := by linarith
  rw [abs_le]
  constructor
  · linarith
  · linarith

/-- The error analysis of the distance computation: `q`, `a`, `b`, `s1`, `s` and
`d` stand for the rounded conversions, differences, squares, sums and square
root, each within half a unit in the last place of its exact value. No
operation overflows, and the result differs from the Euclidean distance by
at most `(D + |P1| + |P2| + |P3|) / 2 ^ 20 + 1 / 2 ^ 70`. -/
theorem dist_analysis (P1 P2 P3 c1 c2 c3 q1 q2 q3 a1 a2 a3 b1 b2 b3 s1 s d : ℝ)
    (hP1 : |P1| ≤ 30000000) (hP2 : |P2| ≤ 30000000) (hP3 : |P3| ≤ 30000000)
    (hc1 : |c1| ≤ 2 ^ 60) (hc2 : |c2| ≤ 2 ^ 60) (hc3 : |c3| ≤ 2 ^ 60)
    (hq1 : |q1 - P1| ≤ |P1| / 2 ^ 24 + 1 / 2 ^ 150)
    (hq2 : |q2 - P2| ≤ |P2| / 2 ^ 24 + 1 / 2 ^ 150)
    (hq3 : |q3 - P3| ≤ |P3| / 2 ^ 24 + 1 / 2 ^ 150)
    (ha1 : |a1 - (q1 - c1)| ≤ |q1 - c1| / 2 ^ 24 + 1 / 2 ^ 150)
    (ha2 : |a2 - (q2 - c2)| ≤ |q2 - c2| / 2 ^ 24 + 1 / 2 ^ 150)
    (ha3 : |a3 - (q3 - c3)| ≤ |q3 - c3| / 2 ^ 24 + 1 / 2 ^ 150)
    (hb1 : |b1 - a1 * a1| ≤ |a1 * a1| / 2 ^ 24 + 1 / 2 ^ 150)
    (hb2 : |b2 - a2 * a2| ≤ |a2 * a2| / 2 ^ 24 + 1 / 2 ^ 150)
    (hb3 : |b3 - a3 * a3| ≤ |a3 * a3| / 2 ^ 24 + 1 / 2 ^ 150)
    (hs1 : |s1 - (b1 + b2)| ≤ |b1 + b2| / 2 ^ 24 + 1 / 2 ^ 150)
    (hs : |s - (s1 + b3)| ≤ |s1 + b3| / 2 ^ 24 + 1 / 2 ^ 150)
    (hd : |d - Real.sqrt s| ≤ |Real.sqrt s| / 2 ^ 24 + 1 / 2 ^ 150) :
    (|q1 - c1| ≤ 2 ^ 127 ∧ |q2 - c2| ≤ 2 ^ 127 ∧ |q3 - c3| ≤ 2 ^ 127) ∧
    (|a1 * a1| ≤ 2 ^ 127 ∧ |a2 * a2| ≤ 2 ^ 127 ∧ |a3 * a3| ≤ 2 ^ 127) ∧
    |b1 + b2| ≤ 2 ^ 127 ∧ |s1 + b3| ≤ 2 ^ 127 ∧ |Real.sqrt s| ≤ 2 ^ 127 ∧
    |d - Real.sqrt ((P1 - c1) ^ 2 + (P2 - c2) ^ 2 + (P3 - c3) ^ 2)| ≤
      (Real.sqrt ((P1 - c1) ^ 2 + (P2 - c2) ^ 2 + (P3 - c3) ^ 2) + |P1| + |P2| + |P3|) / 2 ^ 20
        + 1 / 2 ^ 70 := by
  obtain ⟨m1, n1, e1⟩ := offset_error P1 c1 q1 a1 hP1 hc1 hq1 ha1
  obtain ⟨m2, n2, e2⟩ := offset_error P2 c2 q2 a2 hP2 hc2 hq2 ha2
  obtain ⟨m3, n3, e3⟩ := offset_error P3 c3 q3 a3 hP3 hc3 hq3 ha3
  have big : (2 : ℝ) ^ 61 ≤ 2 ^ 127 := by norm_num
  have sq_bound : ∀ a : ℝ, |a| ≤ 2 ^ 62 → a * a ≤ 2 ^ 124 ∧ 0 ≤ a * a := by
    intro a ha
    refine ⟨?_, mul_self_nonneg a⟩
    have h := mul_le_mul ha ha (abs_nonneg a) (by positivity)
    rw [abs_mul_abs_self] at h
    refine le_trans h ?_
    norm_num
  obtain ⟨x1le, x1nn⟩ := sq_bound a1 n1
  obtain ⟨x2le, x2nn⟩ := sq_bound a2 n2
  obtain ⟨x3le, x3nn⟩ := sq_bound a3 n3
  obtain ⟨hB, hC, hS⟩ := sum3_error (a1 * a1) (a2 * a2) (a3 * a3) b1 b2 b3 s1 s x1nn x2nn x3nn
    hb1 hb2 hb3 hs1 hs
  have hT : a1 * a1 + a2 * a2 + a3 * a3 = a1 ^ 2 + a2 ^ 2 + a3 ^ 2 := by ring
  have hTnn : 0 ≤ a1 ^ 2 + a2 ^ 2 + a3 ^ 2 := by positivity
  have hTle : a1 ^ 2 + a2 ^ 2 + a3 ^ 2 ≤ 3 * 2 ^ 124 := by linarith only [hT, x1le, x2le, x3le]
  have hS' := hS
  rw [hT] at hS'
  have hR := sqrt_perturb s (a1 ^ 2 + a2 ^ 2 + a3 ^ 2) hTnn hS'
  have hAle : Real.sqrt (a1 ^ 2 + a2 ^ 2 + a3 ^ 2) ≤ 2 ^ 63 := by
    rw [Real.sqrt_le_iff]
    refine ⟨by positivity, ?_⟩
    refine le_trans hTle ?_
    norm_num
  have hr0 : 0 ≤ Real.sqrt s := Real.sqrt_nonneg _
  have hN1 := norm3_perturb (P1 - c1) (P2 - c2) (P3 - c3) (a1 - (P1 - c1)) (a2 - (P2 - c2))
    (a3 - (P3 - c3))
  have hN2 := norm3_perturb a1 a2 a3 (-(a1 - (P1 - c1))) (-(a2 - (P2 - c2)))
    (-(a3 - (P3 - c3)))
  have f1 : P1 - c1 + (a1 - (P1 - c1)) = a1 := by ring
  have f2 : P2 - c2 + (a2 - (P2 - c2)) = a2 := by ring
  have f3 : P3 - c3 + (a3 - (P3 - c3)) = a3 := by ring
  have g1 : a1 + -(a1 - (P1 - c1)) = P1 - c1 := by ring
  have g2 : a2 + -(a2 - (P2 - c2)) = P2 - c2 := by ring
  have g3 : a3 + -(a3 - (P3 - c3)) = P3 - c3 := by ring
  rw [f1, f2, f3] at hN1
  rw [g1, g2, g3, abs_neg, abs_neg, abs_neg] at hN2
  have hD0 : 0 ≤ Real.sqrt ((P1 - c1) ^ 2 + (P2 - c2) ^ 2 + (P3 - c3) ^ 2) := Real.sqrt_nonneg _
  have hA1 : |P1 - c1| ≤ Real.sqrt ((P1 - c1) ^ 2 + (P2 - c2) ^ 2 + (P3 - c3) ^ 2) :=
    Real.abs_le_sqrt (by nlinarith only [sq_nonneg (P2 - c2), sq_nonneg (P3 - c3)])
  have hA2 : |P2 - c2| ≤ Real.sqrt ((P1 - c1) ^ 2 + (P2 - c2) ^ 2 + (P3 - c3) ^ 2) :=
    Real.abs_le_sqrt (by nlinarith only [sq_nonneg (P1 - c1), sq_nonneg (P3 - c3)])
  have hA3 : |P3 - c3| ≤ Real.sqrt ((P1 - c1) ^ 2 + (P2 - c2) ^ 2 + (P3 - c3) ^ 2) :=
    Real.abs_le_sqrt (by nlinarith only [sq_nonneg (P1 - c1), sq_nonneg (P2 - c2)])
  rw [abs_of_nonneg hr0] at hd
  rw [abs_le] at hR hd
  have hrle : Real.sqrt s ≤ 2 ^ 127 := by
    have : (2 : ℝ) ^ 63 + 4 * 2 ^ 63 / 2 ^ 24 + 1 / 2 ^ 73 ≤ 2 ^ 127 := by norm_num
    have h4 : 4 * Real.sqrt (a1 ^ 2 + a2 ^ 2 + a3 ^ 2) / 2 ^ 24 ≤ 4 * 2 ^ 63 / 2 ^ 24 := by
      apply div_le_div_of_nonneg_right _ (by positivity)
      linarith only [hAle]
    linarith only [this, h4, hR.2, hAle]
  refine ⟨⟨by linarith only [m1, big], by linarith only [m2, big], by linarith only [m3, big]⟩,
    ⟨?_, ?_, ?_⟩, ?_, ?_, ?_, ?_⟩
  · rw [abs_of_nonneg x1nn]
    refine le_trans x1le ?_
    norm_num
  · rw [abs_of_nonneg x2nn]
    refine le_trans x2le ?_
    norm_num
  · rw [abs_of_nonneg x3nn]
    refine le_trans x3le ?_
    norm_num
  · refine le_trans hB ?_
    have h1 : (a1 * a1 + a2 * a2) * (1 + 1 / 2 ^ 24) ≤ (2 ^ 124 + 2 ^ 124) * (1 + 1 / 2 ^ 24) :=
      mul_le_mul_of_nonneg_right (by linarith only [x1le, x2le]) (by positivity)
    have : ((2 : ℝ) ^ 124 + 2 ^ 124) * (1 + 1 / 2 ^ 24) + 2 / 2 ^ 150 ≤ 2 ^ 127 := by norm_num
    linarith only [h1, this]
  · refine le_trans hC ?_
    have h1 : (a1 * a1 + a2 * a2 + a3 * a3) * (1 + 3 / 2 ^ 24) ≤
        (2 ^ 124 + 2 ^ 124 + 2 ^ 124) * (1 + 3 / 2 ^ 24) :=
      mul_le_mul_of_nonneg_right (by linarith only [x1le, x2le, x3le]) (by positivity)
    have : ((2 : ℝ) ^ 124 + 2 ^ 124 + 2 ^ 124) * (1 + 3 / 2 ^ 24) + 5 / 2 ^ 150 ≤ 2 ^ 127 := by
      norm_num
    linarith only [h1, this]
  · rw [abs_of_nonneg hr0]
    exact hrle
  · have key := dist_combine d (Real.sqrt s) (Real.sqrt (a1 ^ 2 + a2 ^ 2 + a3 ^ 2))
      (Real.sqrt ((P1 - c1) ^ 2 + (P2 - c2) ^ 2 + (P3 - c3) ^ 2))
      |a1 - (P1 - c1)| |a2 - (P2 - c2)| |a3 - (P3 - c3)| |P1| |P2| |P3|
      |P1 - c1| |P2 - c2| |P3 - c3| hd.1 hd.2 hR.1 hR.2 hN1 hN2 e1 e2 e3 hA1 hA2 hA3 hD0
      (abs_nonneg _) (abs_nonneg _) (abs_nonneg _)
    exact key

/-! ## Properties of the culling -/

/-- The conversion to `float` of a finite `double` of magnitude at most `2 ^ 127`
is the rounding of the number the `double` stands for. -/
theorem toFloat_finite {K : Type} [LinearOrderedField K] [FloorRing K] (x : Double)
    (hf : x.isFinite = true) (hb : |((Double.value x : ℚ) : K)| ≤ 2 ^ 127) :
    (Double.toFloat x : F32 K) = .fin (fl32 ((Double.value x : ℚ) : K)) := by
  unfold Double.toFloat
  rw [isNaN_of_isFinite x hf, hf]
  simp only [Bool.false_eq_true, if_false, if_true]
  exact rnd_fin _ hb

/-- The conversion to `float` of a NaN is a NaN. -/
theorem toFloat_nan {K : Type} [LinearOrderedField K] [FloorRing K] (x : Double)
    (h : x.isNaN = true) : (Double.toFloat x : F32 K) = .nan := by
  unfold Double.toFloat
  rw [if_pos h]

/-- A sum with a NaN on the right is a NaN. -/
theorem add_nan_right {K : Type} [Add K] (a : F32 K) : F32.add a .nan = .nan := by
  cases a <;> rfl

/-- The distance of an entity with a NaN coordinate is a NaN, which does not
exceed any maximum. -/
theorem dist_nan {K : Type} [LinearOrderedField K] [FloorRing K] (lm : Libm K)
    (cfg : EspConfig K) (ent : EntityData)
    (h : ent.posX.isNaN = true ∨ ent.posY.isNaN = true ∨ ent.posZ.isNaN = true) :
    DrawEntityESP.dist lm cfg ent = .nan := by
  have hsub : ∀ b : F32 K, F32.rnd (F32.sub (.nan : F32 K) b) = .nan := by
    intro b
    cases b <;> rfl
  have hmul : F32.rnd (F32.mul (.nan : F32 K) .nan) = .nan := rfl
  have hadd : ∀ a : F32 K, F32.rnd (F32.add a .nan) = .nan := by
    intro a
    rw [add_nan_right]
    rfl
  have hadd' : ∀ a : F32 K, F32.rnd (F32.add .nan a) = .nan := by
    intro a
    cases a <;> rfl
  unfold DrawEntityESP.dist
  rcases h with h | h | h
  · simp only [toFloat_nan _ h, hsub, hmul, hadd']
    rfl
  · simp only [toFloat_nan _ h, hsub, hmul, hadd, hadd']
    rfl
  · simp only [toFloat_nan _ h, hsub, hmul, hadd]
    rfl

/-- The distance `DrawEntityESP` computes for an entity whose position passes
the plausibility test of the reader, with a camera whose coordinates are at
most `2 ^ 60` in magnitude and the square root of the real numbers: a number
that differs from the Euclidean distance `D` between the position and the
camera by at most `(D + |x| + |y| + |z|) / 2 ^ 20 + 1 / 2 ^ 70`. -/
theorem dist_near_euclidean (lm : Libm ℝ) (hlm : lm.sqrtf = Real.sqrt) (cfg : EspConfig ℝ)
    (ent : EntityData) (hpos : positionInBounds ent.posX ent.posY ent.posZ = true)
    (hc1 : |cfg.camPos.x| ≤ 2 ^ 60) (hc2 : |cfg.camPos.y| ≤ 2 ^ 60)
    (hc3 : |cfg.camPos.z| ≤ 2 ^ 60) :
    ∃ d : ℝ, DrawEntityESP.dist lm cfg ent = .fin d ∧
      |d - Real.sqrt ((((Double.value ent.posX : ℚ) : ℝ) - cfg.camPos.x) ^ 2 +
          (((Double.value ent.posY : ℚ) : ℝ) - cfg.camPos.y) ^ 2 +
          (((Double.value ent.posZ : ℚ) : ℝ) - cfg.camPos.z) ^ 2)| ≤
        (Real.sqrt ((((Double.value ent.posX : ℚ) : ℝ) - cfg.camPos.x) ^ 2 +
          (((Double.value ent.posY : ℚ) : ℝ) - cfg.camPos.y) ^ 2 +
          (((Double.value ent.posZ : ℚ) : ℝ) - cfg.camPos.z) ^ 2) +
          |((Double.value ent.posX : ℚ) : ℝ)| + |((Double.value ent.posY : ℚ) : ℝ)| +
          |((Double.value ent.posZ : ℚ) : ℝ)|) / 2 ^ 20 + 1 / 2 ^ 70 := by
  obtain ⟨⟨fx, lx, ux⟩, ⟨fy, ly, uy⟩, ⟨fz, lz, uz⟩⟩ := (positionInBounds_iff _ _ _).mp hpos
  have hP1 : |((Double.value ent.posX : ℚ) : ℝ)| ≤ 30000000 := by
    rw [abs_le]
    constructor
    · have : ((-30000000 : ℚ) : ℝ) ≤ ((Double.value ent.posX : ℚ) : ℝ) :=
        Rat.cast_le.mpr (le_of_lt lx)
      push_cast at this
      exact this
    · have : ((Double.value ent.posX : ℚ) : ℝ) ≤ ((30000000 : ℚ) : ℝ) :=
        Rat.cast_le.mpr (le_of_lt ux)
      push_cast at this
      exact this
  have hP2 : |((Double.value ent.posY : ℚ) : ℝ)| ≤ 30000000 := by
    rw [abs_le]
    constructor
    · have : ((-1000 : ℚ) : ℝ) ≤ ((Double.value ent.posY : ℚ) : ℝ) :=
        Rat.cast_le.mpr (le_of_lt ly)
      push_cast at this
      linarith
    · have : ((Double.value ent.posY : ℚ) : ℝ) ≤ ((1000 : ℚ) : ℝ) :=
        Rat.cast_le.mpr (le_of_lt uy)
      push_cast at this
      linarith
  have hP3 : |((Double.value ent.posZ : ℚ) : ℝ)| ≤ 30000000 := by
    rw [abs_le]
    constructor
    · have : ((-30000000 : ℚ) : ℝ) ≤ ((Double.value ent.posZ : ℚ) : ℝ) :=
        Rat.cast_le.mpr (le_of_lt lz)
      push_cast at this
      exact this
    · have : ((Double.value ent.posZ : ℚ) : ℝ) ≤ ((30000000 : ℚ) : ℝ) :=
        Rat.cast_le.mpr (le_of_lt uz)
      push_cast at this
      exact this
  have hbig : (30000000 : ℝ) ≤ 2 ^ 127 := by norm_num
  have hX := toFloat_finite (K := ℝ) ent.posX fx (le_trans hP1 hbig)
  have hY := toFloat_finite (K := ℝ) ent.posY fy (le_trans hP2 hbig)
  have hZ := toFloat_finite (K := ℝ) ent.posZ fz (le_trans hP3 hbig)
  generalize ((Double.value ent.posX : ℚ) : ℝ) = P1 at hP1 hX ⊢
  generalize ((Double.value ent.posY : ℚ) : ℝ) = P2 at hP2 hY ⊢
  generalize ((Double.value ent.posZ : ℚ) : ℝ) = P3 at hP3 hZ ⊢
  have hb1 : 0 ≤ fl32 (fl32 (fl32 P1 - cfg.camPos.x) * fl32 (fl32 P1 - cfg.camPos.x)) :=
    fl32_nonneg _ (mul_self_nonneg _)
  have hb2 : 0 ≤ fl32 (fl32 (fl32 P2 - cfg.camPos.y) * fl32 (fl32 P2 - cfg.camPos.y)) :=
    fl32_nonneg _ (mul_self_nonneg _)
  have hb3 : 0 ≤ fl32 (fl32 (fl32 P3 - cfg.camPos.z) * fl32 (fl32 P3 - cfg.camPos.z)) :=
    fl32_nonneg _ (mul_self_nonneg _)
  have hs1 : 0 ≤ fl32 (fl32 (fl32 (fl32 P1 - cfg.camPos.x) * fl32 (fl32 P1 - cfg.camPos.x)) +
      fl32 (fl32 (fl32 P2 - cfg.camPos.y) * fl32 (fl32 P2 - cfg.camPos.y))) :=
    fl32_nonneg _ (add_nonneg hb1 hb2)
  have hs0 : 0 ≤ fl32 (fl32 (fl32 (fl32 (fl32 P1 - cfg.camPos.x) * fl32 (fl32 P1 - cfg.camPos.x)) +
        fl32 (fl32 (fl32 P2 - cfg.camPos.y) * fl32 (fl32 P2 - cfg.camPos.y))) +
      fl32 (fl32 (fl32 P3 - cfg.camPos.z) * fl32 (fl32 P3 - cfg.camPos.z))) :=
    fl32_nonneg _ (add_nonneg hs1 hb3)
  obtain ⟨⟨m1, m2, m3⟩, ⟨n1, n2, n3⟩, k1, k2, k3, herr⟩ :=
    dist_analysis P1 P2 P3 cfg.camPos.x cfg.camPos.y cfg.camPos.z
      (fl32 P1) (fl32 P2) (fl32 P3) _ _ _ _ _ _ _ _ _ hP1 hP2 hP3 hc1 hc2 hc3
      (fl32_error P1) (fl32_error P2) (fl32_error P3)
      (fl32_error (fl32 P1 - cfg.camPos.x)) (fl32_error (fl32 P2 - cfg.camPos.y))
      (fl32_error (fl32 P3 - cfg.camPos.z))
      (fl32_error (fl32 (fl32 P1 - cfg.camPos.x) * fl32 (fl32 P1 - cfg.camPos.x)))
      (fl32_error (fl32 (fl32 P2 - cfg.camPos.y) * fl32 (fl32 P2 - cfg.camPos.y)))
      (fl32_error (fl32 (fl32 P3 - cfg.camPos.z) * fl32 (fl32 P3 - cfg.camPos.z)))
      (fl32_error _) (fl32_error _) (fl32_error (Real.sqrt _))
  refine ⟨_, ?_, herr⟩
  unfold DrawEntityESP.dist
  simp only [hX, hY, hZ, F32.sub, F32.neg, F32.add, ← sub_eq_add_neg]
  rw [rnd_fin _ m1, rnd_fin _ m2, rnd_fin _ m3]
  simp only [F32.mul]
  rw [rnd_fin _ n1, rnd_fin _ n2, rnd_fin _ n3]
  simp only [F32.add]
  rw [rnd_fin _ k1]
  simp only [F32.add]
  rw [rnd_fin _ k2]
  simp only [F32.sqrtf]
  rw [if_neg (not_lt.mpr hs0), hlm, rnd_fin _ k3]

/-- The draw list of `DrawEntityESP` is that of the entities that pass the
validity and the distance test. -/
theorem DrawEntityESP_filter {K : Type} [LinearOrderedField K] [FloorRing K] (lm : Libm K)
    (entities : List EntityData) (cfg : EspConfig K) (screenX screenY screenW screenH : K) :
    DrawEntityESP lm entities cfg screenX screenY screenW screenH =
      DrawEntityESP lm
        (entities.filter
          (fun e => e.valid && !F32.lt (.fin cfg.maxDrawDist) (DrawEntityESP.dist lm cfg e)))
        cfg screenX screenY screenW screenH := by
  unfold DrawEntityESP
  split_ifs
  · rfl
  · induction entities with
    | nil => rfl
    | cons e rest ih =>
      rcases entity_eq lm cfg screenX screenY screenW screenH
        (DrawEntityESP.viewProj lm cfg screenW screenH) e with h0 | ⟨hv, hd, _⟩
      · by_cases hk : (e.valid &&
            !F32.lt (.fin cfg.maxDrawDist) (DrawEntityESP.dist lm cfg e)) = true
        · rw [List.filter_cons]
          simp only [hk, if_true, List.flatMap_cons, ih]
        · rw [List.filter_cons]
          simp only [hk, Bool.false_eq_true, if_false, List.flatMap_cons, h0, List.nil_append, ih]
      · have hk : (e.valid &&
            !F32.lt (.fin cfg.maxDrawDist) (DrawEntityESP.dist lm cfg e)) = true := by
          simp [hv, hd]
        rw [List.filter_cons]
        simp only [hk, if_true, List.flatMap_cons, ih]

/-- The rounding of a number in the binade of `2 ^ e` that lies less than half a
quantum from the multiple `n * 2 ^ (e - 23)`. -/
theorem fl32_eval {K : Type} [LinearOrderedField K] [FloorRing K] (x : K) (e n : ℤ)
    (he : -126 ≤ e) (h1 : 2 ^ e ≤ |x|) (h2 : |x| < 2 ^ (e + 1))
    (h3 : (n : K) - 1 / 2 < x / 2 ^ (e - 23)) (h4 : x / 2 ^ (e - 23) < n + 1 / 2) :
    fl32 x = (n : K) * 2 ^ (e - 23) := by
  rw [fl32_binade x e he h1 h2, roundHalfEven_eq _ n h3 h4]

/-- The bits `0xC07000000A7C5AC4` are the double `-1125899950823089 / 2 ^ 42`, a
little below -256. -/
theorem value_dbl_near256 :
    Double.value 0xC07000000A7C5AC4 = -(1125899950823089 / 4398046511104) := by
  unfold Double.value Double.scaled
  norm_num

/-- The `double` `-1125899950823089 / 2 ^ 42` converts to the `float` -256: the
single-precision numbers next to -256 are `2 ^ (-15)` apart, and the `double`
lies less than half of that below -256. -/
theorem toFloat_dbl_near256 : (Double.toFloat 0xC07000000A7C5AC4 : F32 ℝ) = .fin (-256) := by
  have hv : ((Double.value 0xC07000000A7C5AC4 : ℚ) : ℝ) = -(1125899950823089 / 4398046511104) := by
    rw [value_dbl_near256]
    push_cast
    rfl
  have habs : |(-(1125899950823089 / 4398046511104) : ℝ)| =
      1125899950823089 / 4398046511104 := by
    rw [abs_neg, abs_of_pos (by norm_num)]
  rw [toFloat_finite _ (by decide) (by rw [hv, habs]; norm_num), hv]
  have h := fl32_eval (K := ℝ) (-(1125899950823089 / 4398046511104)) 8 (-8388608)
    (by norm_num) (by rw [habs]; norm_num) (by rw [habs]; norm_num) (by norm_num) (by norm_num)
  rw [h]
  norm_num

/-- The box of `nearEntity` is its own bounding box, that of `wallEntity`. -/
theorem box_nearEntity {K : Type} [LinearOrderedField K] [FloorRing K] :
    (DrawEntityESP.box nearEntity : Aabb (F32 K)) =
      ⟨.fin (-1000), .fin (-1000), .fin (-2), .fin 1000, .fin 1000, .fin (-1)⟩ := by
  unfold DrawEntityESP.box
  rw [if_pos (by decide)]
  simp only [nearEntity, wallEntity, toFloat_dbl_1000, toFloat_dbl_neg1000, toFloat_dbl_neg1,
    toFloat_dbl_neg2]

/-- The distance `DrawEntityESP` computes for `nearEntity` from a camera at the
origin, over the reals with the square root of the real numbers: the
position converts to `(0, 0, -256)`, and the distance is 256. -/
theorem dist_nearEntity (cfg : EspConfig ℝ) (hc : cfg.camPos = ⟨0, 0, 0⟩) :
    DrawEntityESP.dist ⟨Real.sin, Real.cos, Real.tan, Real.sqrt⟩ cfg nearEntity = .fin 256 := by
  have r1 : F32.rnd (.fin (-256 : ℝ)) = .fin (-256) := by
    simpa using rnd_int (K := ℝ) (-256) (by norm_num)
  have r2 : F32.rnd (.fin (65536 : ℝ)) = .fin 65536 := by
    simpa using rnd_int (K := ℝ) 65536 (by norm_num)
  have r3 : F32.rnd (.fin (256 : ℝ)) = .fin 256 := by
    simpa using rnd_int (K := ℝ) 256 (by norm_num)
  have hsq : Real.sqrt 65536 = 256 := by
    rw [show (65536 : ℝ) = 256 ^ 2 by norm_num]
    exact Real.sqrt_sq (by norm_num)
  have hx : nearEntity.posX = 0 := rfl
  have hy : nearEntity.posY = 0 := rfl
  have hz : nearEntity.posZ = 0xC07000000A7C5AC4 := rfl
  unfold DrawEntityESP.dist
  simp only [hx, hy, hz, hc, toFloat_zero, toFloat_dbl_near256, F32.sub, F32.neg, F32.add,
    neg_zero, add_zero, rnd_zero, r1, F32.mul, mul_zero, zero_add]
  norm_num
  simp only [zero_add, r2, F32.sqrtf]
  rw [if_neg (by norm_num), hsq, r3]

/-- Counterexample to C22 as stated, over the reals with the functions of the
real library: camera at the origin, maximum draw distance 256, drawable
rectangle 800 by 600. The valid entity `nearEntity` is at the position
`(0, 0, -256.00001)`, so its Euclidean distance from the camera exceeds the
maximum; its position converts to the `float` -256, its computed distance
is 256, and it is drawn. -/
theorem DrawEntityESP_draws_beyond_maxDrawDist :
    nearEntity.valid = true ∧
    ({ camPos := ⟨0, 0, 0⟩, showSnaplines := true } : EspConfig ℝ).maxDrawDist <
      Real.sqrt ((((Double.value nearEntity.posX : ℚ) : ℝ) - 0) ^ 2 +
        (((Double.value nearEntity.posY : ℚ) : ℝ) - 0) ^ 2 +
        (((Double.value nearEntity.posZ : ℚ) : ℝ) - 0) ^ 2) ∧
    DrawEntityESP ⟨Real.sin, Real.cos, Real.tan, Real.sqrt⟩ [nearEntity]
      ({ camPos := ⟨0, 0, 0⟩, showSnaplines := true } : EspConfig ℝ) 0 0 800 600 =
    [DrawCmd.AddRect ⟨0, 0⟩ ⟨800, 600⟩ ⟨255, 153 / 4, 153 / 4, 255⟩ 0 0 2,
     DrawCmd.AddLine ⟨400, 600⟩ ⟨400, 600⟩ ⟨255, 153 / 4, 153 / 4, 255⟩ 1,
     DrawCmd.AddText ⟨0, -14⟩ ⟨255, 153 / 4, 153 / 4, 255⟩ (Label.indexAndDistance 5 256)] := by
  refine ⟨rfl, ?_, ?_⟩
  · have hx : ((Double.value nearEntity.posX : ℚ) : ℝ) = 0 := by
      have : nearEntity.posX = 0 := rfl
      rw [this]
      unfold Double.value
      simp [scaled_zero]
    have hy : ((Double.value nearEntity.posY : ℚ) : ℝ) = 0 := by
      have : nearEntity.posY = 0 := rfl
      rw [this]
      unfold Double.value
      simp [scaled_zero]
    have hz : ((Double.value nearEntity.posZ : ℚ) : ℝ) =
        -(1125899950823089 / 4398046511104) := by
      have : nearEntity.posZ = 0xC07000000A7C5AC4 := rfl
      rw [this, value_dbl_near256]
      push_cast
      rfl
    rw [hx, hy, hz]
    show (256 : ℝ) < _
    rw [Real.lt_sqrt (by norm_num)]
    norm_num
  · obtain ⟨ht0, ht1⟩ := tanHalf_default_bounds
    have hu : 1 < (Real.tan (70 * DEG2RAD ℝ * (1 / 2)))⁻¹ := by
      rw [← one_div]
      exact (one_lt_div ht0).mpr ht1
    have hdist := dist_nearEntity
      ({ camPos := ⟨0, 0, 0⟩, showSnaplines := true } : EspConfig ℝ) rfl
    have hent := entity_covering ⟨Real.sin, Real.cos, Real.tan, Real.sqrt⟩
      ({ camPos := ⟨0, 0, 0⟩, showSnaplines := true } : EspConfig ℝ) 0 0 800 600
      (DrawEntityESP.viewProj ⟨Real.sin, Real.cos, Real.tan, Real.sqrt⟩
        ({ camPos := ⟨0, 0, 0⟩, showSnaplines := true } : EspConfig ℝ) 800 600)
      nearEntity ⟨-1000, -1000, -2⟩ ⟨1000, 1000, -2⟩ _ _ rfl
      (by rw [hdist]; simp [F32.lt])
      (by rw [box_nearEntity]; simp [DrawEntityESP.corners])
      (by rw [box_nearEntity]; simp [DrawEntityESP.corners])
      (WorldToScreen_wall_corner (-1000) (-1000)) (WorldToScreen_wall_corner 1000 1000)
      (by
        simp only [div_eq_mul_inv, mul_inv, inv_inv]
        nlinarith)
      (by
        simp only [div_eq_mul_inv, mul_inv, inv_inv]
        nlinarith)
      (by
        simp only [div_eq_mul_inv, mul_inv, inv_inv]
        nlinarith)
      (by
        simp only [div_eq_mul_inv, mul_inv, inv_inv]
        nlinarith)
      (by norm_num) (by norm_num)
    unfold DrawEntityESP
    rw [if_neg (by norm_num)]
    simp only [List.flatMap_cons, List.flatMap_nil, List.append_nil]
    rw [hent, hdist]
    simp [DrawEntityESP.boxColor, nearEntity, wallEntity]
    norm_num
    rfl

/-- C22 (amended). Culling in `DrawEntityESP`, over the reals: nothing is added to
the draw list when the ESP is disabled or `screenW <= 0` or `screenH <= 0`; no
primitive is added for an entity whose `valid` flag is false, nor for an
entity whose distance from `camPos` as the code computes it in single
precision exceeds `maxDrawDist`; the draw list is that of the entities that
are valid and pass this test, which an entity with a NaN coordinate always
passes. With the square root of the real numbers, for an entity whose
position passes the plausibility test of the reader and a camera with
coordinates of magnitude at most `2 ^ 60`, the computed distance is a number
that differs from the Euclidean distance `D` by at most
`(D + |x| + |y| + |z|) / 2 ^ 20 + 1 / 2 ^ 70`; an entity whose Euclidean distance
exceeds `maxDrawDist` by more than this margin adds no primitive. -/
theorem DrawEntityESP_culling (lm : Libm ℝ) (entities : List EntityData) (cfg : EspConfig ℝ)
    (screenX screenY screenW screenH : ℝ) :
    ((cfg.enabled = false ∨ screenW ≤ 0 ∨ screenH ≤ 0) →
      DrawEntityESP lm entities cfg screenX screenY screenW screenH = []) ∧
    (∀ (viewProj : Mat4 ℝ) (ent : EntityData), ent.valid = false →
      DrawEntityESP.entity lm cfg screenX screenY screenW screenH viewProj ent = []) ∧
    (∀ (viewProj : Mat4 ℝ) (ent : EntityData),
      F32.lt (.fin cfg.maxDrawDist) (DrawEntityESP.dist lm cfg ent) = true →
      DrawEntityESP.entity lm cfg screenX screenY screenW screenH viewProj ent = []) ∧
    DrawEntityESP lm entities cfg screenX screenY screenW screenH =
      DrawEntityESP lm
        (entities.filter
          (fun e => e.valid && !F32.lt (.fin cfg.maxDrawDist) (DrawEntityESP.dist lm cfg e)))
        cfg screenX screenY screenW screenH ∧
    (∀ ent : EntityData,
      (ent.posX.isNaN = true ∨ ent.posY.isNaN = true ∨ ent.posZ.isNaN = true) →
      F32.lt (.fin cfg.maxDrawDist) (DrawEntityESP.dist lm cfg ent) = false) ∧
    (lm.sqrtf = Real.sqrt → |cfg.camPos.x| ≤ 2 ^ 60 → |cfg.camPos.y| ≤ 2 ^ 60 →
      |cfg.camPos.z| ≤ 2 ^ 60 →
      ∀ (viewProj : Mat4 ℝ) (ent : EntityData),
        positionInBounds ent.posX ent.posY ent.posZ = true →
        (∃ d : ℝ, DrawEntityESP.dist lm cfg ent = .fin d ∧
          |d - Real.sqrt ((((Double.value ent.posX : ℚ) : ℝ) - cfg.camPos.x) ^ 2 +
              (((Double.value ent.posY : ℚ) : ℝ) - cfg.camPos.y) ^ 2 +
              (((Double.value ent.posZ : ℚ) : ℝ) - cfg.camPos.z) ^ 2)| ≤
            (Real.sqrt ((((Double.value ent.posX : ℚ) : ℝ) - cfg.camPos.x) ^ 2 +
              (((Double.value ent.posY : ℚ) : ℝ) - cfg.camPos.y) ^ 2 +
              (((Double.value ent.posZ : ℚ) : ℝ) - cfg.camPos.z) ^ 2) +
              |((Double.value ent.posX : ℚ) : ℝ)| + |((Double.value ent.posY : ℚ) : ℝ)| +
              |((Double.value ent.posZ : ℚ) : ℝ)|) / 2 ^ 20 + 1 / 2 ^ 70) ∧
        (cfg.maxDrawDist +
            ((Real.sqrt ((((Double.value ent.posX : ℚ) : ℝ) - cfg.camPos.x) ^ 2 +
              (((Double.value ent.posY : ℚ) : ℝ) - cfg.camPos.y) ^ 2 +
              (((Double.value ent.posZ : ℚ) : ℝ) - cfg.camPos.z) ^ 2) +
              |((Double.value ent.posX : ℚ) : ℝ)| + |((Double.value ent.posY : ℚ) : ℝ)| +
              |((Double.value ent.posZ : ℚ) : ℝ)|) / 2 ^ 20 + 1 / 2 ^ 70) <
          Real.sqrt ((((Double.value ent.posX : ℚ) : ℝ) - cfg.camPos.x) ^ 2 +
              (((Double.value ent.posY : ℚ) : ℝ) - cfg.camPos.y) ^ 2 +
              (((Double.value ent.posZ : ℚ) : ℝ) - cfg.camPos.z) ^ 2) →
          DrawEntityESP.entity lm cfg screenX screenY screenW screenH viewProj ent = [])) := by
  have hfar : ∀ (viewProj : Mat4 ℝ) (ent : EntityData),
      F32.lt (.fin cfg.maxDrawDist) (DrawEntityESP.dist lm cfg ent) = true →
      DrawEntityESP.entity lm cfg screenX screenY screenW screenH viewProj ent = [] := by
    intro viewProj ent hd
    rcases entity_eq lm cfg screenX screenY screenW screenH viewProj ent with h0 | ⟨_, hle, _⟩
    · exact h0
    · rw [hle] at hd
      cases hd
  refine ⟨?_, ?_, hfar, DrawEntityESP_filter lm entities cfg screenX screenY screenW screenH,
    ?_, ?_⟩
  · intro h
    unfold DrawEntityESP
    rw [if_pos h]
  · intro viewProj ent hv
    unfold DrawEntityESP.entity
    rw [if_pos hv]
  · intro ent h
    rw [dist_nan lm cfg ent h]
    rfl
  · intro hlm hc1 hc2 hc3 viewProj ent hpos
    obtain ⟨d, hd, herr⟩ := dist_near_euclidean lm hlm cfg ent hpos hc1 hc2 hc3
    refine ⟨⟨d, hd, herr⟩, ?_⟩
    intro hlt
    apply hfar
    rw [hd]
    simp only [F32.lt, decide_eq_true_eq]
    rw [abs_le] at herr
    linarith [herr.1]

/-- Witness of C22 over the reals with the functions of the real library, camera
at the origin, screen 800 by 600: a valid entity at `(0, 0, 1000)` is at the
Euclidean distance 1000 from the camera, beyond the maximum 256 by more
than the margin, and a list of this entity and an entity that is not valid
gives an empty draw list; so does any list when the ESP is disabled. -/
theorem DrawEntityESP_culling_witness :
    DrawEntityESP ⟨Real.sin, Real.cos, Real.tan, Real.sqrt⟩
      [{ index := 0, posZ := dbl_1000, valid := true }, { index := 1, valid := false }]
      ({ camPos := ⟨0, 0, 0⟩ } : EspConfig ℝ) 0 0 800 600 = [] ∧
    DrawEntityESP ⟨Real.sin, Real.cos, Real.tan, Real.sqrt⟩
      [{ index := 0, valid := true }]
      ({ enabled := false } : EspConfig ℝ) 0 0 800 600 = [] := by
  constructor
  · have h := DrawEntityESP_culling ⟨Real.sin, Real.cos, Real.tan, Real.sqrt⟩
      [{ index := 0, posZ := dbl_1000, valid := true }, { index := 1, valid := false }]
      ({ camPos := ⟨0, 0, 0⟩ } : EspConfig ℝ) 0 0 800 600
    have hx : ((Double.value 0 : ℚ) : ℝ) = 0 := by
      unfold Double.value
      simp [scaled_zero]
    have hz : ((Double.value dbl_1000 : ℚ) : ℝ) = 1000 := by
      rw [value_dbl_1000]
      norm_num
    have hsq : Real.sqrt ((0 - 0) ^ 2 + (0 - 0) ^ 2 + (1000 - 0) ^ 2) = 1000 := by
      rw [show ((0 : ℝ) - 0) ^ 2 + (0 - 0) ^ 2 + (1000 - 0) ^ 2 = 1000 ^ 2 by norm_num]
      exact Real.sqrt_sq (by norm_num)
    have hfar := (h.2.2.2.2.2 rfl (by norm_num) (by norm_num) (by norm_num)
      (DrawEntityESP.viewProj ⟨Real.sin, Real.cos, Real.tan, Real.sqrt⟩
        ({ camPos := ⟨0, 0, 0⟩ } : EspConfig ℝ) 800 600)
      { index := 0, posZ := dbl_1000, valid := true } (by decide)).2
      (by
        simp only [hx, hz, hsq]
        norm_num)
    have hinv := h.2.1
      (DrawEntityESP.viewProj ⟨Real.sin, Real.cos, Real.tan, Real.sqrt⟩
        ({ camPos := ⟨0, 0, 0⟩ } : EspConfig ℝ) 800 600)
      { index := 1, valid := false } rfl
    unfold DrawEntityESP
    rw [if_neg (by norm_num)]
    simp only [List.flatMap_cons, List.flatMap_nil, hfar, hinv, List.append_nil]
  · exact (DrawEntityESP_culling ⟨Real.sin, Real.cos, Real.tan, Real.sqrt⟩
      [{ index := 0, valid := true }]
      ({ enabled := false } : EspConfig ℝ) 0 0 800 600).1 (Or.inl rfl)

/-! ## Properties of the box selection -/

/-- For two `double`s that are not NaN, `a != b` holds exactly when the numbers
they stand for differ. -/
theorem Double_ne_iff (a b : Nat) (ha : Double.isNaN a = false) (hb : Double.isNaN b = false) :
    Double.ne a b = true ↔ Double.value a ≠ Double.value b := by
  unfold Double.ne
  simp only [ha, hb, Bool.false_or, decide_eq_true_eq]
  constructor
  · intro h
    rcases lt_or_gt_of_ne h with h1 | h1
    · exact ne_of_lt ((key_lt_iff a b).mp h1)
    · exact ne_of_gt ((key_lt_iff b a).mp h1)
  · intro h
    rcases lt_or_gt_of_ne h with h1 | h1
    · exact ne_of_lt ((key_lt_iff a b).mpr h1)
    · exact ne_of_gt ((key_lt_iff b a).mpr h1)

/-- The array `corners` holds the 8 corners of its box: every combination of
the minimum or maximum on each axis. -/
theorem mem_corners {K : Type} (b : Aabb K) (c : Vec3 K) :
    c ∈ DrawEntityESP.corners b ↔
      (c.x = b.minX ∨ c.x = b.maxX) ∧ (c.y = b.minY ∨ c.y = b.maxY) ∧
      (c.z = b.minZ ∨ c.z = b.maxZ) := by
  obtain ⟨x, y, z⟩ := c
  unfold DrawEntityESP.corners
  simp only [List.mem_cons, Vec3.mk.injEq, List.mem_singleton, List.not_mem_nil, or_false]
  constructor
  · rintro (h | h | h | h | h | h | h | h) <;> simp [h.1, h.2.1, h.2.2]
  · rintro ⟨hx | hx, hy | hy, hz | hz⟩ <;> simp [hx, hy, hz]

/-- The conversion to `float` of a finite `double` of magnitude at most `2 ^ 127`
is a number within half a unit in the last place of the `double`. -/
theorem toFloat_error {K : Type} [LinearOrderedField K] [FloorRing K] (x : Double)
    (hf : x.isFinite = true) (hb : |((Double.value x : ℚ) : K)| ≤ 2 ^ 127) :
    ∃ a : K, (Double.toFloat x : F32 K) = .fin a ∧
      |a - ((Double.value x : ℚ) : K)| ≤ |((Double.value x : ℚ) : K)| / 2 ^ 24 + 1 / 2 ^ 150 :=
  ⟨_, toFloat_finite x hf hb, fl32_error _⟩

/-- One coordinate of the default box: the position `P` is converted to the
`float` `q`, and the `float` `h` that stands for the offset `t` is added in
single precision. The result differs from `P + t` by at most
`(|P| + 1) / 2 ^ 22`. -/
theorem default_coord_error {K : Type} [LinearOrderedField K] (P q b h t : K)
    (hq : |q - P| ≤ |P| / 2 ^ 24 + 1 / 2 ^ 150)
    (hb : |b - (q + h)| ≤ |q + h| / 2 ^ 24 + 1 / 2 ^ 150)
    (hh : |h| ≤ 2) (ht : |h - t| ≤ 1 / 2 ^ 24) :
    |b - (P + t)| ≤ (|P| + 1) / 2 ^ 22 := by
  have hP0 := abs_nonneg P
  have k1 : |q + h| ≤ |P| + |q - P| + |h| := by
    have := abs_add (P + (q - P)) h
    have e : P + (q - P) + h = q + h := by ring
    rw [e] at this
    have := abs_add P (q - P)
    linarith
  have k2 : |b - (P + t)| ≤ |b - (q + h)| + |q - P| + |h - t| := by
    have h1 := abs_add (b - (q + h)) ((q - P) + (h - t))
    have e : b - (q + h) + ((q - P) + (h - t)) = b - (P + t) := by ring
    rw [e] at h1
    have h2 := abs_add (q - P) (h - t)
    linarith
  have k3 : |q + h| / 2 ^ 24 ≤ (|P| + (|P| / 2 ^ 24 + 1 / 2 ^ 150) + 2) / 2 ^ 24 :=
    div_le_div_of_nonneg_right (by linarith) (by positivity)
  have e3 : (|P| + (|P| / 2 ^ 24 + 1 / 2 ^ 150) + 2) / 2 ^ 24 =
      |P| / 2 ^ 24 + |P| / 2 ^ 24 / 2 ^ 24 + 1 / 2 ^ 150 / 2 ^ 24 + 2 / 2 ^ 24 := by ring
  have k4 : |P| / 2 ^ 24 / 2 ^ 24 ≤ |P| / 2 ^ 24 := by
    apply div_le_self (by positivity)
    norm_num
  have k5 : (1 : K) / 2 ^ 150 / 2 ^ 24 ≤ 1 / 2 ^ 150 := by
    apply div_le_self (by positivity)
    norm_num
  have k6 : (3 : K) / 2 ^ 150 ≤ 1 / 2 ^ 24 := by norm_num
  have e7 : (|P| + 1) / 2 ^ 22 = 4 * (|P| / 2 ^ 24) + 4 / 2 ^ 24 := by ring
  rw [e7]
  linarith

/-- The product `hh * 2.0f` of the default box is the `float` `1.8f`, which is
`15099494 / 2 ^ 23`. -/
theorem fl32_hh2 {K : Type} [LinearOrderedField K] [FloorRing K] :
    F32.rnd (.fin (FLT_0_9 K * 2)) = .fin (15099494 / 8388608) := by
  have h := fl32_exact (K := K) 15099494 (-23) (by norm_num) (by norm_num)
  have e : ((15099494 : ℤ) : K) * 2 ^ (-23 : ℤ) = 15099494 / 8388608 := by
    rw [zpow_neg]
    norm_num
  rw [e] at h
  have e2 : FLT_0_9 K * 2 = 15099494 / 8388608 := by
    unfold FLT_0_9
    norm_num
  rw [e2]
  apply rnd_exact _ h
  unfold FLT_MAX
  rw [abs_of_pos (by norm_num)]
  norm_num

/-- The position of an entity that passes the plausibility test of the reader
is finite, with coordinates of magnitude at most 30000000. -/
theorem position_bounds {K : Type} [LinearOrderedField K] (x y z : Double)
    (h : positionInBounds x y z = true) :
    (x.isFinite = true ∧ |((Double.value x : ℚ) : K)| ≤ 30000000) ∧
    (y.isFinite = true ∧ |((Double.value y : ℚ) : K)| ≤ 30000000) ∧
    (z.isFinite = true ∧ |((Double.value z : ℚ) : K)| ≤ 30000000) := by
  obtain ⟨⟨fx, lx, ux⟩, ⟨fy, ly, uy⟩, ⟨fz, lz, uz⟩⟩ := (positionInBounds_iff _ _ _).mp h
  have key : ∀ v : ℚ, -30000000 < v → v < 30000000 → |((v : ℚ) : K)| ≤ 30000000 := by
    intro v h1 h2
    rw [abs_le]
    constructor
    · have : ((-30000000 : ℚ) : K) ≤ ((v : ℚ) : K) := Rat.cast_le.mpr (le_of_lt h1)
      push_cast at this
      exact this
    · have : ((v : ℚ) : K) ≤ ((30000000 : ℚ) : K) := Rat.cast_le.mpr (le_of_lt h2)
      push_cast at this
      exact this
  exact ⟨⟨fx, key _ lx ux⟩, ⟨fy, key _ (by linarith) (by linarith)⟩, ⟨fz, key _ lz uz⟩⟩

/-- The default box of an entity whose position passes the plausibility test of
the reader: a box of numbers, each within `(|p| + 1) / 2 ^ 22` of the
coordinate of the box with half-width 0.3 and height 1.8 at the position,
where `p` is the position on that axis. -/
theorem box_default_error {K : Type} [LinearOrderedField K] [FloorRing K] (ent : EntityData)
    (hbb : DrawEntityESP.hasBB ent = false)
    (hpos : positionInBounds ent.posX ent.posY ent.posZ = true) :
    ∃ b : Aabb K, (DrawEntityESP.box ent : Aabb (F32 K)) = b.fin ∧
      |b.minX - (defaultBox ent : Aabb K).minX| ≤
        (|((Double.value ent.posX : ℚ) : K)| + 1) / 2 ^ 22 ∧
      |b.minY - (defaultBox ent : Aabb K).minY| ≤
        (|((Double.value ent.posY : ℚ) : K)| + 1) / 2 ^ 22 ∧
      |b.minZ - (defaultBox ent : Aabb K).minZ| ≤
        (|((Double.value ent.posZ : ℚ) : K)| + 1) / 2 ^ 22 ∧
      |b.maxX - (defaultBox ent : Aabb K).maxX| ≤
        (|((Double.value ent.posX : ℚ) : K)| + 1) / 2 ^ 22 ∧
      |b.maxY - (defaultBox ent : Aabb K).maxY| ≤
        (|((Double.value ent.posY : ℚ) : K)| + 1) / 2 ^ 22 ∧
      |b.maxZ - (defaultBox ent : Aabb K).maxZ| ≤
        (|((Double.value ent.posZ : ℚ) : K)| + 1) / 2 ^ 22 := by
  obtain ⟨⟨fx, hP1⟩, ⟨fy, hP2⟩, ⟨fz, hP3⟩⟩ :=
    position_bounds (K := K) ent.posX ent.posY ent.posZ hpos
  have hbig : (30000000 : K) ≤ 2 ^ 127 := by norm_num
  have hX := toFloat_finite (K := K) ent.posX fx (le_trans hP1 hbig)
  have hY := toFloat_finite (K := K) ent.posY fy (le_trans hP2 hbig)
  have hZ := toFloat_finite (K := K) ent.posZ fz (le_trans hP3 hbig)
  unfold defaultBox
  simp only
  generalize ((Double.value ent.posX : ℚ) : K) = P1 at hP1 hX ⊢
  generalize ((Double.value ent.posY : ℚ) : K) = P2 at hP2 hY ⊢
  generalize ((Double.value ent.posZ : ℚ) : K) = P3 at hP3 hZ ⊢
  have h3 : |FLT_0_3 K| ≤ 2 := by
    unfold FLT_0_3
    rw [abs_of_pos (by norm_num)]
    norm_num
  have h3n : |-FLT_0_3 K| ≤ 2 := by rwa [abs_neg]
  have t3 : |FLT_0_3 K - 3 / 10| ≤ 1 / 2 ^ 24 := by
    unfold FLT_0_3
    rw [abs_of_pos (by norm_num)]
    norm_num
  have t3n : |-FLT_0_3 K - -(3 / 10)| ≤ 1 / 2 ^ 24 := by
    have e : -FLT_0_3 K - -(3 / 10) = -(FLT_0_3 K - 3 / 10) := by ring
    rwa [e, abs_neg]
  have h9 : |(15099494 / 8388608 : K)| ≤ 2 := by
    rw [abs_of_pos (by norm_num)]
    norm_num
  have t9 : |(15099494 / 8388608 : K) - 18 / 10| ≤ 1 / 2 ^ 24 := by
    rw [abs_of_neg (by norm_num)]
    norm_num
  have bound : ∀ P h : K, |P| ≤ 30000000 → |h| ≤ 2 → |fl32 P + h| ≤ 2 ^ 127 := by
    intro P h hP hh
    have h1 := fl32_abs_le P
    have h2 := abs_add (fl32 P) h
    have h4 : |P| / 2 ^ 24 ≤ 30000000 / 2 ^ 24 := div_le_div_of_nonneg_right hP (by positivity)
    have h5 : (30000000 : K) + (30000000 / 2 ^ 24 + 1 / 2 ^ 150) + 2 ≤ 2 ^ 127 := by norm_num
    linarith
  refine ⟨⟨fl32 (fl32 P1 + -FLT_0_3 K), fl32 P2, fl32 (fl32 P3 + -FLT_0_3 K),
    fl32 (fl32 P1 + FLT_0_3 K), fl32 (fl32 P2 + 15099494 / 8388608),
    fl32 (fl32 P3 + FLT_0_3 K)⟩, ?_, ?_, ?_, ?_, ?_, ?_, ?_⟩
  · unfold DrawEntityESP.box
    rw [if_neg (by simp [hbb])]
    simp only [hX, hY, hZ, F32.sub, F32.neg, F32.add, F32.mul, fl32_hh2]
    rw [rnd_fin _ (bound P1 _ hP1 h3n), rnd_fin _ (bound P3 _ hP3 h3n),
      rnd_fin _ (bound P1 _ hP1 h3), rnd_fin _ (bound P3 _ hP3 h3),
      rnd_fin _ (bound P2 _ hP2 h9)]
    rfl
  · simp only [sub_eq_add_neg P1]
    exact default_coord_error P1 (fl32 P1) _ (-FLT_0_3 K) (-(3 / 10)) (fl32_error P1)
      (fl32_error _) h3n t3n
  · have h := fl32_error P2
    have e7 : (|P2| + 1) / 2 ^ 22 = 4 * (|P2| / 2 ^ 24) + 4 / 2 ^ 24 := by ring
    have k6 : (1 : K) / 2 ^ 150 ≤ 4 / 2 ^ 24 := by norm_num
    have := abs_nonneg P2
    rw [e7]
    linarith
  · simp only [sub_eq_add_neg P3]
    exact default_coord_error P3 (fl32 P3) _ (-FLT_0_3 K) (-(3 / 10)) (fl32_error P3)
      (fl32_error _) h3n t3n
  · exact default_coord_error P1 (fl32 P1) _ (FLT_0_3 K) (3 / 10) (fl32_error P1)
      (fl32_error _) h3 t3
  · exact default_coord_error P2 (fl32 P2) _ (15099494 / 8388608) (18 / 10) (fl32_error P2)
      (fl32_error _) h9 t9
  · exact default_coord_error P3 (fl32 P3) _ (FLT_0_3 K) (3 / 10) (fl32_error P3)
      (fl32_error _) h3 t3

/-- The bits `0x417312D000000000` are the double 20000000. -/
theorem value_dbl_2e7 : Double.value 0x417312D000000000 = 20000000 := by
  unfold Double.value Double.scaled
  norm_num

/-- The `double` 20000000 converts to the `float` 20000000, which is
`10000000 * 2`. -/
theorem toFloat_dbl_2e7 {K : Type} [LinearOrderedField K] [FloorRing K] :
    (Double.toFloat 0x417312D000000000 : F32 K) = .fin 20000000 := by
  have h := fl32_exact (K := K) 10000000 1 (by norm_num) (by norm_num)
  have e : ((10000000 : ℤ) : K) * 2 ^ (1 : ℤ) = 20000000 := by norm_num
  rw [e] at h
  apply toFloat_exact _ _ (by decide) _ h
  · unfold FLT_MAX
    rw [abs_of_pos (by norm_num)]
    norm_num
  · rw [value_dbl_2e7]
    norm_num

/-- Next to 20000000 the single-precision numbers are 2 apart: adding or
subtracting `0.3f` gives 20000000 again. Next to 0 the sums with `0.3f` and
`1.8f` are exact. -/
theorem rnd_default_offsets :
    F32.rnd (.fin ((20000000 : ℝ) + -(10066330 / 33554432))) = .fin 20000000 ∧
    F32.rnd (.fin ((20000000 : ℝ) + 10066330 / 33554432)) = .fin 20000000 ∧
    F32.rnd (.fin ((0 : ℝ) + -(10066330 / 33554432))) = .fin (-(10066330 / 33554432)) ∧
    F32.rnd (.fin ((0 : ℝ) + 10066330 / 33554432)) = .fin (10066330 / 33554432) ∧
    F32.rnd (.fin ((0 : ℝ) + 15099494 / 8388608)) = .fin (15099494 / 8388608) := by
  have hmax : (2 : ℝ) ^ 127 ≤ FLT_MAX ℝ := by
    unfold FLT_MAX
    norm_num
  refine ⟨?_, ?_, ?_, ?_, ?_⟩
  · have a : |(20000000 : ℝ) + -(10066330 / 33554432)| = 20000000 - 10066330 / 33554432 := by
      rw [abs_of_pos (by norm_num)]
      ring
    rw [rnd_fin _ (by rw [a]; norm_num)]
    have h := fl32_eval (K := ℝ) (20000000 + -(10066330 / 33554432)) 24 10000000
      (by norm_num) (by rw [a]; norm_num) (by rw [a]; norm_num) (by norm_num) (by norm_num)
    rw [h]
    norm_num
  · have a : |(20000000 : ℝ) + 10066330 / 33554432| = 20000000 + 10066330 / 33554432 := by
      rw [abs_of_pos (by norm_num)]
    rw [rnd_fin _ (by rw [a]; norm_num)]
    have h := fl32_eval (K := ℝ) (20000000 + 10066330 / 33554432) 24 10000000
      (by norm_num) (by rw [a]; norm_num) (by rw [a]; norm_num) (by norm_num) (by norm_num)
    rw [h]
    norm_num
  · have h := fl32_exact (K := ℝ) (-10066330) (-25) (by norm_num) (by norm_num)
    have e : ((-10066330 : ℤ) : ℝ) * 2 ^ (-25 : ℤ) = 0 + -(10066330 / 33554432) := by
      rw [zpow_neg]
      norm_num
    rw [e] at h
    have r := rnd_exact _ h (by
      refine le_trans ?_ hmax
      rw [zero_add, abs_neg, abs_of_pos (by norm_num)]
      norm_num)
    rw [r, zero_add]
  · have h := fl32_exact (K := ℝ) 10066330 (-25) (by norm_num) (by norm_num)
    have e : ((10066330 : ℤ) : ℝ) * 2 ^ (-25 : ℤ) = 0 + 10066330 / 33554432 := by
      rw [zpow_neg]
      norm_num
    rw [e] at h
    have r := rnd_exact _ h (by
      refine le_trans ?_ hmax
      rw [zero_add, abs_of_pos (by norm_num)]
      norm_num)
    rw [r, zero_add]
  · have h := fl32_exact (K := ℝ) 15099494 (-23) (by norm_num) (by norm_num)
    have e : ((15099494 : ℤ) : ℝ) * 2 ^ (-23 : ℤ) = 0 + 15099494 / 8388608 := by
      rw [zpow_neg]
      norm_num
    rw [e] at h
    have r := rnd_exact _ h (by
      refine le_trans ?_ hmax
      rw [zero_add, abs_of_pos (by norm_num)]
      norm_num)
    rw [r, zero_add]

/-- Counterexample to C26 as stated, over the reals: the entity `farEastEntity`
is valid, at the position `(20000000, 0, 0)`, which passes the plausibility
test of the reader, with the all-zero bounding box, and in range of a
camera at its position. The box whose corners are projected reaches from
20000000 to 20000000 in X, so its half-width in X is 0, not 0.3: the
single-precision numbers next to 20000000 are 2 apart. In Z it reaches from
`-0.3f` to `0.3f` and in Y from 0 to `1.8f`. -/
theorem DrawEntityESP_default_box_flat :
    farEastEntity.valid = true ∧
    positionInBounds farEastEntity.posX farEastEntity.posY farEastEntity.posZ = true ∧
    DrawEntityESP.hasBB farEastEntity = false ∧
    F32.lt (.fin ({ camPos := ⟨20000000, 0, 0⟩ } : EspConfig ℝ).maxDrawDist)
      (DrawEntityESP.dist ⟨Real.sin, Real.cos, Real.tan, Real.sqrt⟩
        ({ camPos := ⟨20000000, 0, 0⟩ } : EspConfig ℝ) farEastEntity) = false ∧
    (DrawEntityESP.box farEastEntity : Aabb (F32 ℝ)) =
      ⟨.fin 20000000, .fin 0, .fin (-(10066330 / 33554432)),
       .fin 20000000, .fin (15099494 / 8388608), .fin (10066330 / 33554432)⟩ ∧
    (defaultBox farEastEntity : Aabb ℝ) =
      ⟨20000000 - 3 / 10, 0, 0 - 3 / 10, 20000000 + 3 / 10, 0 + 18 / 10, 0 + 3 / 10⟩ := by
  have hx : farEastEntity.posX = 0x417312D000000000 := rfl
  have hy : farEastEntity.posY = 0 := rfl
  have hz : farEastEntity.posZ = 0 := rfl
  have hv0 : ((Double.value 0 : ℚ) : ℝ) = 0 := by
    unfold Double.value
    simp [scaled_zero]
  obtain ⟨o1, o2, o3, o4, o5⟩ := rnd_default_offsets
  refine ⟨rfl, by decide, by decide, ?_, ?_, ?_⟩
  · rw [dist_at_camera _ _ _ Real.sqrt_zero (by rw [hx]; exact toFloat_dbl_2e7)
      (by rw [hy]; exact toFloat_zero) (by rw [hz]; exact toFloat_zero)]
    simp [F32.lt]
  · unfold DrawEntityESP.box
    rw [if_neg (by decide)]
    simp only [hx, hy, hz, toFloat_dbl_2e7, toFloat_zero, F32.sub, F32.neg, F32.add, F32.mul,
      fl32_hh2]
    unfold FLT_0_3
    rw [o1, o2, o3, o4, o5]
  · unfold defaultBox
    rw [hx, hy, hz, value_dbl_2e7, hv0]
    norm_num

/-- C26 (amended). Box selection in `DrawEntityESP`: for every valid entity that
passes the distance test, the primitives are those of the screen bounds of
the 8 projected corners of the box `DrawEntityESP.box`. That box holds the six
box fields of the entity, converted to `float`, exactly when `max != min` on at
least one axis (for fields that are not NaN: when the two numbers differ);
the conversion of a finite field of magnitude at most `2 ^ 127` is a number
within half a unit in the last place of the field. When max equals min on
all three axes the box is computed in single precision from the converted
position, `0.3f` and `0.9f * 2.0f`; for a position that passes the plausibility
test of the reader it is a box of numbers, each within `(|p| + 1) / 2 ^ 22` of
the coordinate of the box with half-width 0.3 in X and Z and height 1.8 at
the position, where `p` is the position on that axis. -/
theorem DrawEntityESP_box_selection {K : Type} [LinearOrderedField K] [FloorRing K]
    (lm : Libm K) (cfg : EspConfig K) (screenX screenY screenW screenH : K) (viewProj : Mat4 K)
    (ent : EntityData) (hv : ent.valid = true)
    (hd : F32.lt (.fin cfg.maxDrawDist) (DrawEntityESP.dist lm cfg ent) = false) :
    (DrawEntityESP.hasBB ent = true ↔
      (Double.ne ent.bbMaxX ent.bbMinX = true ∨ Double.ne ent.bbMaxY ent.bbMinY = true ∨
        Double.ne ent.bbMaxZ ent.bbMinZ = true)) ∧
    (Double.isNaN ent.bbMinX = false → Double.isNaN ent.bbMinY = false →
      Double.isNaN ent.bbMinZ = false → Double.isNaN ent.bbMaxX = false →
      Double.isNaN ent.bbMaxY = false → Double.isNaN ent.bbMaxZ = false →
      (DrawEntityESP.hasBB ent = true ↔
        (Double.value ent.bbMaxX ≠ Double.value ent.bbMinX ∨
          Double.value ent.bbMaxY ≠ Double.value ent.bbMinY ∨
          Double.value ent.bbMaxZ ≠ Double.value ent.bbMinZ))) ∧
    DrawEntityESP.entity lm cfg screenX screenY screenW screenH viewProj ent =
      DrawEntityESP.emit cfg screenX screenY screenW screenH ent (DrawEntityESP.dist lm cfg ent)
        (DrawEntityESP.project viewProj screenX screenY screenW screenH
          (DrawEntityESP.corners (DrawEntityESP.box ent))) ∧
    (DrawEntityESP.hasBB ent = true →
      (DrawEntityESP.box ent : Aabb (F32 K)) =
        ⟨Double.toFloat ent.bbMinX, Double.toFloat ent.bbMinY, Double.toFloat ent.bbMinZ,
         Double.toFloat ent.bbMaxX, Double.toFloat ent.bbMaxY, Double.toFloat ent.bbMaxZ⟩) ∧
    (∀ x : Double, x.isFinite = true → |((Double.value x : ℚ) : K)| ≤ 2 ^ 127 →
      ∃ a : K, (Double.toFloat x : F32 K) = .fin a ∧
        |a - ((Double.value x : ℚ) : K)| ≤ |((Double.value x : ℚ) : K)| / 2 ^ 24 + 1 / 2 ^ 150) ∧
    (DrawEntityESP.hasBB ent = false →
      positionInBounds ent.posX ent.posY ent.posZ = true →
      ∃ b : Aabb K, (DrawEntityESP.box ent : Aabb (F32 K)) = b.fin ∧
        |b.minX - (defaultBox ent : Aabb K).minX| ≤
          (|((Double.value ent.posX : ℚ) : K)| + 1) / 2 ^ 22 ∧
        |b.minY - (defaultBox ent : Aabb K).minY| ≤
          (|((Double.value ent.posY : ℚ) : K)| + 1) / 2 ^ 22 ∧
        |b.minZ - (defaultBox ent : Aabb K).minZ| ≤
          (|((Double.value ent.posZ : ℚ) : K)| + 1) / 2 ^ 22 ∧
        |b.maxX - (defaultBox ent : Aabb K).maxX| ≤
          (|((Double.value ent.posX : ℚ) : K)| + 1) / 2 ^ 22 ∧
        |b.maxY - (defaultBox ent : Aabb K).maxY| ≤
          (|((Double.value ent.posY : ℚ) : K)| + 1) / 2 ^ 22 ∧
        |b.maxZ - (defaultBox ent : Aabb K).maxZ| ≤
          (|((Double.value ent.posZ : ℚ) : K)| + 1) / 2 ^ 22) ∧
    (DrawEntityESP.corners (DrawEntityESP.box ent : Aabb (F32 K))).length = 8 ∧
    (∀ c : Vec3 (F32 K), c ∈ DrawEntityESP.corners (DrawEntityESP.box ent : Aabb (F32 K)) ↔
      (c.x = (DrawEntityESP.box ent : Aabb (F32 K)).minX ∨
        c.x = (DrawEntityESP.box ent : Aabb (F32 K)).maxX) ∧
      (c.y = (DrawEntityESP.box ent : Aabb (F32 K)).minY ∨
        c.y = (DrawEntityESP.box ent : Aabb (F32 K)).maxY) ∧
      (c.z = (DrawEntityESP.box ent : Aabb (F32 K)).minZ ∨
        c.z = (DrawEntityESP.box ent : Aabb (F32 K)).maxZ)) := by
  have hentity : DrawEntityESP.entity lm cfg screenX screenY screenW screenH viewProj ent =
      DrawEntityESP.emit cfg screenX screenY screenW screenH ent (DrawEntityESP.dist lm cfg ent)
        (DrawEntityESP.project viewProj screenX screenY screenW screenH
          (DrawEntityESP.corners (DrawEntityESP.box ent))) := by
    unfold DrawEntityESP.entity
    simp only [hv, hd, Bool.true_eq_false, Bool.false_eq_true, if_false]
  have hiff : DrawEntityESP.hasBB ent = true ↔
      (Double.ne ent.bbMaxX ent.bbMinX = true ∨ Double.ne ent.bbMaxY ent.bbMinY = true ∨
        Double.ne ent.bbMaxZ ent.bbMinZ = true) := by
    unfold DrawEntityESP.hasBB
    simp only [Bool.or_eq_true, or_assoc]
  refine ⟨hiff, ?_, hentity, ?_, fun x hf hb => toFloat_error x hf hb,
    fun hb hpos => box_default_error ent hb hpos, rfl, fun c => mem_corners _ c⟩
  · intro n1 n2 n3 n4 n5 n6
    rw [hiff, Double_ne_iff _ _ n4 n1, Double_ne_iff _ _ n5 n2, Double_ne_iff _ _ n6 n3]
  · intro hb
    unfold DrawEntityESP.box
    rw [if_pos hb]

/-- Witness of C26 over the reals (camera at the origin, screen 800 by 600): the
box of `wallEntity`, whose maximum differs from its minimum, is its own
bounding box from `(-1000, -1000, -2)` to `(1000, 1000, -1)`; the box of a valid
entity at the origin with the all-zero default bounding box is a box of
numbers within `1 / 2 ^ 22` of the box from `(-0.3, 0, -0.3)` to `(0.3, 1.8, 0.3)`. -/
theorem DrawEntityESP_box_selection_witness :
    (DrawEntityESP.box wallEntity : Aabb (F32 ℝ)) =
      ⟨.fin (-1000), .fin (-1000), .fin (-2), .fin 1000, .fin 1000, .fin (-1)⟩ ∧
    ∃ b : Aabb ℝ, (DrawEntityESP.box ({ index := 2, valid := true } : EntityData) :
        Aabb (F32 ℝ)) = b.fin ∧
      |b.minX - (0 - 3 / 10)| ≤ 1 / 2 ^ 22 ∧ |b.minY - 0| ≤ 1 / 2 ^ 22 ∧
      |b.minZ - (0 - 3 / 10)| ≤ 1 / 2 ^ 22 ∧ |b.maxX - (0 + 3 / 10)| ≤ 1 / 2 ^ 22 ∧
      |b.maxY - (0 + 18 / 10)| ≤ 1 / 2 ^ 22 ∧ |b.maxZ - (0 + 3 / 10)| ≤ 1 / 2 ^ 22 := by
  have hdist : ∀ ent : EntityData, ent.posX = 0 → ent.posY = 0 → ent.posZ = 0 →
      F32.lt (.fin ({ camPos := ⟨0, 0, 0⟩ } : EspConfig ℝ).maxDrawDist)
        (DrawEntityESP.dist ⟨Real.sin, Real.cos, Real.tan, Real.sqrt⟩
          ({ camPos := ⟨0, 0, 0⟩ } : EspConfig ℝ) ent) = false := by
    intro ent hx hy hz
    rw [dist_at_camera _ _ _ Real.sqrt_zero (by rw [hx]; exact toFloat_zero)
      (by rw [hy]; exact toFloat_zero) (by rw [hz]; exact toFloat_zero)]
    simp [F32.lt]
  have hv0 : ((Double.value 0 : ℚ) : ℝ) = 0 := by
    unfold Double.value
    simp [scaled_zero]
  constructor
  · have h := (DrawEntityESP_box_selection ⟨Real.sin, Real.cos, Real.tan, Real.sqrt⟩
      ({ camPos := ⟨0, 0, 0⟩ } : EspConfig ℝ) 0 0 800 600
      (DrawEntityESP.viewProj ⟨Real.sin, Real.cos, Real.tan, Real.sqrt⟩
        ({ camPos := ⟨0, 0, 0⟩ } : EspConfig ℝ) 800 600)
      wallEntity rfl (hdist wallEntity rfl rfl rfl)).2.2.2.1 (by decide)
    rw [h]
    simp only [wallEntity, toFloat_dbl_1000, toFloat_dbl_neg1000, toFloat_dbl_neg1,
      toFloat_dbl_neg2]
  · have h := (DrawEntityESP_box_selection ⟨Real.sin, Real.cos, Real.tan, Real.sqrt⟩
      ({ camPos := ⟨0, 0, 0⟩ } : EspConfig ℝ) 0 0 800 600
      (DrawEntityESP.viewProj ⟨Real.sin, Real.cos, Real.tan, Real.sqrt⟩
        ({ camPos := ⟨0, 0, 0⟩ } : EspConfig ℝ) 800 600)
      { index := 2, valid := true } rfl (hdist _ rfl rfl rfl)).2.2.2.2.2.1 (by decide)
      (by decide)
    obtain ⟨b, hb, h1, h2, h3, h4, h5, h6⟩ := h
    refine ⟨b, hb, ?_, ?_, ?_, ?_, ?_, ?_⟩
    · simpa [defaultBox, hv0] using h1
    · simpa [defaultBox, hv0] using h2
    · simpa [defaultBox, hv0] using h3
    · simpa [defaultBox, hv0] using h4
    · simpa [defaultBox, hv0] using h5
    · simpa [defaultBox, hv0] using h6

end Trolling
